import Mathlib

/-!
# Mascon lever translator: translation engine

Shallow embedding of the translation engine of `Untitled-1.cpp`
(`match_combo`, `sendArrowKey`, `sendMouseScroll`, the polling loop of `main`:
auxiliary block, credit repeat logic, exit check and lever part, and the
configuration file functions `save_config` and `load_config`), followed by the
properties proved about it.

Conventions of the embedding:
* `std::set<int>` is a `Finset Int`; `std::includes` on two sets is `⊆`,
  `size()` is `Finset.card`.
* C++ `int` / `long long` values are `Int`; none of the arithmetic below can
  overflow for the values the loop handles (indices, small differences and
  clock differences).
* `std::chrono::steady_clock::now()` readings are an input of every tick, as an
  integer number of clock periods; `duration_cast<milliseconds>` is truncating
  division by `ticksPerMs`.
* `SendInput` calls and `sleep_for` calls are recorded, in program order, as a
  list of `Action`s. Console output is not recorded.
* The joystick is polled twice per iteration (auxiliary block, lever part);
  both polls are inputs of the iteration. The settings menu is not entered.
* A `std::string` is a `List Char` and a file is its content; the translation
  of line ends done by text-mode streams is not modelled.
-/

namespace Mascon

/-! ## Synthetic input sink -/

/-- One observable effect of the loop: a keyboard `SendInput` (virtual key,
whether `KEYEVENTF_SCANCODE` is set, whether `KEYEVENTF_KEYUP` is set), a
mouse-wheel `SendInput`, or a blocking `sleep_for` in milliseconds. -/
inductive Action where
  | key (vk : Int) (scancode : Bool) (up : Bool)
  | wheel (amount : Int)
  | sleep (ms : Int)
  deriving DecidableEq

/-- Win32 virtual-key code `VK_UP`. -/
def VK_UP : Int := 0x26

/-- Win32 virtual-key code `VK_DOWN`. -/
def VK_DOWN : Int := 0x28

/-- `sendMouseScroll(amount)`: one wheel event. -/
def sendMouseScroll (amount : Int) : List Action :=
  [Action.wheel amount]

/-- `sendArrowKey(key, hold_ms)`: key down, sleep `hold_ms`, key up. Its callers
pass `VK_UP` and `VK_DOWN` only, which the 16-bit field `wVk` holds unchanged. -/
def sendArrowKey (key : Int) (hold_ms : Int) : List Action :=
  [Action.key key false false, Action.sleep hold_ms, Action.key key false true]

/-! ## Combo matcher -/

/-- The `for` loop of `match_combo`, started at index `i` with the running
`best` and `best_size`; returns the final `(best, best_size)`. -/
def match_combo_loop (pressed : Finset Int) :
    List (Finset Int) → Nat → Int → Int → Int × Int
  | [], _, best, best_size => (best, best_size)
  | combo :: rest, i, best, best_size =>
    if combo ⊆ pressed then
      if (combo.card : Int) > best_size then
        match_combo_loop pressed rest (i + 1) (i : Int) (combo.card : Int)
      else
        match_combo_loop pressed rest (i + 1) best best_size
    else
      match_combo_loop pressed rest (i + 1) best best_size

/-- `match_combo(pressed, combos)`: index of the largest combo contained in
`pressed` (first one on equal size), or `-1`. -/
def match_combo (pressed : Finset Int) (combos : List (Finset Int)) : Int :=
  (match_combo_loop pressed combos 0 (-1) (-1)).1

/-! ## Configuration and lever state -/

/-- `struct Config` with its default member values; `std::string` is a list of
characters. -/
structure Config where
  debounce_ms : Int := 30
  up_down_delay_ms : Int := 25
  mouse_scroll_delay_ms : Int := 20
  key_hold_time_ms : Int := 10
  last_mode : Int := 0
  last_joystick : Int := 0
  language : List Char := "en".toList
  profile : List Char := "Default".toList
  lever_mappings : List (Finset Int) :=
    [{9}, {8}, {8, 9}, {7}, {7, 9}, {7, 8}, {7, 8, 9}, {6}, {6, 9}, {6, 8},
     {6, 8, 9}, {6, 7}, {6, 7, 9}, {6, 7, 8}, {6, 7, 8, 9}]
  big_horn_button : Int := -1
  small_horn_button : Int := -1
  credit_button : Int := -1
  test_menu_button : Int := -1
  debug_mission_button : Int := -1
  lever_keycodes : List Int := List.replicate 15 0

/-- The value of `default_config`. -/
def default_config : Config := {}

/-- The lever variables of `main` that live across loop iterations:
`last_idx`, `stable_idx`, `last_event_time`. (`last_pressed` is written every
iteration and never read; it is left out.) -/
structure LeverState where
  last_idx : Int
  stable_idx : Int
  last_event_time : Int
  deriving DecidableEq

/-- The lever variables as initialised before the loop; `start` is the clock
reading taken for `last_event_time`. -/
def LeverState.init (start : Int) : LeverState :=
  { last_idx := -1, stable_idx := -1, last_event_time := start }

/-- What one loop iteration reads from outside: the pressed buttons, the clock
reading `now` taken before the debounce test, and the clock reading `after`
taken at the end of the commit branch (after the pacing sleeps). -/
structure Tick where
  pressed : Finset Int
  now : Int
  after : Int

/-- Clock periods per millisecond (`steady_clock::period` is a nanosecond). -/
def ticksPerMs : Int := 1000000

/-- The value of `elapsed`: milliseconds from `since` to `now`, truncated. -/
def elapsedMs (now since : Int) : Int :=
  (now - since).tdiv ticksPerMs

/-- The candidate update of the loop body:
`if (idx != stable_idx) { stable_idx = idx; last_event_time = now; }`. -/
def candidateUpdate (s : LeverState) (idx now : Int) : LeverState :=
  if idx ≠ s.stable_idx then
    { s with stable_idx := idx, last_event_time := now }
  else s

/-- The debounce test and the stepwise output driver of the loop body, run on
the state `s1` left by the candidate update. -/
def debounceStep (cfg : Config) (mode : Int) (s1 : LeverState) (idx now after : Int) :
    LeverState × List Action :=
  let elapsed := elapsedMs now s1.last_event_time
  if idx ≠ -1 ∧ idx ≠ s1.last_idx ∧ elapsed ≥ cfg.debounce_ms then
    if s1.last_idx ≠ -1 then
      let diff := idx - s1.last_idx
      let step : Int := if diff > 0 then 1 else -1
      let next_idx := s1.last_idx + step
      let out : List Action :=
        if mode = 0 then
          sendArrowKey (if step > 0 then VK_DOWN else VK_UP) cfg.key_hold_time_ms
            ++ [Action.sleep cfg.up_down_delay_ms]
        else if mode = 1 then
          sendMouseScroll (if step > 0 then -120 else 120)
            ++ [Action.sleep cfg.mouse_scroll_delay_ms]
        else []
      ({ s1 with last_idx := next_idx, last_event_time := after }, out)
    else if idx = 9 then
      ({ s1 with last_idx := idx, last_event_time := after }, [])
    else
      ({ s1 with last_event_time := after }, [])
  else
    (s1, [])

/-- The lever part of one loop iteration (from `match_combo` to the end of the
loop body), for output mode `mode`. Returns the new lever state and the
actions performed, in order. In direct-key mode with a position in range the
iteration ends at `continue` and the lever variables are untouched;
`lever_keycodes` always holds 15 entries (`Config()` and `load_config` size it
so), hence the guarded index `idx < 15` is in range. The `int` key code is
stored in the 16-bit field `wVk`, so the key sent is the code modulo 65536. -/
def leverTick (cfg : Config) (mode : Int) (s : LeverState) (t : Tick) :
    LeverState × List Action :=
  let idx := match_combo t.pressed cfg.lever_mappings
  if mode = 2 ∧ idx ≥ 0 ∧ idx < 15 then
    let vk := cfg.lever_keycodes.getD idx.toNat 0
    if vk > 0 then
      (s, [Action.key (vk % 65536) false false, Action.sleep 10,
           Action.key (vk % 65536) false true, Action.sleep 200])
    else
      (s, [])
  else
    debounceStep cfg mode (candidateUpdate s idx t.now) idx t.now t.after

/-! ## Auxiliary definitions used by the statements -/

/-- The raw match of a tick: the value of `idx`. -/
def idxOf (cfg : Config) (t : Tick) : Int :=
  match_combo t.pressed cfg.lever_mappings

/-- The value `last_event_time` has when `elapsed` is computed on tick `t`
(after the candidate update of the tick). -/
def dwellStart (cfg : Config) (s : LeverState) (t : Tick) : Int :=
  if idxOf cfg t ≠ s.stable_idx then t.now else s.last_event_time

/-- The dwell condition of the debounce test on tick `t`:
`elapsed >= config.debounce_ms`. -/
def dwellOk (cfg : Config) (s : LeverState) (t : Tick) : Prop :=
  elapsedMs t.now (dwellStart cfg s t) ≥ cfg.debounce_ms

instance (cfg : Config) (s : LeverState) (t : Tick) : Decidable (dwellOk cfg s t) :=
  inferInstanceAs (Decidable (_ ≥ _))

/-- The loop run on a finite sequence of ticks with a fixed configuration and
mode: final lever state and all actions, in order. -/
def leverRun (cfg : Config) (mode : Int) : LeverState → List Tick → LeverState × List Action
  | s, [] => (s, [])
  | s, t :: ts =>
    ((leverRun cfg mode (leverTick cfg mode s t).1 ts).1,
     (leverTick cfg mode s t).2 ++ (leverRun cfg mode (leverTick cfg mode s t).1 ts).2)

/-- The successive new values of `last_idx` along a run: one entry for every
tick that changes `last_idx`. -/
def visited (cfg : Config) (mode : Int) : LeverState → List Tick → List Int
  | _, [] => []
  | s, t :: ts =>
    (if (leverTick cfg mode s t).1.last_idx ≠ s.last_idx then
      [(leverTick cfg mode s t).1.last_idx] else [])
      ++ visited cfg mode (leverTick cfg mode s t).1 ts

/-- Number of ticks of a run on which the dwell condition holds. -/
def countDwell (cfg : Config) (mode : Int) : LeverState → List Tick → Nat
  | _, [] => 0
  | s, t :: ts =>
    (if dwellOk cfg s t then 1 else 0) + countDwell cfg mode (leverTick cfg mode s t).1 ts

/-- The indices `a + d, a + 2 d, ..., a + n d`. -/
def pathFrom (a d : Int) : Nat → List Int
  | 0 => []
  | n + 1 => (a + d) :: pathFrom (a + d) d n

/-- The value of `step` when the matched position is `b` and `last_idx` is
`a`: `(b - a > 0) ? 1 : -1`. -/
def dirTo (a b : Int) : Int :=
  if b - a > 0 then 1 else -1

/-- The indices strictly after `a` up to and including `b`, walking one index
at a time from `a` towards `b`. -/
def pathTo (a b : Int) : List Int :=
  pathFrom a (dirTo a b) (b - a).natAbs

/-- The actions of one lever step in direction `d` (`1` towards higher
indices, `-1` towards lower ones) in the stepping mode `mode`, as performed by
the commit branch of the loop. -/
def stepActions (cfg : Config) (mode : Int) (d : Int) : List Action :=
  if mode = 0 then
    sendArrowKey (if d > 0 then VK_DOWN else VK_UP) cfg.key_hold_time_ms
      ++ [Action.sleep cfg.up_down_delay_ms]
  else if mode = 1 then
    sendMouseScroll (if d > 0 then -120 else 120)
      ++ [Action.sleep cfg.mouse_scroll_delay_ms]
  else []

/-- Scenario B: the lever rests on index 3, then Neutral of the default mapping
(buttons 6 and 8, index 9) is read on every tick. The first tick is at 100 ms;
each later tick comes 30 ms after the end of the previous iteration, and an
iteration that emits a step ends 35 ms after its start (10 ms key hold and
25 ms pacing sleep). -/
def scenarioB : List Tick :=
  [⟨{6, 8}, 100000000, 100000000⟩, ⟨{6, 8}, 130000000, 165000000⟩,
   ⟨{6, 8}, 195000000, 230000000⟩, ⟨{6, 8}, 260000000, 295000000⟩,
   ⟨{6, 8}, 325000000, 360000000⟩, ⟨{6, 8}, 390000000, 425000000⟩,
   ⟨{6, 8}, 455000000, 490000000⟩, ⟨{6, 8}, 520000000, 520000000⟩]

/-- All clock readings of a run in program order. -/
def clockReadings (ts : List Tick) : List Int :=
  ts.flatMap (fun t => [t.now, t.after])

/-- In the tick sequence `ticks`, the raw match has been `c` on every tick from
the tick `first` on, and `first` is the tick at which `c` first appeared: it is
the first tick of the sequence, or the tick just before it had another raw
match. -/
def HeldSince (cfg : Config) (ticks : List Tick) (c : Int) (first : Tick) : Prop :=
  ∃ (older held : List Tick), ticks = older ++ first :: held ∧
    (∀ x ∈ first :: held, idxOf cfg x = c) ∧
    (∀ l, older.getLast? = some l → idxOf cfg l ≠ c)

/-- Loop invariant of `match_combo`: after the combos in `seen` have been
examined, either nothing matched and `best = best_size = -1`, or `best` is the
first index among the matching combos of largest size and `best_size` is that
size. -/
def BestSoFar (pressed : Finset Int) (seen : List (Finset Int))
    (best best_size : Int) : Prop :=
  (best = -1 ∧ best_size = -1 ∧ ∀ c ∈ seen, ¬ c ⊆ pressed) ∨
  (∃ (k : Nat) (c : Finset Int), best = (k : Int) ∧ seen[k]? = some c ∧
      c ⊆ pressed ∧ best_size = (c.card : Int) ∧
      (∀ (j : Nat) (d : Finset Int), seen[j]? = some d → d ⊆ pressed →
        d.card ≤ c.card) ∧
      (∀ (j : Nat) (d : Finset Int), j < k → seen[j]? = some d → d ⊆ pressed →
        d.card < c.card))

/-! ## Auxiliary control tracker, credit repeat and the whole loop -/

/-- Win32 virtual-key code `VK_RETURN` (Big Horn). -/
def VK_RETURN : Int := 0x0D

/-- Win32 virtual-key code `VK_SPACE` (Small Horn). -/
def VK_SPACE : Int := 0x20

/-- Win32 virtual-key code `VK_RSHIFT` (Test Menu). -/
def VK_RSHIFT : Int := 0xA1

/-- Win32 virtual-key code `VK_LSHIFT` (Debug Mission). -/
def VK_LSHIFT : Int := 0xA0

/-- Win32 virtual-key code `VK_OEM_4` (Credit, the `[` key). -/
def VK_OEM_4 : Int := 0xDB

/-- What the auxiliary block reads from the joystick after `SDL_JoystickUpdate`:
`SDL_JoystickNumButtons` (an error return behaves like zero buttons) and
`SDL_JoystickGetButton` for every index. -/
structure AuxPoll where
  num_buttons : Nat
  down : Nat → Bool

/-- The scan loop `for (b = 0; b < num_buttons; ++b) if (GetButton(b)) if (b == button) ...`
for one configured button: whether its flag ends up `true`. -/
def buttonDown (p : AuxPoll) (button : Int) : Bool :=
  (List.range p.num_buttons).any (fun b => p.down b && decide ((b : Int) = button))

/-- The guard of the auxiliary block: at least one of the five buttons is
configured. -/
def auxMapped (cfg : Config) : Prop :=
  cfg.big_horn_button ≥ 0 ∨ cfg.small_horn_button ≥ 0 ∨ cfg.credit_button ≥ 0 ∨
    cfg.test_menu_button ≥ 0 ∨ cfg.debug_mission_button ≥ 0

instance (cfg : Config) : Decidable (auxMapped cfg) :=
  inferInstanceAs (Decidable (_ ∨ _))

/-- The function-local `static` flags of the auxiliary block. -/
structure AuxState where
  big_horn_key_down : Bool
  small_horn_key_down : Bool
  test_menu_prev_pressed : Bool
  debug_mission_prev_pressed : Bool
  deriving DecidableEq

/-- The static flags as initialised: all `false`. -/
def AuxState.init : AuxState :=
  { big_horn_key_down := false, small_horn_key_down := false,
    test_menu_prev_pressed := false, debug_mission_prev_pressed := false }

/-- The HOLD logic of a horn pedal for key `vk`: key down (scan-code event) when
the button is pressed and the key is not down, key up when the button is not
pressed and the key is down; the flag changes only in those branches. Returns
the new flag and the events. -/
def hornHold (vk : Int) (now key_down : Bool) : Bool × List Action :=
  if now = true ∧ key_down = false then (true, [Action.key vk true false])
  else if now = false ∧ key_down = true then (false, [Action.key vk true true])
  else (key_down, [])

/-- The logic of Test Menu and Debug Mission for key `vk`: key down when pressed
and not pressed before, key up when not pressed and pressed before; then
`prev_pressed = now`. Returns the new flag and the events. -/
def overrideEdge (vk : Int) (now prev_pressed : Bool) : Bool × List Action :=
  (now,
   if now = true ∧ prev_pressed = false then [Action.key vk true false]
   else if now = false ∧ prev_pressed = true then [Action.key vk true true]
   else [])

/-- The auxiliary block of one loop iteration (Big Horn, Small Horn, Test Menu,
Debug Mission, in this order). -/
def auxTick (cfg : Config) (s : AuxState) (p : AuxPoll) : AuxState × List Action :=
  if auxMapped cfg then
    let big := hornHold VK_RETURN (buttonDown p cfg.big_horn_button) s.big_horn_key_down
    let small := hornHold VK_SPACE (buttonDown p cfg.small_horn_button) s.small_horn_key_down
    let test := overrideEdge VK_RSHIFT (buttonDown p cfg.test_menu_button)
      s.test_menu_prev_pressed
    let debug := overrideEdge VK_LSHIFT (buttonDown p cfg.debug_mission_button)
      s.debug_mission_prev_pressed
    ({ big_horn_key_down := big.1, small_horn_key_down := small.1,
       test_menu_prev_pressed := test.1, debug_mission_prev_pressed := debug.1 },
     big.2 ++ small.2 ++ test.2 ++ debug.2)
  else
    (s, [])

/-- The value of `credit_pressed` after the auxiliary block: `false` when the
block is skipped. -/
def creditPressed (cfg : Config) (p : AuxPoll) : Bool :=
  if auxMapped cfg then buttonDown p cfg.credit_button else false

/-- The credit variables of `main`: `last_credit_time`, `credit_prev_pressed`. -/
structure CreditState where
  last_credit_time : Int
  credit_prev_pressed : Bool
  deriving DecidableEq

/-- The credit variables as initialised; `start` is the clock reading taken, the
time is set 250 ms before it. -/
def CreditState.init (start : Int) : CreditState :=
  { last_credit_time := start - 250 * ticksPerMs, credit_prev_pressed := false }

/-- The credit key pulse: scan-code key down, 10 ms sleep, key up. -/
def creditPulse : List Action :=
  [Action.key VK_OEM_4 true false, Action.sleep 10, Action.key VK_OEM_4 true true]

/-- The credit repeat logic of one loop iteration; `now` is the clock reading
taken when `credit_pressed` holds. -/
def creditTick (cfg : Config) (c : CreditState) (credit_pressed : Bool) (now : Int) :
    CreditState × List Action :=
  if cfg.credit_button ≥ 0 then
    if credit_pressed = true then
      if c.credit_prev_pressed = false ∨ elapsedMs now c.last_credit_time ≥ 50 then
        ({ last_credit_time := now, credit_prev_pressed := true }, creditPulse)
      else
        ({ c with credit_prev_pressed := true }, [])
    else
      ({ c with credit_prev_pressed := false }, [])
  else
    (c, [])

/-- Everything one loop iteration reads from outside: the joystick poll of the
auxiliary block, the clock reading of the credit logic, whether the exit
signal is observed (console in the foreground and Esc down), and the inputs of
the lever part. The settings hotkey is taken as not pressed. -/
structure LoopInput where
  poll : AuxPoll
  creditNow : Int
  escape : Bool
  lever : Tick

/-- All variables of `main` that live across loop iterations. -/
structure EngineState where
  aux : AuxState
  credit : CreditState
  lever : LeverState

/-- The state before the first loop iteration. -/
def EngineState.init (start : Int) : EngineState :=
  { aux := AuxState.init, credit := CreditState.init start, lever := LeverState.init start }

/-- One iteration of the `while (true)` loop: auxiliary block, credit logic,
exit check, lever part. The third component tells whether `main` returned. -/
def mainTick (cfg : Config) (mode : Int) (st : EngineState) (i : LoopInput) :
    EngineState × List Action × Bool :=
  let a := auxTick cfg st.aux i.poll
  let c := creditTick cfg st.credit (creditPressed cfg i.poll) i.creditNow
  if i.escape = true then
    ({ aux := a.1, credit := c.1, lever := st.lever }, a.2 ++ c.2, true)
  else
    let l := leverTick cfg mode st.lever i.lever
    ({ aux := a.1, credit := c.1, lever := l.1 }, a.2 ++ c.2 ++ l.2, false)

/-- The loop on a finite sequence of inputs: it stops at the first iteration
that returns. Final state, all actions in order, and whether `main` returned. -/
def mainLoop (cfg : Config) (mode : Int) :
    EngineState → List LoopInput → EngineState × List Action × Bool
  | st, [] => (st, [], false)
  | st, i :: rest =>
    if (mainTick cfg mode st i).2.2 = true then mainTick cfg mode st i
    else
      ((mainLoop cfg mode (mainTick cfg mode st i).1 rest).1,
       (mainTick cfg mode st i).2.1 ++ (mainLoop cfg mode (mainTick cfg mode st i).1 rest).2.1,
       (mainLoop cfg mode (mainTick cfg mode st i).1 rest).2.2)

/-- The auxiliary block run on a sequence of polls. -/
def auxRun (cfg : Config) : AuxState → List AuxPoll → AuxState × List Action
  | s, [] => (s, [])
  | s, p :: ps =>
    ((auxRun cfg (auxTick cfg s p).1 ps).1,
     (auxTick cfg s p).2 ++ (auxRun cfg (auxTick cfg s p).1 ps).2)

/-- The credit logic run on a sequence of loop inputs. -/
def creditRun (cfg : Config) : CreditState → List LoopInput → CreditState × List Action
  | c, [] => (c, [])
  | c, i :: rest =>
    ((creditRun cfg (creditTick cfg c (creditPressed cfg i.poll) i.creditNow).1 rest).1,
     (creditTick cfg c (creditPressed cfg i.poll) i.creditNow).2 ++
       (creditRun cfg (creditTick cfg c (creditPressed cfg i.poll) i.creditNow).1 rest).2)

/-- Whether the credit logic fires a pulse on input `i` from state `c`. -/
def creditFires (cfg : Config) (c : CreditState) (i : LoopInput) : Bool :=
  decide ((creditTick cfg c (creditPressed cfg i.poll) i.creditNow).2 ≠ [])

/-- The clock readings of the iterations of a run on which a credit pulse
fires, in order. -/
def pulseTimes (cfg : Config) : CreditState → List LoopInput → List Int
  | _, [] => []
  | c, i :: rest =>
    (if creditFires cfg c i = true then [i.creditNow] else []) ++
      pulseTimes cfg (creditTick cfg c (creditPressed cfg i.poll) i.creditNow).1 rest

/-- The loop polls at least once per millisecond outside the 10 ms pulse hold:
the clock does not go back, and the next iteration comes at most 1 ms after an
iteration without pulse and at most 11 ms after an iteration with a pulse. -/
def polledEveryMs (cfg : Config) : CreditState → List LoopInput → Bool
  | _, [] => true
  | _, [_] => true
  | c, a :: b :: rest =>
    decide (a.creditNow ≤ b.creditNow) &&
    decide (b.creditNow - a.creditNow ≤
      (if creditFires cfg c a = true then 11 else 1) * ticksPerMs) &&
    polledEveryMs cfg (creditTick cfg c (creditPressed cfg a.poll) a.creditNow).1 (b :: rest)

/-- The four auxiliary functions that mirror their button. -/
inductive AuxFn where
  | bigHorn
  | smallHorn
  | testMenu
  | debugMission
  deriving DecidableEq

/-- The synthetic key of an auxiliary function. -/
def AuxFn.vk : AuxFn → Int
  | .bigHorn => VK_RETURN
  | .smallHorn => VK_SPACE
  | .testMenu => VK_RSHIFT
  | .debugMission => VK_LSHIFT

/-- The configured button of an auxiliary function. -/
def AuxFn.button (cfg : Config) : AuxFn → Int
  | .bigHorn => cfg.big_horn_button
  | .smallHorn => cfg.small_horn_button
  | .testMenu => cfg.test_menu_button
  | .debugMission => cfg.debug_mission_button

/-- The latch of an auxiliary function: `true` is Held, `false` is Released. -/
def AuxFn.held (s : AuxState) : AuxFn → Bool
  | .bigHorn => s.big_horn_key_down
  | .smallHorn => s.small_horn_key_down
  | .testMenu => s.test_menu_prev_pressed
  | .debugMission => s.debug_mission_prev_pressed

/-- The keyboard events of a trace that carry virtual key `vk`. -/
def keyEventsOf (vk : Int) (acts : List Action) : List Action :=
  acts.filter (fun a =>
    match a with
    | Action.key v _ _ => decide (v = vk)
    | _ => false)

/-- The scan-code events of key `vk` in a trace alternate down, up, down, ...;
the first one is a key down when `held = false` and a key up when
`held = true`. -/
def alternatesFrom (vk : Int) : Bool → List Action → Prop
  | _, [] => True
  | false, a :: rest => a = Action.key vk true false ∧ alternatesFrom vk true rest
  | true, a :: rest => a = Action.key vk true true ∧ alternatesFrom vk false rest

/-- Whether key `vk` is down at the end of a trace: its last keyboard event, if
any, is a key down. -/
def leftDown (vk : Int) (acts : List Action) : Bool :=
  acts.foldl (fun d a =>
    match a with
    | Action.key v _ up => if v = vk then !up else d
    | _ => d) false

/-- A configuration as `load_config` leaves it for a file with the line
`debounce_ms=0`: the value is stored as read. -/
def zeroDebounceConfig : Config :=
  { default_config with debounce_ms := 0 }

/-- A direct-key configuration: every lever position is bound to key `0x41`. -/
def directKeyConfig : Config :=
  { default_config with lever_keycodes := List.replicate 15 0x41 }

/-- A direct-key configuration whose key codes do not fit 16 bits: every lever
position is bound to the code 65601 (65536 + `0x41`). -/
def wideKeyConfig : Config :=
  { default_config with lever_keycodes := List.replicate 15 65601 }

/-- The pulse of direct-key mode for key `vk`: key down, 10 ms, key up, then the
200 ms pause. -/
def directPulse (vk : Int) : List Action :=
  [Action.key vk false false, Action.sleep 10, Action.key vk false true, Action.sleep 200]

/-- A configuration with Big Horn on button 0 and Credit on button 1. -/
def pedalConfig : Config :=
  { default_config with big_horn_button := 0, credit_button := 1 }

/-- A poll of a four-button device with exactly the buttons in `pressed` down. -/
def pollOf (pressed : List Nat) : AuxPoll :=
  { num_buttons := 4, down := fun b => decide (b ∈ pressed) }

/-- A loop input with Credit (button 1 of `pedalConfig`) pressed, read `ms`
milliseconds after time zero. -/
def creditHeldAt (ms : Int) : LoopInput :=
  ⟨pollOf [1], ms * 1000000, false, ⟨∅, 0, 0⟩⟩

/-- Scenario C: after a first tick at 0 ms, Credit stays pressed on 500 further
ticks, one per millisecond from 1 ms to 500 ms. -/
def scenarioC : List LoopInput :=
  (List.range 500).map (fun (k : Nat) => creditHeldAt ((k : Int) + 1))

/-- Whether some tick of the run is one on which Neutral (index 9) is the raw
match and the dwell condition holds, the run being started in state `s`. -/
def neutralDwelt (cfg : Config) (mode : Int) : LeverState → List Tick → Bool
  | _, [] => false
  | s, t :: ts =>
    (decide (idxOf cfg t = 9) && decide (dwellOk cfg s t)) ||
      neutralDwelt cfg mode (leverTick cfg mode s t).1 ts

/-- Scenario A: debounce 30 ms, the empty set as Neutral (index 9), button 7 as
index 7, and every other position on a button of its own that is never
pressed. -/
def scenarioAConfig : Config :=
  { default_config with
    lever_mappings :=
      [{20}, {21}, {22}, {23}, {24}, {25}, {26}, {7}, {28}, ∅,
       {30}, {31}, {32}, {33}, {34}] }

/-- Scenario A: button 7 pressed on ticks at 100, 110, 120, 129, 130, 135 and
140 ms; the iteration that emits the step ends 35 ms after its start. -/
def scenarioA : List Tick :=
  [⟨{7}, 100000000, 100000000⟩, ⟨{7}, 110000000, 110000000⟩,
   ⟨{7}, 120000000, 120000000⟩, ⟨{7}, 129000000, 129000000⟩,
   ⟨{7}, 130000000, 165000000⟩, ⟨{7}, 135000000, 135000000⟩,
   ⟨{7}, 140000000, 140000000⟩]

/-! ## Configuration file: `save_config` and `load_config`

A `std::string` is a `List Char`; a file is its content as a list of
characters, read line by line with `std::getline`. -/

/-- The line feed character. -/
def chNewline : Char := Char.ofNat 10

/-- The character `#`. -/
def chHash : Char := Char.ofNat 35

/-- The space character. -/
def chSpace : Char := Char.ofNat 32

/-- The character `-`. -/
def chMinus : Char := Char.ofNat 45

/-- The character `+`. -/
def chPlus : Char := Char.ofNat 43

/-- `std::isspace` in the C locale: space, tab, line feed, vertical tab, form
feed, carriage return. -/
def isSpace (c : Char) : Bool :=
  decide (c.toNat = 32) || (decide (9 ≤ c.toNat) && decide (c.toNat ≤ 13))

/-- Membership in the set `" \t"` used by `get_value`. -/
def isBlank (c : Char) : Bool :=
  decide (c.toNat = 32) || decide (c.toNat = 9)

/-- A decimal digit. -/
def isDigit (c : Char) : Bool :=
  decide (48 ≤ c.toNat) && decide (c.toNat ≤ 57)

/-- The value of a decimal digit. -/
def digitVal (c : Char) : Nat :=
  c.toNat - 48

/-- The elements of a `std::set<int>` in iteration (ascending) order. -/
def setElems (s : Finset Int) : List Int :=
  Quot.liftOn s.val (List.insertionSort (· ≤ ·)) (fun a b (h : a.Perm b) =>
    List.eq_of_perm_of_sorted
      ((List.perm_insertionSort _ a).trans (h.trans (List.perm_insertionSort _ b).symm))
      (List.sorted_insertionSort _ a) (List.sorted_insertionSort _ b))

/-- `ofs << n` for an `int`: decimal digits, with a leading `-` when negative. -/
def showInt (n : Int) : List Char :=
  if n < 0 then chMinus :: Nat.toDigits 10 n.natAbs else Nat.toDigits 10 n.toNat

/-- The lines `save_config` writes, in order (each is followed by a line
feed in the file). A lever mapping is written as its elements, each followed by
a space. -/
def saveLines (cfg : Config) : List (List Char) :=
  ["# Mascon Lever Input Translator Config".toList,
   "debounce_ms=".toList ++ showInt cfg.debounce_ms,
   "up_down_delay_ms=".toList ++ showInt cfg.up_down_delay_ms,
   "mouse_scroll_delay_ms=".toList ++ showInt cfg.mouse_scroll_delay_ms,
   "key_hold_time_ms=".toList ++ showInt cfg.key_hold_time_ms,
   "last_mode=".toList ++ showInt cfg.last_mode,
   "last_joystick=".toList ++ showInt cfg.last_joystick,
   "language=".toList ++ cfg.language,
   "big_horn_button=".toList ++ showInt cfg.big_horn_button,
   "small_horn_button=".toList ++ showInt cfg.small_horn_button,
   "credit_button=".toList ++ showInt cfg.credit_button,
   "test_menu_button=".toList ++ showInt cfg.test_menu_button,
   "debug_mission_button=".toList ++ showInt cfg.debug_mission_button,
   "profile=".toList ++ cfg.profile,
   ("# Lever mappings: 15 lines, each line is a space-separated list of button " ++
    "indices for a position").toList]
  ++ cfg.lever_mappings.map (fun m => (setElems m).flatMap (fun b => showInt b ++ [chSpace]))
  ++ ["# Lever keycodes: 15 lines, each line is a virtual-key code for a position (mode 2)".toList]
  ++ cfg.lever_keycodes.map showInt

/-- The content of a file made of the given lines, each ended by a line feed. -/
def joinLines (lines : List (List Char)) : List Char :=
  lines.flatMap (fun l => l ++ [chNewline])

/-- `save_config(cfg, filename)`: the content written to the file. -/
def save_config (cfg : Config) : List Char :=
  joinLines (saveLines cfg)

/-- The successive results of `std::getline` on a file content: the text up to
each line feed, and a last line without line feed when it is not empty. `cur`
holds the characters of the current line, last one first. -/
def getlines : List Char → List Char → List (List Char)
  | [], cur => if cur.isEmpty then [] else [cur.reverse]
  | c :: cs, cur =>
    if c = chNewline then cur.reverse :: getlines cs [] else getlines cs (c :: cur)

/-- `line.find(key) == 0`: the line starts with `key`. -/
def startsWith : List Char → List Char → Bool
  | [], _ => true
  | _ :: _, [] => false
  | k :: ks, c :: cs => decide (k = c) && startsWith ks cs

/-- The lambda `get_value(line, n)`: the line from position `n` on, without
leading and trailing spaces and tabs. -/
def get_value (line : List Char) (n : Nat) : List Char :=
  (((line.drop n).dropWhile isBlank).reverse.dropWhile isBlank).reverse

/-- The value of a run of decimal digits read after the value `acc`. -/
def digitsValue : List Char → Nat → Nat
  | [], acc => acc
  | c :: cs, acc => if isDigit c then digitsValue cs (10 * acc + digitVal c) else acc

/-- `std::stoi(s)`: leading white space, an optional sign, decimal digits; the
rest is ignored. `none` stands for the exception thrown when there is no digit
or the value is outside the range of `int`. -/
def stoi (s : List Char) : Option Int :=
  let s1 := s.dropWhile isSpace
  let neg : Bool := decide (s1.head? = some chMinus)
  let s2 := if s1.head? = some chMinus ∨ s1.head? = some chPlus then s1.drop 1 else s1
  match s2 with
  | [] => none
  | c :: _ =>
    if isDigit c then
      let r : Int := if neg then -((digitsValue s2 0 : Nat) : Int) else ((digitsValue s2 0 : Nat) : Int)
      if -2147483648 ≤ r ∧ r ≤ 2147483647 then some r else none
    else none

/-- The pattern `val.empty() ? dflt : std::stoi(val)` inside `try`, with `dflt`
assigned in the `catch`. -/
def parseSetting (dflt : Int) (val : List Char) : Int :=
  if val.isEmpty then dflt else (stoi val).getD dflt

/-- Where the extraction `iss >> b` stands in the line: skipping white space,
just after a sign, or inside the digits of a number. -/
inductive ScanState where
  | skip
  | sign (neg : Bool)
  | num (neg : Bool) (v : Nat)

/-- The `int` read by one extraction, `none` when it does not fit an `int` (the
extraction fails). -/
def finishNum (neg : Bool) (v : Nat) : Option Int :=
  let r : Int := if neg then -(v : Int) else (v : Int)
  if -2147483648 ≤ r ∧ r ≤ 2147483647 then some r else none

/-- The loop `while (iss >> b) s.insert(b);` on the characters of a line: every
extraction skips white space, reads an optional sign and digits, and the loop
stops at the first failed extraction. -/
def scanInts : List Char → ScanState → Finset Int → Finset Int
  | [], ScanState.num neg v, acc =>
    match finishNum neg v with
    | some r => insert r acc
    | none => acc
  | [], _, acc => acc
  | c :: cs, ScanState.skip, acc =>
    if isSpace c then scanInts cs ScanState.skip acc
    else if c = chMinus then scanInts cs (ScanState.sign true) acc
    else if c = chPlus then scanInts cs (ScanState.sign false) acc
    else if isDigit c then scanInts cs (ScanState.num false (digitVal c)) acc
    else acc
  | c :: cs, ScanState.sign neg, acc =>
    if isDigit c then scanInts cs (ScanState.num neg (digitVal c)) acc else acc
  | c :: cs, ScanState.num neg v, acc =>
    if isDigit c then scanInts cs (ScanState.num neg (10 * v + digitVal c)) acc
    else
      match finishNum neg v with
      | none => acc
      | some r =>
        if isSpace c then scanInts cs ScanState.skip (insert r acc)
        else if c = chMinus then scanInts cs (ScanState.sign true) (insert r acc)
        else if c = chPlus then scanInts cs (ScanState.sign false) (insert r acc)
        else insert r acc

/-- The set read from a lever mapping line. -/
def parseMapping (line : List Char) : Finset Int :=
  scanInts line ScanState.skip ∅

/-- The variables of the reading loop of `load_config`. -/
structure LoadState where
  cfg : Config
  loaded : Nat
  lever_keycode_count : Nat

/-- The body of the reading loop of `load_config` for one line. -/
def loadLine (st : LoadState) (line : List Char) : LoadState :=
  if line.isEmpty = true ∨ line.head? = some chHash then st
  else if startsWith "debounce_ms=".toList line = true then
    { st with loaded := st.loaded + 1, cfg := { st.cfg with
        debounce_ms := parseSetting default_config.debounce_ms (get_value line 12) } }
  else if startsWith "up_down_delay_ms=".toList line = true then
    { st with loaded := st.loaded + 1, cfg := { st.cfg with
        up_down_delay_ms := parseSetting default_config.up_down_delay_ms (get_value line 17) } }
  else if startsWith "mouse_scroll_delay_ms=".toList line = true then
    { st with loaded := st.loaded + 1, cfg := { st.cfg with
        mouse_scroll_delay_ms :=
          parseSetting default_config.mouse_scroll_delay_ms (get_value line 22) } }
  else if startsWith "key_hold_time_ms=".toList line = true then
    { st with loaded := st.loaded + 1, cfg := { st.cfg with
        key_hold_time_ms := parseSetting default_config.key_hold_time_ms (get_value line 16) } }
  else if startsWith "last_mode=".toList line = true then
    { st with loaded := st.loaded + 1, cfg := { st.cfg with
        last_mode := parseSetting default_config.last_mode (get_value line 10) } }
  else if startsWith "last_joystick=".toList line = true then
    { st with loaded := st.loaded + 1, cfg := { st.cfg with
        last_joystick := parseSetting default_config.last_joystick (get_value line 14) } }
  else if startsWith "language=".toList line = true then
    { st with loaded := st.loaded + 1, cfg := { st.cfg with
        language := if (get_value line 9).isEmpty then default_config.language
          else get_value line 9 } }
  else if startsWith "big_horn_button=".toList line = true then
    { st with loaded := st.loaded + 1, cfg := { st.cfg with
        big_horn_button := parseSetting default_config.big_horn_button (get_value line 16) } }
  else if startsWith "small_horn_button=".toList line = true then
    { st with loaded := st.loaded + 1, cfg := { st.cfg with
        small_horn_button := parseSetting default_config.small_horn_button (get_value line 18) } }
  else if startsWith "credit_button=".toList line = true then
    { st with loaded := st.loaded + 1, cfg := { st.cfg with
        credit_button := parseSetting default_config.credit_button (get_value line 14) } }
  else if startsWith "test_menu_button=".toList line = true then
    { st with loaded := st.loaded + 1, cfg := { st.cfg with
        test_menu_button := parseSetting default_config.test_menu_button (get_value line 17) } }
  else if startsWith "debug_mission_button=".toList line = true then
    { st with loaded := st.loaded + 1, cfg := { st.cfg with
        debug_mission_button :=
          parseSetting default_config.debug_mission_button (get_value line 21) } }
  else if startsWith "profile=".toList line = true then
    { st with loaded := st.loaded + 1, cfg := { st.cfg with
        profile := if (get_value line 8).isEmpty then default_config.profile
          else get_value line 8 } }
  else if st.loaded ≥ 11 ∧ st.cfg.lever_mappings.length < 15 then
    { st with cfg := { st.cfg with
        lever_mappings := st.cfg.lever_mappings ++ [parseMapping line] } }
  else if st.loaded ≥ 26 ∧ st.lever_keycode_count < 15 then
    { st with lever_keycode_count := st.lever_keycode_count + 1, cfg := { st.cfg with
        lever_keycodes :=
          st.cfg.lever_keycodes.set st.lever_keycode_count (parseSetting 0 (get_value line 0)) } }
  else st

/-- The reading loop of `load_config` on a file content: mappings cleared and
key codes reset first, then one `loadLine` per line. -/
def loadLoop (cfg : Config) (content : List Char) : LoadState :=
  (getlines content []).foldl loadLine
    { cfg := { cfg with lever_mappings := [], lever_keycodes := List.replicate 15 0 },
      loaded := 0, lever_keycode_count := 0 }

/-- `load_config(cfg, filename)`: `file` is the content of the file, `none`
when it cannot be opened. Returns the configuration and the result flag. After
the loop the key codes from `lever_keycode_count` on are set to 0 and the
missing mappings are taken from `default_config` at the same index. -/
def load_config (cfg : Config) (file : Option (List Char)) : Config × Bool :=
  match file with
  | none => (cfg, false)
  | some content =>
    let st := loadLoop cfg content
    ({ st.cfg with
        lever_keycodes := st.cfg.lever_keycodes.take st.lever_keycode_count ++
          List.replicate (15 - st.lever_keycode_count) 0,
        lever_mappings := st.cfg.lever_mappings ++
          default_config.lever_mappings.drop st.cfg.lever_mappings.length },
     decide (st.loaded ≥ 5))

/-- A line the reading loop passes over: an empty line or a comment line
(first character `#`). -/
def isSkipped (line : List Char) : Prop :=
  line.isEmpty = true ∨ line.head? = some chHash

instance (line : List Char) : Decidable (isSkipped line) :=
  inferInstanceAs (Decidable (_ ∨ _))

/-- A settings line of a configuration file: it starts with one of the thirteen
setting keys of the file format. -/
def isSettingLine (line : List Char) : Prop :=
  startsWith "debounce_ms=".toList line = true ∨
  startsWith "up_down_delay_ms=".toList line = true ∨
  startsWith "mouse_scroll_delay_ms=".toList line = true ∨
  startsWith "key_hold_time_ms=".toList line = true ∨
  startsWith "last_mode=".toList line = true ∨
  startsWith "last_joystick=".toList line = true ∨
  startsWith "language=".toList line = true ∨
  startsWith "big_horn_button=".toList line = true ∨
  startsWith "small_horn_button=".toList line = true ∨
  startsWith "credit_button=".toList line = true ∨
  startsWith "test_menu_button=".toList line = true ∨
  startsWith "debug_mission_button=".toList line = true ∨
  startsWith "profile=".toList line = true

instance (line : List Char) : Decidable (isSettingLine line) := by
  unfold isSettingLine
  infer_instance

/-- The number of settings lines among the lines of a file (comment and empty
lines are not settings lines). -/
def settingsRead : List (List Char) → Nat
  | [] => 0
  | line :: rest =>
    (if ¬ isSkipped line ∧ isSettingLine line then 1 else 0) + settingsRead rest

/-- The position definition lines of a file: the lines that are neither empty,
nor comments, nor settings lines, and that come after at least eleven settings
lines; `seen` is the number of settings lines before the first line. -/
def definitionLinesFrom : Nat → List (List Char) → List (List Char)
  | _, [] => []
  | seen, line :: rest =>
    if isSkipped line then definitionLinesFrom seen rest
    else if isSettingLine line then definitionLinesFrom (seen + 1) rest
    else if seen ≥ 11 then line :: definitionLinesFrom seen rest
    else definitionLinesFrom seen rest

/-- The position definitions a file supplies: the button sets written on its
first fifteen definition lines. -/
def suppliedDefinitions (content : List Char) : List (Finset Int) :=
  ((definitionLinesFrom 0 (getlines content [])).take 15).map parseMapping

/-- A configuration with every numeric setting different from its default and
every lever position bound to key `0x41`. -/
def tunedConfig : Config :=
  { default_config with
    debounce_ms := 45, up_down_delay_ms := 33, mouse_scroll_delay_ms := 21,
    key_hold_time_ms := 20, last_mode := 1, last_joystick := 2,
    big_horn_button := 3, small_horn_button := 4, credit_button := 5,
    test_menu_button := -1, debug_mission_button := 11,
    lever_keycodes := List.replicate 15 0x41 }

/-- The file `save_config` writes for `scenarioAConfig`, cut after its second
lever mapping line: all thirteen settings and only two position definitions. -/
def truncatedFile : List Char :=
  joinLines ((saveLines scenarioAConfig).take 17)

/-! ## Properties of the combo matcher -/

theorem getElem?_snoc_ge (seen : List (Finset Int)) (combo : Finset Int)
    (j : Nat) (d : Finset Int) (hge : j ≥ seen.length)
    (hj : (seen ++ [combo])[j]? = some d) : d = combo := by
  rw [List.getElem?_append_right hge] at hj
  rcases Nat.eq_zero_or_pos (j - seen.length) with h0 | hpos
  · rw [h0] at hj; simpa using hj.symm
  · have hnone : [combo][j - seen.length]? = none := by
      apply List.getElem?_eq_none
      simp only [List.length_singleton]
      omega
    rw [hnone] at hj; cases hj

theorem bestSoFar_snoc (pressed : Finset Int) (seen : List (Finset Int))
    (combo : Finset Int) (best best_size : Int)
    (h : BestSoFar pressed seen best best_size) :
    BestSoFar pressed (seen ++ [combo])
      (if combo ⊆ pressed then
        (if (combo.card : Int) > best_size then (seen.length : Int) else best)
       else best)
      (if combo ⊆ pressed then
        (if (combo.card : Int) > best_size then (combo.card : Int) else best_size)
       else best_size) := by
  by_cases hsub : combo ⊆ pressed
  · simp only [hsub, if_true]
    rcases h with ⟨hb, hs, hnone⟩ | ⟨k, c, hb, hk, hc, hs, hmax, hfirst⟩
    · have hgt : (combo.card : Int) > best_size := by rw [hs]; omega
      simp only [hgt, if_true]
      refine Or.inr ⟨seen.length, combo, rfl, by simp, hsub, rfl, ?_, ?_⟩
      · intro j d hj hd
        rcases Nat.lt_or_ge j seen.length with hlt | hge
        · rw [List.getElem?_append_left hlt] at hj
          exact absurd hd (hnone d (List.getElem?_mem hj))
        · have : d = combo := getElem?_snoc_ge seen combo j d hge hj
          rw [this]
      · intro j d hlt hj hd
        rw [List.getElem?_append_left hlt] at hj
        exact absurd hd (hnone d (List.getElem?_mem hj))
    · have hklt : k < seen.length := by
        rcases Nat.lt_or_ge k seen.length with hlt | hge
        · exact hlt
        · rw [List.getElem?_eq_none hge] at hk; cases hk
      by_cases hgt : (combo.card : Int) > best_size
      · simp only [hgt, if_true]
        rw [hs] at hgt
        have hgt2 : c.card < combo.card := by omega
        refine Or.inr ⟨seen.length, combo, rfl, by simp, hsub, rfl, ?_, ?_⟩
        · intro j d hj hd
          rcases Nat.lt_or_ge j seen.length with hlt | hge
          · rw [List.getElem?_append_left hlt] at hj
            have := hmax j d hj hd
            omega
          · have : d = combo := getElem?_snoc_ge seen combo j d hge hj
            rw [this]
        · intro j d hlt hj hd
          rw [List.getElem?_append_left hlt] at hj
          have := hmax j d hj hd
          omega
      · simp only [hgt, if_false]
        rw [hs] at hgt
        have hle : combo.card ≤ c.card := by omega
        refine Or.inr ⟨k, c, hb, ?_, hc, hs, ?_, ?_⟩
        · rw [List.getElem?_append_left hklt]; exact hk
        · intro j d hj hd
          rcases Nat.lt_or_ge j seen.length with hlt | hge
          · rw [List.getElem?_append_left hlt] at hj
            exact hmax j d hj hd
          · have : d = combo := getElem?_snoc_ge seen combo j d hge hj
            rw [this]; exact hle
        · intro j d hlt hj hd
          have hjl : j < seen.length := by omega
          rw [List.getElem?_append_left hjl] at hj
          exact hfirst j d hlt hj hd
  · simp only [hsub, if_false]
    rcases h with ⟨hb, hs, hnone⟩ | ⟨k, c, hb, hk, hc, hs, hmax, hfirst⟩
    · refine Or.inl ⟨hb, hs, ?_⟩
      intro d hd
      rcases List.mem_append.mp hd with h1 | h1
      · exact hnone d h1
      · have : d = combo := by simpa using h1
        rw [this]; exact hsub
    · have hklt : k < seen.length := by
        rcases Nat.lt_or_ge k seen.length with hlt | hge
        · exact hlt
        · rw [List.getElem?_eq_none hge] at hk; cases hk
      refine Or.inr ⟨k, c, hb, ?_, hc, hs, ?_, ?_⟩
      · rw [List.getElem?_append_left hklt]; exact hk
      · intro j d hj hd
        rcases Nat.lt_or_ge j seen.length with hlt | hge
        · rw [List.getElem?_append_left hlt] at hj
          exact hmax j d hj hd
        · have : d = combo := getElem?_snoc_ge seen combo j d hge hj
          rw [this] at hd; exact absurd hd hsub
      · intro j d hlt hj hd
        have hjl : j < seen.length := by omega
        rw [List.getElem?_append_left hjl] at hj
        exact hfirst j d hlt hj hd

theorem match_combo_loop_inv (pressed : Finset Int) :
    ∀ (rest seen : List (Finset Int)) (best best_size : Int),
      BestSoFar pressed seen best best_size →
      BestSoFar pressed (seen ++ rest)
        (match_combo_loop pressed rest seen.length best best_size).1
        (match_combo_loop pressed rest seen.length best best_size).2 := by
  intro rest
  induction rest with
  | nil =>
    intro seen best best_size h
    simpa [match_combo_loop] using h
  | cons combo rest ih =>
    intro seen best best_size h
    have hstep := bestSoFar_snoc pressed seen combo best best_size h
    have hlen : (seen ++ [combo]).length = seen.length + 1 := by simp
    have happ : seen ++ combo :: rest = (seen ++ [combo]) ++ rest := by simp
    have hnext := ih (seen ++ [combo]) _ _ hstep
    rw [hlen] at hnext
    rw [happ]
    unfold match_combo_loop
    by_cases hsub : combo ⊆ pressed
    · by_cases hgt : (combo.card : Int) > best_size
      · simpa [hsub, hgt] using hnext
      · simpa [hsub, hgt] using hnext
    · simpa [hsub] using hnext

theorem match_combo_bestSoFar (pressed : Finset Int) (combos : List (Finset Int)) :
    BestSoFar pressed combos (match_combo pressed combos)
      (match_combo_loop pressed combos 0 (-1) (-1)).2 := by
  have h0 : BestSoFar pressed [] (-1) (-1) := Or.inl ⟨rfl, rfl, by simp⟩
  simpa [match_combo] using match_combo_loop_inv pressed combos [] (-1) (-1) h0

/-- C1: if some definition is contained in the pressed set, `match_combo`
returns an index `i` whose definition is contained in the pressed set, has the
largest cardinality among all contained definitions, and is the first index
with that cardinality (every contained definition before `i` is strictly
smaller). -/
theorem match_combo_largest_earliest (P : Finset Int) (D : List (Finset Int))
    (h : ∃ c ∈ D, c ⊆ P) :
    ∃ (i : Nat) (c : Finset Int), match_combo P D = (i : Int) ∧ D[i]? = some c ∧
      c ⊆ P ∧
      (∀ (j : Nat) (d : Finset Int), D[j]? = some d → d ⊆ P → d.card ≤ c.card) ∧
      (∀ (j : Nat) (d : Finset Int), j < i → D[j]? = some d → d ⊆ P →
        d.card < c.card) := by
  rcases match_combo_bestSoFar P D with ⟨_, _, hnone⟩ | ⟨k, c, hb, hk, hc, _, hmax, hfirst⟩
  · rcases h with ⟨c, hc, hsub⟩
    exact absurd hsub (hnone c hc)
  · exact ⟨k, c, hb, hk, hc, hmax, hfirst⟩

/-- Witness for C1 on the default mapping with buttons 7, 8 and 9 pressed. -/
theorem match_combo_largest_earliest_witness :
    ∃ (i : Nat) (c : Finset Int),
      match_combo {7, 8, 9} default_config.lever_mappings = (i : Int) ∧
      default_config.lever_mappings[i]? = some c ∧ c ⊆ {7, 8, 9} ∧
      (∀ (j : Nat) (d : Finset Int), default_config.lever_mappings[j]? = some d →
        d ⊆ {7, 8, 9} → d.card ≤ c.card) ∧
      (∀ (j : Nat) (d : Finset Int), j < i →
        default_config.lever_mappings[j]? = some d → d ⊆ {7, 8, 9} →
        d.card < c.card) :=
  match_combo_largest_earliest {7, 8, 9} default_config.lever_mappings
    ⟨{7}, by decide, by decide⟩

/-- C2: `match_combo` returns `-1` exactly when no definition is contained in
the pressed set; otherwise it returns an index `i` with `0 ≤ i < |D|` whose
definition is contained in the pressed set. -/
theorem match_combo_noMatch_iff (P : Finset Int) (D : List (Finset Int)) :
    (match_combo P D = -1 ↔ ∀ c ∈ D, ¬ c ⊆ P) ∧
    (match_combo P D = -1 ∨
      ∃ (i : Nat) (c : Finset Int), match_combo P D = (i : Int) ∧ 0 ≤ (i : Int) ∧
        i < D.length ∧ D[i]? = some c ∧ c ⊆ P) := by
  rcases match_combo_bestSoFar P D with ⟨hb, _, hnone⟩ | ⟨k, c, hb, hk, hc, _, _, _⟩
  · exact ⟨⟨fun _ => hnone, fun _ => hb⟩, Or.inl hb⟩
  · have hklt : k < D.length := by
      rcases Nat.lt_or_ge k D.length with hlt | hge
      · exact hlt
      · rw [List.getElem?_eq_none hge] at hk; cases hk
    refine ⟨⟨?_, ?_⟩, Or.inr ⟨k, c, hb, by omega, hklt, hk, hc⟩⟩
    · intro h; rw [hb] at h; omega
    · intro h; exact absurd hc (h c (List.getElem?_mem hk))

/-! ## Single ticks of the lever engine -/

theorem candidateUpdate_last_idx (s : LeverState) (idx now : Int) :
    (candidateUpdate s idx now).last_idx = s.last_idx := by
  unfold candidateUpdate; split_ifs <;> rfl

theorem candidateUpdate_stable_idx (s : LeverState) (idx now : Int) :
    (candidateUpdate s idx now).stable_idx = idx := by
  unfold candidateUpdate; split_ifs with h
  · rfl
  · exact (not_not.mp h).symm

theorem candidateUpdate_time (cfg : Config) (s : LeverState) (t : Tick) :
    (candidateUpdate s (idxOf cfg t) t.now).last_event_time = dwellStart cfg s t := by
  unfold candidateUpdate dwellStart; split_ifs <;> rfl

/-- When the debounce test fails, the state stays as the candidate update left
it and nothing is emitted. -/
theorem debounceStep_hold (cfg : Config) (mode : Int) (s1 : LeverState)
    (idx now after : Int)
    (h : ¬ (idx ≠ -1 ∧ idx ≠ s1.last_idx ∧
      elapsedMs now s1.last_event_time ≥ cfg.debounce_ms)) :
    debounceStep cfg mode s1 idx now after = (s1, []) := by
  unfold debounceStep
  simp only [h, if_false]

theorem debounceStep_step (cfg : Config) (mode : Int) (s1 : LeverState)
    (idx now after : Int)
    (h : idx ≠ -1 ∧ idx ≠ s1.last_idx ∧
      elapsedMs now s1.last_event_time ≥ cfg.debounce_ms)
    (hk : s1.last_idx ≠ -1) :
    debounceStep cfg mode s1 idx now after =
      ({ last_idx := s1.last_idx + (if idx - s1.last_idx > 0 then 1 else -1),
         stable_idx := s1.stable_idx, last_event_time := after },
       stepActions cfg mode (if idx - s1.last_idx > 0 then 1 else -1)) := by
  unfold debounceStep stepActions
  simp only [h, hk, and_self, if_true, ne_eq, not_false_eq_true]

theorem debounceStep_baseline (cfg : Config) (mode : Int) (s1 : LeverState)
    (idx now after : Int)
    (h : idx ≠ -1 ∧ idx ≠ s1.last_idx ∧
      elapsedMs now s1.last_event_time ≥ cfg.debounce_ms)
    (hk : s1.last_idx = -1) (h9 : idx = 9) :
    debounceStep cfg mode s1 idx now after =
      ({ last_idx := 9, stable_idx := s1.stable_idx, last_event_time := after }, []) := by
  unfold debounceStep
  simp only []
  rw [if_pos h, if_neg (not_not.mpr hk), if_pos h9, h9]

theorem debounceStep_unknown (cfg : Config) (mode : Int) (s1 : LeverState)
    (idx now after : Int)
    (h : idx ≠ -1 ∧ idx ≠ s1.last_idx ∧
      elapsedMs now s1.last_event_time ≥ cfg.debounce_ms)
    (hk : s1.last_idx = -1) (h9 : idx ≠ 9) :
    debounceStep cfg mode s1 idx now after =
      ({ last_idx := -1, stable_idx := s1.stable_idx, last_event_time := after }, []) := by
  unfold debounceStep
  simp only []
  rw [if_pos h, if_neg (not_not.mpr hk), if_neg h9, hk]

theorem leverTick_stepping (cfg : Config) (mode : Int) (s : LeverState) (t : Tick)
    (h : ¬ (mode = 2 ∧ idxOf cfg t ≥ 0 ∧ idxOf cfg t < 15)) :
    leverTick cfg mode s t =
      debounceStep cfg mode (candidateUpdate s (idxOf cfg t) t.now) (idxOf cfg t)
        t.now t.after := by
  unfold idxOf at h ⊢
  unfold leverTick
  simp only [h, if_false]

theorem gate_candidateUpdate (cfg : Config) (s : LeverState) (t : Tick) :
    (idxOf cfg t ≠ -1 ∧ idxOf cfg t ≠ (candidateUpdate s (idxOf cfg t) t.now).last_idx ∧
      elapsedMs t.now (candidateUpdate s (idxOf cfg t) t.now).last_event_time
        ≥ cfg.debounce_ms) ↔
    (idxOf cfg t ≠ -1 ∧ idxOf cfg t ≠ s.last_idx ∧ dwellOk cfg s t) := by
  rw [candidateUpdate_last_idx, candidateUpdate_time]
  rfl

theorem leverTick_hold (cfg : Config) (mode : Int) (s : LeverState) (t : Tick)
    (hm : ¬ (mode = 2 ∧ idxOf cfg t ≥ 0 ∧ idxOf cfg t < 15))
    (h : ¬ (idxOf cfg t ≠ -1 ∧ idxOf cfg t ≠ s.last_idx ∧ dwellOk cfg s t)) :
    leverTick cfg mode s t = (candidateUpdate s (idxOf cfg t) t.now, []) := by
  rw [leverTick_stepping cfg mode s t hm]
  exact debounceStep_hold cfg mode _ _ _ _ (fun hg => h ((gate_candidateUpdate cfg s t).mp hg))

theorem leverTick_step (cfg : Config) (mode : Int) (s : LeverState) (t : Tick)
    (hm : ¬ (mode = 2 ∧ idxOf cfg t ≥ 0 ∧ idxOf cfg t < 15))
    (h : idxOf cfg t ≠ -1 ∧ idxOf cfg t ≠ s.last_idx ∧ dwellOk cfg s t)
    (hk : s.last_idx ≠ -1) :
    leverTick cfg mode s t =
      ({ last_idx := s.last_idx + (if idxOf cfg t - s.last_idx > 0 then 1 else -1),
         stable_idx := idxOf cfg t, last_event_time := t.after },
       stepActions cfg mode (if idxOf cfg t - s.last_idx > 0 then 1 else -1)) := by
  rw [leverTick_stepping cfg mode s t hm]
  rw [debounceStep_step cfg mode _ _ _ _ ((gate_candidateUpdate cfg s t).mpr h)
    (by rw [candidateUpdate_last_idx]; exact hk)]
  rw [candidateUpdate_last_idx, candidateUpdate_stable_idx]

theorem leverTick_baseline (cfg : Config) (mode : Int) (s : LeverState) (t : Tick)
    (hm : ¬ (mode = 2 ∧ idxOf cfg t ≥ 0 ∧ idxOf cfg t < 15))
    (h : idxOf cfg t ≠ -1 ∧ idxOf cfg t ≠ s.last_idx ∧ dwellOk cfg s t)
    (hk : s.last_idx = -1) (h9 : idxOf cfg t = 9) :
    leverTick cfg mode s t =
      ({ last_idx := 9, stable_idx := 9, last_event_time := t.after }, []) := by
  rw [leverTick_stepping cfg mode s t hm]
  rw [debounceStep_baseline cfg mode _ _ _ _ ((gate_candidateUpdate cfg s t).mpr h)
    (by rw [candidateUpdate_last_idx]; exact hk) h9]
  rw [candidateUpdate_stable_idx, h9]

theorem leverTick_unknown (cfg : Config) (mode : Int) (s : LeverState) (t : Tick)
    (hm : ¬ (mode = 2 ∧ idxOf cfg t ≥ 0 ∧ idxOf cfg t < 15))
    (h : idxOf cfg t ≠ -1 ∧ idxOf cfg t ≠ s.last_idx ∧ dwellOk cfg s t)
    (hk : s.last_idx = -1) (h9 : idxOf cfg t ≠ 9) :
    leverTick cfg mode s t =
      ({ last_idx := -1, stable_idx := idxOf cfg t, last_event_time := t.after }, []) := by
  rw [leverTick_stepping cfg mode s t hm]
  rw [debounceStep_unknown cfg mode _ _ _ _ ((gate_candidateUpdate cfg s t).mpr h)
    (by rw [candidateUpdate_last_idx]; exact hk) h9]
  rw [candidateUpdate_stable_idx]

theorem stepActions_shape (cfg : Config) (mode : Int) (d : Int) (hmode : mode = 0 ∨ mode = 1) :
    (∃ key, stepActions cfg mode d =
      sendArrowKey key cfg.key_hold_time_ms ++ [Action.sleep cfg.up_down_delay_ms]) ∨
    (∃ amount, stepActions cfg mode d =
      sendMouseScroll amount ++ [Action.sleep cfg.mouse_scroll_delay_ms]) := by
  unfold stepActions
  rcases hmode with h | h
  · left; exact ⟨_, by rw [if_pos h]⟩
  · right
    have h0 : mode ≠ 0 := by omega
    exact ⟨_, by rw [if_neg h0, if_pos h]⟩

/-- C3: in the stepping modes a tick performs at most one lever output (nothing,
one arrow-key pulse followed by its pacing sleep, or one wheel event followed by
its pacing sleep); a known `last_idx` moves by at most one index; an unknown
`last_idx` stays unknown or becomes the Neutral baseline without output; and
when output is emitted from a known `last_idx`, the new `last_idx` is exactly
one index closer to the matched position. -/
theorem lever_tick_single_step (cfg : Config) (mode : Int) (s : LeverState) (t : Tick)
    (hmode : mode = 0 ∨ mode = 1) :
    ((leverTick cfg mode s t).2 = [] ∨
      (∃ key, (leverTick cfg mode s t).2 =
        sendArrowKey key cfg.key_hold_time_ms ++ [Action.sleep cfg.up_down_delay_ms]) ∨
      (∃ amount, (leverTick cfg mode s t).2 =
        sendMouseScroll amount ++ [Action.sleep cfg.mouse_scroll_delay_ms])) ∧
    (s.last_idx ≠ -1 → |(leverTick cfg mode s t).1.last_idx - s.last_idx| ≤ 1) ∧
    (s.last_idx = -1 → (leverTick cfg mode s t).1.last_idx = -1 ∨
      ((leverTick cfg mode s t).1.last_idx = 9 ∧ (leverTick cfg mode s t).2 = [])) ∧
    (s.last_idx ≠ -1 → (leverTick cfg mode s t).2 ≠ [] →
      (idxOf cfg t > s.last_idx ∧ (leverTick cfg mode s t).1.last_idx = s.last_idx + 1) ∨
      (idxOf cfg t < s.last_idx ∧ (leverTick cfg mode s t).1.last_idx = s.last_idx - 1)) := by
  have hm : ¬ (mode = 2 ∧ idxOf cfg t ≥ 0 ∧ idxOf cfg t < 15) := by
    intro h; omega
  by_cases hg : idxOf cfg t ≠ -1 ∧ idxOf cfg t ≠ s.last_idx ∧ dwellOk cfg s t
  · by_cases hk : s.last_idx = -1
    · by_cases h9 : idxOf cfg t = 9
      · rw [leverTick_baseline cfg mode s t hm hg hk h9]
        exact ⟨Or.inl rfl, fun h => absurd hk h, fun _ => Or.inr ⟨rfl, rfl⟩,
          fun h => absurd hk h⟩
      · rw [leverTick_unknown cfg mode s t hm hg hk h9]
        exact ⟨Or.inl rfl, fun h => absurd hk h, fun _ => Or.inl rfl,
          fun h => absurd hk h⟩
    · rw [leverTick_step cfg mode s t hm hg hk]
      refine ⟨Or.inr (stepActions_shape cfg mode _ hmode), ?_, fun h => absurd h hk, ?_⟩
      · intro _
        rw [abs_le]
        dsimp only
        split_ifs <;> constructor <;> omega
      · intro _ _
        have hne := hg.2.1
        dsimp only
        split_ifs with hd
        · left; constructor <;> omega
        · right; constructor <;> omega
  · rw [leverTick_hold cfg mode s t hm hg]
    refine ⟨Or.inl rfl, ?_, ?_, ?_⟩
    · intro _
      rw [candidateUpdate_last_idx]
      simp
    · intro h
      rw [candidateUpdate_last_idx]
      exact Or.inl h
    · intro _ h
      exact absurd rfl h

/-- Witness for C3: directional mode, `last_idx = 3`, Neutral of the default
mapping (buttons 6 and 8, index 9) matched and dwelt for 40 ms: the tick steps
to index 4. -/
theorem lever_tick_single_step_witness :
    ((0 : Int) = 0 ∨ (0 : Int) = 1) ∧
    (leverTick default_config 0 ⟨3, 9, 0⟩ ⟨{6, 8}, 40000000, 80000000⟩).1.last_idx = 4 ∧
    |(leverTick default_config 0 ⟨3, 9, 0⟩ ⟨{6, 8}, 40000000, 80000000⟩).1.last_idx - 3| ≤ 1 :=
  ⟨by decide, by decide,
   (lever_tick_single_step default_config 0 ⟨3, 9, 0⟩ ⟨{6, 8}, 40000000, 80000000⟩
      (Or.inl rfl)).2.1 (by decide)⟩

theorem leverTick_noMatch (cfg : Config) (mode : Int) (s : LeverState) (t : Tick)
    (h : idxOf cfg t = -1) :
    leverTick cfg mode s t = (candidateUpdate s (idxOf cfg t) t.now, []) := by
  apply leverTick_hold
  · intro hm; omega
  · intro hg; exact hg.1 h

/-- C6: a run of ticks whose raw match is `-1` on every tick performs no lever
action and leaves `last_idx` unchanged, in every mode and for every number of
ticks and every clock reading. -/
theorem noMatch_never_commits (cfg : Config) (mode : Int) (s : LeverState) (ts : List Tick)
    (h : ∀ t ∈ ts, idxOf cfg t = -1) :
    (leverRun cfg mode s ts).2 = [] ∧ (leverRun cfg mode s ts).1.last_idx = s.last_idx := by
  induction ts generalizing s with
  | nil => exact ⟨rfl, rfl⟩
  | cons t ts ih =>
    have ht := leverTick_noMatch cfg mode s t (h t (List.mem_cons_self t ts))
    have hrest := ih (leverTick cfg mode s t).1 (fun x hx => h x (List.mem_cons_of_mem t hx))
    simp only [leverRun]
    rw [hrest.1, hrest.2, ht]
    exact ⟨rfl, candidateUpdate_last_idx s _ _⟩

/-- Witness for C6: three ticks with no button pressed, 100 ms apart, after the
lever settled on index 3. -/
theorem noMatch_never_commits_witness :
    (∀ t ∈ [(⟨∅, 0, 0⟩ : Tick), ⟨∅, 100000000, 100000000⟩, ⟨∅, 200000000, 200000000⟩],
      idxOf default_config t = -1) ∧
    (leverRun default_config 0 ⟨3, 3, 0⟩
      [⟨∅, 0, 0⟩, ⟨∅, 100000000, 100000000⟩, ⟨∅, 200000000, 200000000⟩]).2 = [] ∧
    (leverRun default_config 0 ⟨3, 3, 0⟩
      [⟨∅, 0, 0⟩, ⟨∅, 100000000, 100000000⟩, ⟨∅, 200000000, 200000000⟩]).1.last_idx = 3 :=
  ⟨by decide,
   noMatch_never_commits default_config 0 ⟨3, 3, 0⟩
     [⟨∅, 0, 0⟩, ⟨∅, 100000000, 100000000⟩, ⟨∅, 200000000, 200000000⟩] (by decide)⟩

/-- C7: in directional mode a tick either emits nothing (and then a known
`last_idx` does not move), or moves a known `last_idx` one index up towards a
higher matched index with exactly one `VK_DOWN` pulse held for
`key_hold_time_ms`, or moves it one index down towards a lower matched index
with exactly one `VK_UP` pulse held for `key_hold_time_ms`; the pulse is
followed by the inter-step sleep. -/
theorem directional_step_key (cfg : Config) (s : LeverState) (t : Tick) :
    ((leverTick cfg 0 s t).2 = [] ∧
      (s.last_idx ≠ -1 → (leverTick cfg 0 s t).1.last_idx = s.last_idx)) ∨
    (s.last_idx ≠ -1 ∧ idxOf cfg t > s.last_idx ∧
      (leverTick cfg 0 s t).1.last_idx = s.last_idx + 1 ∧
      (leverTick cfg 0 s t).2 =
        [Action.key VK_DOWN false false, Action.sleep cfg.key_hold_time_ms,
         Action.key VK_DOWN false true, Action.sleep cfg.up_down_delay_ms]) ∨
    (s.last_idx ≠ -1 ∧ idxOf cfg t < s.last_idx ∧
      (leverTick cfg 0 s t).1.last_idx = s.last_idx - 1 ∧
      (leverTick cfg 0 s t).2 =
        [Action.key VK_UP false false, Action.sleep cfg.key_hold_time_ms,
         Action.key VK_UP false true, Action.sleep cfg.up_down_delay_ms]) := by
  have hm : ¬ ((0 : Int) = 2 ∧ idxOf cfg t ≥ 0 ∧ idxOf cfg t < 15) := by
    intro h; omega
  by_cases hg : idxOf cfg t ≠ -1 ∧ idxOf cfg t ≠ s.last_idx ∧ dwellOk cfg s t
  · by_cases hk : s.last_idx = -1
    · by_cases h9 : idxOf cfg t = 9
      · rw [leverTick_baseline cfg 0 s t hm hg hk h9]
        exact Or.inl ⟨rfl, fun h => absurd hk h⟩
      · rw [leverTick_unknown cfg 0 s t hm hg hk h9]
        exact Or.inl ⟨rfl, fun h => absurd hk h⟩
    · rw [leverTick_step cfg 0 s t hm hg hk]
      have hne := hg.2.1
      by_cases hd : idxOf cfg t - s.last_idx > 0
      · right; left
        refine ⟨hk, by omega, ?_, ?_⟩
        · simp only [hd, if_true]
        · simp [stepActions, sendArrowKey, hd]
      · right; right
        refine ⟨hk, by omega, ?_, ?_⟩
        · simp only [hd, if_false]; omega
        · simp [stepActions, sendArrowKey, hd]
  · rw [leverTick_hold cfg 0 s t hm hg]
    exact Or.inl ⟨rfl, fun _ => candidateUpdate_last_idx s _ _⟩

/-- C8: in the stepping modes, once `last_idx` equals the position matched by
the pressed set `P`, any run of ticks with that same pressed set performs no
lever action and leaves `last_idx` unchanged, whatever the clock readings. -/
theorem settled_run_is_silent (cfg : Config) (mode : Int) (s : LeverState)
    (P : Finset Int) (ts : List Tick)
    (hmode : mode = 0 ∨ mode = 1)
    (hP : ∀ t ∈ ts, t.pressed = P)
    (heq : match_combo P cfg.lever_mappings = s.last_idx) :
    (leverRun cfg mode s ts).2 = [] ∧ (leverRun cfg mode s ts).1.last_idx = s.last_idx := by
  induction ts generalizing s with
  | nil => exact ⟨rfl, rfl⟩
  | cons t ts ih =>
    have hidx : idxOf cfg t = s.last_idx := by
      unfold idxOf; rw [hP t (List.mem_cons_self t ts)]; exact heq
    have ht : leverTick cfg mode s t = (candidateUpdate s (idxOf cfg t) t.now, []) := by
      apply leverTick_hold
      · intro hm; omega
      · intro hg; exact hg.2.1 hidx
    have hl : (leverTick cfg mode s t).1.last_idx = s.last_idx := by
      rw [ht]; exact candidateUpdate_last_idx s _ _
    have hrest := ih (leverTick cfg mode s t).1
      (fun x hx => hP x (List.mem_cons_of_mem t hx)) (by rw [hl]; exact heq)
    simp only [leverRun]
    rw [hrest.1, hrest.2, hl, ht]
    exact ⟨rfl, rfl⟩

/-- Witness for C8: scroll mode, settled on index 4 (buttons 7 and 9 of the
default mapping), two further ticks 500 ms apart. -/
theorem settled_run_is_silent_witness :
    ((1 : Int) = 0 ∨ (1 : Int) = 1) ∧
    (∀ t ∈ [(⟨{7, 9}, 0, 0⟩ : Tick), ⟨{7, 9}, 500000000, 500000000⟩], t.pressed = {7, 9}) ∧
    match_combo {7, 9} default_config.lever_mappings = (4 : Int) ∧
    (leverRun default_config 1 ⟨4, 4, 0⟩
      [⟨{7, 9}, 0, 0⟩, ⟨{7, 9}, 500000000, 500000000⟩]).2 = [] ∧
    (leverRun default_config 1 ⟨4, 4, 0⟩
      [⟨{7, 9}, 0, 0⟩, ⟨{7, 9}, 500000000, 500000000⟩]).1.last_idx = 4 :=
  ⟨by decide, by decide, by decide,
   settled_run_is_silent default_config 1 ⟨4, 4, 0⟩ {7, 9}
     [⟨{7, 9}, 0, 0⟩, ⟨{7, 9}, 500000000, 500000000⟩] (Or.inr rfl) (by decide) (by decide)⟩

/-- C10: in a stepping iteration (any mode other than direct-key mode) with
`last_idx` unknown, when the matched position is Neutral (index 9) and the
dwell condition holds, `last_idx` becomes 9 and the tick performs no action at
all. -/
theorem neutral_first_settle (cfg : Config) (mode : Int) (s : LeverState) (t : Tick)
    (hmode : mode ≠ 2) (hk : s.last_idx = -1) (h9 : idxOf cfg t = 9)
    (hd : dwellOk cfg s t) :
    (leverTick cfg mode s t).1.last_idx = 9 ∧ (leverTick cfg mode s t).2 = [] := by
  have hm : ¬ (mode = 2 ∧ idxOf cfg t ≥ 0 ∧ idxOf cfg t < 15) := fun h => hmode h.1
  have hg : idxOf cfg t ≠ -1 ∧ idxOf cfg t ≠ s.last_idx ∧ dwellOk cfg s t := by
    refine ⟨?_, ?_, hd⟩ <;> omega
  rw [leverTick_baseline cfg mode s t hm hg hk h9]
  exact ⟨rfl, rfl⟩

/-- Witness for C10: from the initial lever state, Neutral of the default
mapping (buttons 6 and 8) first seen at 0 ms and seen again at 30 ms. -/
theorem neutral_first_settle_witness :
    (0 : Int) ≠ 2 ∧
    (leverRun default_config 0 (LeverState.init 0) [⟨{6, 8}, 0, 0⟩]).1.last_idx = -1 ∧
    idxOf default_config ⟨{6, 8}, 30000000, 30000000⟩ = 9 ∧
    dwellOk default_config
      (leverRun default_config 0 (LeverState.init 0) [⟨{6, 8}, 0, 0⟩]).1
      ⟨{6, 8}, 30000000, 30000000⟩ ∧
    (leverTick default_config 0
      (leverRun default_config 0 (LeverState.init 0) [⟨{6, 8}, 0, 0⟩]).1
      ⟨{6, 8}, 30000000, 30000000⟩).1.last_idx = 9 ∧
    (leverTick default_config 0
      (leverRun default_config 0 (LeverState.init 0) [⟨{6, 8}, 0, 0⟩]).1
      ⟨{6, 8}, 30000000, 30000000⟩).2 = [] :=
  ⟨by decide, by decide, by decide, by decide,
   neutral_first_settle default_config 0
     (leverRun default_config 0 (LeverState.init 0) [⟨{6, 8}, 0, 0⟩]).1
     ⟨{6, 8}, 30000000, 30000000⟩ (by decide) (by decide) (by decide) (by decide)⟩

/-- Counterexample to C9 as stated: from the initial lever state in directional
mode, index 3 (button 7 of the default mapping) is matched at 0 ms and again at
40 ms, so it has dwelt for more than the 30 ms debounce interval; the run
performs no action, but `last_idx` is still `-1`, not 3. -/
theorem first_settle_non_neutral_counterexample :
    idxOf default_config ⟨{7}, 40000000, 40000000⟩ = 3 ∧
    dwellOk default_config
      (leverRun default_config 0 (LeverState.init 0) [⟨{7}, 0, 0⟩]).1
      ⟨{7}, 40000000, 40000000⟩ ∧
    (leverRun default_config 0 (LeverState.init 0)
      [⟨{7}, 0, 0⟩, ⟨{7}, 40000000, 40000000⟩]).1.last_idx = -1 ∧
    (leverRun default_config 0 (LeverState.init 0)
      [⟨{7}, 0, 0⟩, ⟨{7}, 40000000, 40000000⟩]).1.last_idx ≠ 3 := by
  decide

/-- C9 as amended: in a stepping iteration with `last_idx` unknown, when a valid
position other than Neutral is matched and the dwell condition holds, the tick
performs no action and `last_idx` stays unknown; the candidate is kept and only
`last_event_time` is set to the clock reading taken at the end of the branch. -/
theorem first_settle_non_neutral_stays_unknown (cfg : Config) (mode : Int)
    (s : LeverState) (t : Tick)
    (hmode : mode ≠ 2) (hk : s.last_idx = -1) (hv : idxOf cfg t ≠ -1)
    (h9 : idxOf cfg t ≠ 9) (hd : dwellOk cfg s t) :
    (leverTick cfg mode s t).2 = [] ∧
    (leverTick cfg mode s t).1 =
      { last_idx := -1, stable_idx := idxOf cfg t, last_event_time := t.after } := by
  have hm : ¬ (mode = 2 ∧ idxOf cfg t ≥ 0 ∧ idxOf cfg t < 15) := fun h => hmode h.1
  have hg : idxOf cfg t ≠ -1 ∧ idxOf cfg t ≠ s.last_idx ∧ dwellOk cfg s t :=
    ⟨hv, by rw [hk]; exact hv, hd⟩
  rw [leverTick_unknown cfg mode s t hm hg hk h9]
  exact ⟨rfl, rfl⟩

/-- Witness for the amended C9: index 3 of the default mapping dwelling for
40 ms from the initial lever state. -/
theorem first_settle_non_neutral_stays_unknown_witness :
    (0 : Int) ≠ 2 ∧ (⟨-1, 3, 0⟩ : LeverState).last_idx = -1 ∧
    idxOf default_config ⟨{7}, 40000000, 41000000⟩ ≠ -1 ∧
    idxOf default_config ⟨{7}, 40000000, 41000000⟩ ≠ 9 ∧
    dwellOk default_config ⟨-1, 3, 0⟩ ⟨{7}, 40000000, 41000000⟩ ∧
    (leverTick default_config 0 ⟨-1, 3, 0⟩ ⟨{7}, 40000000, 41000000⟩).2 = [] ∧
    (leverTick default_config 0 ⟨-1, 3, 0⟩ ⟨{7}, 40000000, 41000000⟩).1 =
      { last_idx := -1,
        stable_idx := idxOf default_config ⟨{7}, 40000000, 41000000⟩,
        last_event_time := 41000000 } :=
  ⟨by decide, rfl, by decide, by decide, by decide,
   first_settle_non_neutral_stays_unknown default_config 0 ⟨-1, 3, 0⟩
     ⟨{7}, 40000000, 41000000⟩ (by decide) rfl (by decide) (by decide) (by decide)⟩

/-! ## Walking towards a held position -/

theorem pathTo_self (b : Int) : pathTo b b = [] := by
  simp [pathTo, pathFrom]

theorem dirTo_step (a b : Int) (hne : a ≠ b) (h : a + dirTo a b ≠ b) :
    dirTo (a + dirTo a b) b = dirTo a b := by
  unfold dirTo at h ⊢
  by_cases hd : b - a > 0
  · rw [if_pos hd] at h ⊢
    have h2 : b - (a + 1) > 0 := by omega
    rw [if_pos h2]
  · rw [if_neg hd] at h ⊢
    have h2 : ¬ b - (a + -1) > 0 := by omega
    rw [if_neg h2]

theorem pathTo_cons (a b : Int) (h : a ≠ b) :
    pathTo a b = (a + dirTo a b) :: pathTo (a + dirTo a b) b := by
  unfold pathTo
  have hn : (b - a).natAbs = (b - (a + dirTo a b)).natAbs + 1 := by
    unfold dirTo; split_ifs <;> omega
  rw [hn, pathFrom]
  congr 1
  by_cases hend : a + dirTo a b = b
  · rw [hend]; simp [pathFrom]
  · rw [dirTo_step a b h hend]

theorem pathFrom_length (a d : Int) (n : Nat) : (pathFrom a d n).length = n := by
  induction n generalizing a with
  | zero => rfl
  | succ n ih => simp [pathFrom, ih]

theorem pathFrom_getLastD (a d : Int) (n : Nat) :
    (pathFrom a d n).getLastD a = a + d * n := by
  induction n generalizing a with
  | zero => simp [pathFrom]
  | succ n ih =>
    rw [pathFrom, List.getLastD_cons, ih]
    push_cast
    ring

theorem pathFrom_eq_map (a d : Int) (n : Nat) :
    pathFrom a d n = (List.range n).map (fun (k : Nat) => a + d * ((k : Int) + 1)) := by
  induction n generalizing a with
  | zero => rfl
  | succ n ih =>
    rw [pathFrom, ih, List.range_succ_eq_map, List.map_cons, List.map_map]
    congr 1
    · simp
    · apply List.map_congr_left
      intro k _
      simp only [Function.comp, Nat.succ_eq_add_one]
      push_cast
      ring

theorem flatMap_const_eq (l : List Int) (x : List Action) :
    l.flatMap (fun _ => x) = (List.replicate l.length x).flatten := by
  induction l with
  | nil => rfl
  | cons a l ih =>
    rw [List.flatMap_cons, ih, List.length_cons, List.replicate_succ, List.flatten_cons]

theorem walk_towards (cfg : Config) (mode : Int) (b : Int)
    (hmode : mode = 0 ∨ mode = 1) (hb : 0 ≤ b) :
    ∀ (ts : List Tick) (s : LeverState), 0 ≤ s.last_idx →
      (∀ t ∈ ts, idxOf cfg t = b) →
      visited cfg mode s ts =
        (pathTo s.last_idx b).take (countDwell cfg mode s ts) ∧
      (leverRun cfg mode s ts).2 =
        ((pathTo s.last_idx b).take (countDwell cfg mode s ts)).flatMap
          (fun _ => stepActions cfg mode (dirTo s.last_idx b)) ∧
      (leverRun cfg mode s ts).1.last_idx =
        ((pathTo s.last_idx b).take (countDwell cfg mode s ts)).getLastD s.last_idx := by
  intro ts
  induction ts with
  | nil =>
    intro s _ _
    simp [visited, leverRun, countDwell]
  | cons t ts ih =>
    intro s ha hraw
    have hidx : idxOf cfg t = b := hraw t (List.mem_cons_self t ts)
    have hrest : ∀ x ∈ ts, idxOf cfg x = b := fun x hx => hraw x (List.mem_cons_of_mem t hx)
    have hm : ¬ (mode = 2 ∧ idxOf cfg t ≥ 0 ∧ idxOf cfg t < 15) := by
      intro h; omega
    by_cases hg : idxOf cfg t ≠ -1 ∧ idxOf cfg t ≠ s.last_idx ∧ dwellOk cfg s t
    · have hk : s.last_idx ≠ -1 := by omega
      have hne : s.last_idx ≠ b := by rw [← hidx]; exact fun h => hg.2.1 h.symm
      have ht := leverTick_step cfg mode s t hm hg hk
      rw [hidx] at ht
      have hd : (if b - s.last_idx > 0 then (1 : Int) else -1) = dirTo s.last_idx b := rfl
      rw [hd] at ht
      have hl : (leverTick cfg mode s t).1.last_idx = s.last_idx + dirTo s.last_idx b := by
        rw [ht]
      have ha2 : 0 ≤ s.last_idx + dirTo s.last_idx b := by
        unfold dirTo; split_ifs <;> omega
      have hmove : s.last_idx + dirTo s.last_idx b ≠ s.last_idx := by
        unfold dirTo; split_ifs <;> omega
      obtain ⟨ih1, ih2, ih3⟩ := ih (leverTick cfg mode s t).1 (by rw [hl]; exact ha2) hrest
      rw [hl] at ih1 ih2 ih3
      simp only [visited, leverRun, countDwell, hg.2.2, if_true]
      rw [hl, ih1, ih2, ih3, if_pos hmove, pathTo_cons s.last_idx b hne, Nat.add_comm 1,
        List.take_succ_cons, List.flatMap_cons, List.getLastD_cons]
      refine ⟨rfl, ?_, rfl⟩
      rw [ht]
      congr 1
      by_cases hend : s.last_idx + dirTo s.last_idx b = b
      · rw [hend, pathTo_self]; simp
      · rw [dirTo_step s.last_idx b hne hend]
    · have ht := leverTick_hold cfg mode s t hm hg
      have hl : (leverTick cfg mode s t).1.last_idx = s.last_idx := by
        rw [ht]; exact candidateUpdate_last_idx s _ _
      obtain ⟨ih1, ih2, ih3⟩ := ih (leverTick cfg mode s t).1 (by rw [hl]; exact ha) hrest
      rw [hl] at ih1 ih2 ih3
      have hout : (leverTick cfg mode s t).2 = [] := by rw [ht]
      by_cases heq : s.last_idx = b
      · simp only [visited, leverRun, countDwell]
        rw [hl, ih1, ih2, ih3, hout, heq, pathTo_self]
        simp
      · have hnd : ¬ dwellOk cfg s t := by
          intro hd
          apply hg
          refine ⟨by omega, ?_, hd⟩
          rw [hidx]; exact fun h => heq h.symm
        simp only [visited, leverRun, countDwell, hnd, if_false]
        rw [hl, ih1, ih2, ih3, hout]
        simp

/-- C4: in a stepping mode, starting from a known `last_idx = a` while a valid
position `b` is the raw match on every tick, as soon as the run contains at
least `N = |b - a|` ticks satisfying the dwell condition, `last_idx` has taken
exactly the values `a + d, a + 2 d, ..., b` in that order (`d` the sign of
`b - a`), it ends equal to `b`, and the actions of the whole run are exactly
`N` single steps in direction `d`; further ticks add nothing. -/
theorem jump_walks_every_index (cfg : Config) (mode : Int) (s : LeverState) (b : Int)
    (ts : List Tick)
    (hmode : mode = 0 ∨ mode = 1) (ha : 0 ≤ s.last_idx) (hb : 0 ≤ b)
    (hraw : ∀ t ∈ ts, idxOf cfg t = b)
    (henough : (b - s.last_idx).natAbs ≤ countDwell cfg mode s ts) :
    visited cfg mode s ts =
      (List.range (b - s.last_idx).natAbs).map
        (fun (k : Nat) => s.last_idx + dirTo s.last_idx b * ((k : Int) + 1)) ∧
    (leverRun cfg mode s ts).1.last_idx = b ∧
    (leverRun cfg mode s ts).2 =
      (List.replicate (b - s.last_idx).natAbs
        (stepActions cfg mode (dirTo s.last_idx b))).flatten := by
  obtain ⟨h1, h2, h3⟩ := walk_towards cfg mode b hmode hb ts s ha hraw
  have hlen : (pathTo s.last_idx b).length = (b - s.last_idx).natAbs :=
    pathFrom_length _ _ _
  have htake : (pathTo s.last_idx b).take (countDwell cfg mode s ts) = pathTo s.last_idx b :=
    List.take_of_length_le (by rw [hlen]; exact henough)
  rw [htake] at h1 h2 h3
  refine ⟨?_, ?_, ?_⟩
  · rw [h1]; exact pathFrom_eq_map _ _ _
  · rw [h3]
    unfold pathTo
    rw [pathFrom_getLastD]
    unfold dirTo
    split_ifs <;> omega
  · rw [h2, flatMap_const_eq, hlen]

/-- Witness for C4 (scenario B): from `last_idx = 3` with Neutral (index 9) held,
directional mode emits exactly six `VK_DOWN` pulses and `last_idx` visits
4, 5, 6, 7, 8, 9. -/
theorem jump_walks_every_index_witness :
    ((0 : Int) = 0 ∨ (0 : Int) = 1) ∧
    (∀ t ∈ scenarioB, idxOf default_config t = 9) ∧
    ((9 : Int) - 3).natAbs ≤ countDwell default_config 0 ⟨3, 3, 0⟩ scenarioB ∧
    visited default_config 0 ⟨3, 3, 0⟩ scenarioB = [4, 5, 6, 7, 8, 9] ∧
    (leverRun default_config 0 ⟨3, 3, 0⟩ scenarioB).1.last_idx = 9 ∧
    (leverRun default_config 0 ⟨3, 3, 0⟩ scenarioB).2 =
      (List.replicate 6
        [Action.key VK_DOWN false false, Action.sleep 10,
         Action.key VK_DOWN false true, Action.sleep 25]).flatten :=
  ⟨by decide, by decide, by decide,
   jump_walks_every_index default_config 0 ⟨3, 3, 0⟩ 9 scenarioB
     (Or.inl rfl) (by decide) (by decide) (by decide) (by decide)⟩

/-! ## Debounce timing along a run -/

theorem leverRun_append (cfg : Config) (mode : Int) (s : LeverState) (xs ys : List Tick) :
    (leverRun cfg mode s (xs ++ ys)).1 =
      (leverRun cfg mode (leverRun cfg mode s xs).1 ys).1 := by
  induction xs generalizing s with
  | nil => rfl
  | cons x xs ih => simp only [List.cons_append, leverRun]; exact ih _

theorem leverRun_snoc (cfg : Config) (mode : Int) (s : LeverState) (xs : List Tick)
    (t : Tick) :
    (leverRun cfg mode s (xs ++ [t])).1 =
      (leverTick cfg mode (leverRun cfg mode s xs).1 t).1 := by
  rw [leverRun_append]; rfl

theorem elapsed_bound (now since d y : Int) (h : elapsedMs now since ≥ d)
    (hy1 : y ≥ now - since) (hy0 : y ≥ 0) : y ≥ d * ticksPerMs := by
  unfold elapsedMs ticksPerMs at *
  rcases le_or_lt 0 (now - since) with hx | hx
  · rw [Int.tdiv_eq_ediv hx (by decide)] at h
    omega
  · have h1 : (now - since).tdiv 1000000 = -((-(now - since)).tdiv 1000000) := by
      rw [Int.neg_tdiv, neg_neg]
    have h2 : 0 ≤ (-(now - since)).tdiv 1000000 :=
      Int.tdiv_nonneg (by omega) (by decide)
    omega

theorem leverTick_facts (cfg : Config) (mode : Int) (s : LeverState) (t : Tick)
    (hmode : mode ≠ 2) :
    (leverTick cfg mode s t).1.stable_idx = idxOf cfg t ∧
    ((leverTick cfg mode s t).1.last_event_time = dwellStart cfg s t ∨
      (leverTick cfg mode s t).1.last_event_time = t.after) ∧
    ((leverTick cfg mode s t).1.last_idx ≠ s.last_idx →
      idxOf cfg t ≠ -1 ∧ dwellOk cfg s t) := by
  have hm : ¬ (mode = 2 ∧ idxOf cfg t ≥ 0 ∧ idxOf cfg t < 15) := fun h => hmode h.1
  by_cases hg : idxOf cfg t ≠ -1 ∧ idxOf cfg t ≠ s.last_idx ∧ dwellOk cfg s t
  · by_cases hk : s.last_idx = -1
    · by_cases h9 : idxOf cfg t = 9
      · rw [leverTick_baseline cfg mode s t hm hg hk h9]
        exact ⟨h9.symm, Or.inr rfl, fun _ => ⟨hg.1, hg.2.2⟩⟩
      · rw [leverTick_unknown cfg mode s t hm hg hk h9]
        exact ⟨rfl, Or.inr rfl, fun _ => ⟨hg.1, hg.2.2⟩⟩
    · rw [leverTick_step cfg mode s t hm hg hk]
      exact ⟨rfl, Or.inr rfl, fun _ => ⟨hg.1, hg.2.2⟩⟩
  · rw [leverTick_hold cfg mode s t hm hg]
    refine ⟨candidateUpdate_stable_idx s _ _, Or.inl (candidateUpdate_time cfg s t), ?_⟩
    intro h
    exact absurd (candidateUpdate_last_idx s _ _) h

theorem directKey_tick_unknown (cfg : Config) (s : LeverState) (t : Tick)
    (hk : s.last_idx = -1) : (leverTick cfg 2 s t).1.last_idx = -1 := by
  by_cases hm : ((2 : Int) = 2 ∧ idxOf cfg t ≥ 0 ∧ idxOf cfg t < 15)
  · have hm2 : (2 : Int) = 2 ∧ match_combo t.pressed cfg.lever_mappings ≥ 0 ∧
        match_combo t.pressed cfg.lever_mappings < 15 := hm
    unfold leverTick
    simp only [hm2, and_self, if_true]
    split_ifs <;> exact hk
  · by_cases hg : idxOf cfg t ≠ -1 ∧ idxOf cfg t ≠ s.last_idx ∧ dwellOk cfg s t
    · by_cases h9 : idxOf cfg t = 9
      · exfalso; apply hm; rw [h9]; decide
      · rw [leverTick_unknown cfg 2 s t hm hg hk h9]
    · rw [leverTick_hold cfg 2 s t hm hg, candidateUpdate_last_idx]
      exact hk

theorem directKey_run_unknown (cfg : Config) (s : LeverState) (ts : List Tick)
    (hk : s.last_idx = -1) : (leverRun cfg 2 s ts).1.last_idx = -1 := by
  induction ts generalizing s with
  | nil => exact hk
  | cons t ts ih =>
    simp only [leverRun]
    exact ih _ (directKey_tick_unknown cfg s t hk)

theorem clockReadings_snoc (pre : List Tick) (t : Tick) :
    clockReadings (pre ++ [t]) = clockReadings pre ++ [t.now, t.after] := by
  simp [clockReadings, List.flatMap_append]

theorem now_mem_clockReadings (pre : List Tick) (x : Tick) (hx : x ∈ pre) :
    x.now ∈ clockReadings pre := by
  unfold clockReadings
  rw [List.mem_flatMap]
  exact ⟨x, hx, by simp⟩

theorem heldSince_mem (cfg : Config) (pre : List Tick) (c : Int) (first : Tick)
    (h : HeldSince cfg pre c first) : first ∈ pre := by
  obtain ⟨older, held, hpre, _, _⟩ := h
  rw [hpre]; simp

theorem heldSince_last (cfg : Config) (pre : List Tick) (c : Int) (first : Tick)
    (h : HeldSince cfg pre c first) (l : Tick) (hl : pre.getLast? = some l) :
    idxOf cfg l = c := by
  obtain ⟨older, held, hpre, hall, _⟩ := h
  apply hall
  rw [hpre, List.getLast?_append_of_ne_nil _ (List.cons_ne_nil first held)] at hl
  exact List.mem_of_getLast?_eq_some hl

theorem heldSince_snoc_same (cfg : Config) (pre : List Tick) (c : Int) (first t : Tick)
    (h : HeldSince cfg pre c first) (ht : idxOf cfg t = c) :
    HeldSince cfg (pre ++ [t]) c first := by
  obtain ⟨older, held, hpre, hall, hprev⟩ := h
  refine ⟨older, held ++ [t], by rw [hpre]; simp, ?_, hprev⟩
  intro x hx
  rw [← List.cons_append, List.mem_append] at hx
  rcases hx with hx | hx
  · exact hall x hx
  · rw [List.mem_singleton] at hx; rw [hx]; exact ht

theorem heldSince_snoc_new (cfg : Config) (pre : List Tick) (t : Tick)
    (hprev : ∀ l, pre.getLast? = some l → idxOf cfg l ≠ idxOf cfg t) :
    HeldSince cfg (pre ++ [t]) (idxOf cfg t) t := by
  refine ⟨pre, [], rfl, ?_, hprev⟩
  intro x hx
  rw [List.mem_singleton] at hx; rw [hx]

/-- Invariant of the candidate variables along a run from the initial lever
state in a mode other than direct-key mode: either every tick so far had no
match and `stable_idx` is still `-1`, or `stable_idx` has been the raw match
since some tick `first` at which it first appeared, and `last_event_time` is
not earlier than the clock reading of that tick. -/
theorem candidate_invariant (cfg : Config) (mode : Int) (hmode : mode ≠ 2) (start : Int)
    (pre : List Tick) (hclock : (clockReadings pre).Pairwise (· ≤ ·)) :
    ((∀ x ∈ pre, idxOf cfg x = -1) ∧
      (leverRun cfg mode (LeverState.init start) pre).1.stable_idx = -1) ∨
    (∃ first, HeldSince cfg pre
        (leverRun cfg mode (LeverState.init start) pre).1.stable_idx first ∧
      first.now ≤ (leverRun cfg mode (LeverState.init start) pre).1.last_event_time) := by
  induction pre using List.reverseRecOn with
  | nil => exact Or.inl ⟨by simp, rfl⟩
  | append_singleton pre t ih =>
    rw [clockReadings_snoc, List.pairwise_append] at hclock
    obtain ⟨hpre, hlast, hcross⟩ := hclock
    have hna : t.now ≤ t.after := by
      rw [List.pairwise_pair] at hlast; exact hlast
    rw [leverRun_snoc]
    obtain ⟨hst, htime, _⟩ :=
      leverTick_facts cfg mode (leverRun cfg mode (LeverState.init start) pre).1 t hmode
    rw [hst]
    by_cases hsame : idxOf cfg t = (leverRun cfg mode (LeverState.init start) pre).1.stable_idx
    · rcases ih hpre with ⟨hall, hs⟩ | ⟨first, hheld, hle⟩
      · left
        refine ⟨?_, by rw [hsame, hs]⟩
        intro x hx
        rcases List.mem_append.mp hx with hx | hx
        · exact hall x hx
        · rw [List.mem_singleton] at hx; rw [hx, hsame, hs]
      · right
        refine ⟨first, ?_, ?_⟩
        · rw [hsame]; exact heldSince_snoc_same cfg pre _ first t hheld hsame
        · rcases htime with h | h
          · rw [h]; unfold dwellStart; rw [if_neg (not_not.mpr hsame)]; exact hle
          · rw [h]
            exact hcross first.now
              (now_mem_clockReadings pre first (heldSince_mem cfg pre _ first hheld))
              t.after (by simp)
    · right
      refine ⟨t, heldSince_snoc_new cfg pre t ?_, ?_⟩
      · intro l hl
        rcases ih hpre with ⟨hall, hs⟩ | ⟨first, hheld, _⟩
        · rw [hall l (List.mem_of_getLast?_eq_some hl), ← hs]; exact fun h => hsame h.symm
        · rw [heldSince_last cfg pre _ first hheld l hl]; exact fun h => hsame h.symm
      · rcases htime with h | h
        · rw [h]; unfold dwellStart; rw [if_pos hsame]
        · rw [h]; exact hna

/-- C5: along any run from the initial lever state with a non-decreasing clock,
if a tick at time `t.now` changes `last_idx` (emits a step or records the
baseline), then its raw match is a valid index, that index has been the raw
match on every tick since the tick `first` at which it first appeared, and
`t.now - first.now` is at least `debounce_ms` milliseconds. The run may be
empty, so the first settlement after startup is covered. -/
theorem commit_requires_dwell (cfg : Config) (mode : Int) (start : Int)
    (pre : List Tick) (t : Tick)
    (hclock : (clockReadings (pre ++ [t])).Pairwise (· ≤ ·))
    (hcommit : (leverTick cfg mode (leverRun cfg mode (LeverState.init start) pre).1 t).1.last_idx
      ≠ (leverRun cfg mode (LeverState.init start) pre).1.last_idx) :
    idxOf cfg t ≠ -1 ∧
    ∃ first, HeldSince cfg (pre ++ [t]) (idxOf cfg t) first ∧
      t.now - first.now ≥ cfg.debounce_ms * ticksPerMs := by
  by_cases hmode : mode = 2
  · exfalso
    subst hmode
    have h1 := directKey_run_unknown cfg (LeverState.init start) pre rfl
    rw [h1, directKey_tick_unknown cfg _ t h1] at hcommit
    exact hcommit rfl
  · obtain ⟨_, _, hgate⟩ :=
      leverTick_facts cfg mode (leverRun cfg mode (LeverState.init start) pre).1 t hmode
    obtain ⟨hvalid, hdwell⟩ := hgate hcommit
    refine ⟨hvalid, ?_⟩
    rw [clockReadings_snoc, List.pairwise_append] at hclock
    obtain ⟨hpre, _, hcross⟩ := hclock
    unfold dwellOk at hdwell
    by_cases hsame : idxOf cfg t = (leverRun cfg mode (LeverState.init start) pre).1.stable_idx
    · rcases candidate_invariant cfg mode hmode start pre hpre with ⟨_, hs⟩ | ⟨first, hheld, hle⟩
      · exact absurd (hsame.trans hs) hvalid
      · refine ⟨first, ?_, ?_⟩
        · rw [hsame]; exact heldSince_snoc_same cfg pre _ first t hheld hsame
        · have hfn : first.now ≤ t.now :=
            hcross first.now
              (now_mem_clockReadings pre first (heldSince_mem cfg pre _ first hheld))
              t.now (by simp)
          unfold dwellStart at hdwell
          rw [if_neg (not_not.mpr hsame)] at hdwell
          exact elapsed_bound t.now _ cfg.debounce_ms (t.now - first.now) hdwell
            (by omega) (by omega)
    · refine ⟨t, heldSince_snoc_new cfg pre t ?_, ?_⟩
      · intro l hl
        rcases candidate_invariant cfg mode hmode start pre hpre with ⟨hall, hs⟩ | ⟨first, hheld, _⟩
        · rw [hall l (List.mem_of_getLast?_eq_some hl), ← hs]; exact fun h => hsame h.symm
        · rw [heldSince_last cfg pre _ first hheld l hl]; exact fun h => hsame h.symm
      · unfold dwellStart at hdwell
        rw [if_pos hsame] at hdwell
        exact elapsed_bound t.now t.now cfg.debounce_ms (t.now - t.now) hdwell
          (le_refl _) (by omega)

/-- Witness for C5: from the initial lever state, Neutral of the default mapping
first read at 0 ms and read again at 30 ms, where the baseline is recorded. -/
theorem commit_requires_dwell_witness :
    (clockReadings ([(⟨{6, 8}, 0, 0⟩ : Tick)] ++ [⟨{6, 8}, 30000000, 30000000⟩])).Pairwise
      (· ≤ ·) ∧
    (leverTick default_config 0
        (leverRun default_config 0 (LeverState.init 0) [⟨{6, 8}, 0, 0⟩]).1
        ⟨{6, 8}, 30000000, 30000000⟩).1.last_idx
      ≠ (leverRun default_config 0 (LeverState.init 0) [⟨{6, 8}, 0, 0⟩]).1.last_idx ∧
    idxOf default_config ⟨{6, 8}, 30000000, 30000000⟩ ≠ -1 ∧
    ∃ first,
      HeldSince default_config ([(⟨{6, 8}, 0, 0⟩ : Tick)] ++ [⟨{6, 8}, 30000000, 30000000⟩])
        (idxOf default_config ⟨{6, 8}, 30000000, 30000000⟩) first ∧
      (⟨{6, 8}, 30000000, 30000000⟩ : Tick).now - first.now
        ≥ default_config.debounce_ms * ticksPerMs :=
  ⟨by decide, by decide,
   commit_requires_dwell default_config 0 0 [⟨{6, 8}, 0, 0⟩] ⟨{6, 8}, 30000000, 30000000⟩
     (by decide) (by decide)⟩

/-! ## Candidate change, direct-key mode and scroll mode -/

theorem elapsedMs_self (now : Int) : elapsedMs now now = 0 := by
  unfold elapsedMs
  rw [sub_self]
  exact Int.zero_tdiv _

/-- With a debounce interval of at least 1 ms, a stepping iteration whose raw
match differs from `stable_idx` sets `stable_idx` to the raw match and
`last_event_time` to `now`, and emits nothing. -/
theorem candidate_change_silent_of_pos_debounce (cfg : Config) (mode : Int)
    (s : LeverState) (t : Tick)
    (hmode : mode ≠ 2) (hd : cfg.debounce_ms ≥ 1) (hne : idxOf cfg t ≠ s.stable_idx) :
    leverTick cfg mode s t =
      ({ last_idx := s.last_idx, stable_idx := idxOf cfg t, last_event_time := t.now }, []) := by
  have hm : ¬ (mode = 2 ∧ idxOf cfg t ≥ 0 ∧ idxOf cfg t < 15) := fun h => hmode h.1
  have hg : ¬ (idxOf cfg t ≠ -1 ∧ idxOf cfg t ≠ s.last_idx ∧ dwellOk cfg s t) := by
    intro h
    have h3 := h.2.2
    unfold dwellOk dwellStart at h3
    rw [if_pos hne, elapsedMs_self] at h3
    omega
  rw [leverTick_hold cfg mode s t hm hg]
  unfold candidateUpdate
  rw [if_pos hne]

/-- C11, the code at the failing input: with `debounce_ms = 0`, the lever
settled on Neutral (`last_idx = stable_idx = 9`) and a tick whose raw match is 8,
the raw match differs from the stored candidate, yet the same tick emits a
`VK_UP` pulse, moves `last_idx` to 8 and leaves `last_event_time` at the later
clock reading instead of `now`. -/
theorem candidate_change_emits_when_debounce_zero :
    idxOf zeroDebounceConfig ⟨{6, 9}, 5000000, 40000000⟩ = 8 ∧
    idxOf zeroDebounceConfig ⟨{6, 9}, 5000000, 40000000⟩
      ≠ (⟨9, 9, 0⟩ : LeverState).stable_idx ∧
    leverTick zeroDebounceConfig 0 ⟨9, 9, 0⟩ ⟨{6, 9}, 5000000, 40000000⟩ =
      (⟨8, 8, 40000000⟩,
       [Action.key VK_UP false false, Action.sleep 10, Action.key VK_UP false true,
        Action.sleep 25]) := by
  decide

theorem leverTick_direct (cfg : Config) (s : LeverState) (t : Tick)
    (hi : idxOf cfg t ≥ 0 ∧ idxOf cfg t < 15) :
    leverTick cfg 2 s t =
      if cfg.lever_keycodes.getD (idxOf cfg t).toNat 0 > 0 then
        (s, directPulse (cfg.lever_keycodes.getD (idxOf cfg t).toNat 0 % 65536))
      else (s, []) := by
  have hm : (2 : Int) = 2 ∧ match_combo t.pressed cfg.lever_mappings ≥ 0 ∧
      match_combo t.pressed cfg.lever_mappings < 15 := ⟨rfl, hi⟩
  unfold leverTick idxOf directPulse
  simp only [hm, and_self, if_true]

/-- Counterexample to C12 as stated: in direct-key mode with every position
bound to key `0x41`, two consecutive ticks with the same matched position
(Neutral, index 9) emit two pulses of that key, one per tick. -/
theorem direct_key_once_per_change_counterexample :
    idxOf directKeyConfig ⟨{6, 8}, 0, 0⟩ = 9 ∧
    idxOf directKeyConfig ⟨{6, 8}, 210000000, 210000000⟩ = 9 ∧
    (leverRun directKeyConfig 2 (LeverState.init 0)
      [⟨{6, 8}, 0, 0⟩, ⟨{6, 8}, 210000000, 210000000⟩]).2 =
      directPulse 0x41 ++ directPulse 0x41 ∧
    (leverRun directKeyConfig 2 (LeverState.init 0)
      [⟨{6, 8}, 0, 0⟩, ⟨{6, 8}, 210000000, 210000000⟩]).2 ≠ directPulse 0x41 := by
  decide

/-- C12 as amended: in direct-key mode, a run of consecutive ticks whose matched
position is the same valid index `i` with a bound key code `vk > 0` emits one
pulse on every tick (key down, 10 ms, key up, 200 ms pause), so `ts.length`
pulses in all, and leaves the lever variables untouched; the key of the pulse
is the code as the 16-bit field `wVk` holds it, `vk` modulo 65536, which is
`vk` itself for every code below 65536. -/
theorem direct_key_pulses_every_tick (cfg : Config) (s : LeverState) (i vk : Int)
    (ts : List Tick)
    (hi : 0 ≤ i ∧ i < 15) (hvk : cfg.lever_keycodes.getD i.toNat 0 = vk) (hpos : vk > 0)
    (hraw : ∀ t ∈ ts, idxOf cfg t = i) :
    leverRun cfg 2 s ts =
      (s, (List.replicate ts.length (directPulse (vk % 65536))).flatten) ∧
    (vk < 65536 →
      leverRun cfg 2 s ts = (s, (List.replicate ts.length (directPulse vk)).flatten)) := by
  have hmain : leverRun cfg 2 s ts =
      (s, (List.replicate ts.length (directPulse (vk % 65536))).flatten) := by
    induction ts with
    | nil => rfl
    | cons t ts ih =>
      have hidx : idxOf cfg t = i := hraw t (List.mem_cons_self t ts)
      have ht : leverTick cfg 2 s t = (s, directPulse (vk % 65536)) := by
        rw [leverTick_direct cfg s t (by rw [hidx]; exact hi), hidx, hvk, if_pos hpos]
      have hrest := ih (fun x hx => hraw x (List.mem_cons_of_mem t hx))
      simp only [leverRun, ht, hrest, List.length_cons, List.replicate_succ, List.flatten_cons]
  refine ⟨hmain, ?_⟩
  intro hlt
  have hmod : vk % 65536 = vk := Int.emod_eq_of_lt (by omega) hlt
  rw [hmain, hmod]

/-- Witness for the amended C12: three ticks on Neutral with the key code 65601
bound; the key sent on every tick is 65601 modulo 65536, that is `0x41`. -/
theorem direct_key_pulses_every_tick_witness :
    ((0 : Int) ≤ 9 ∧ (9 : Int) < 15) ∧
    wideKeyConfig.lever_keycodes.getD (9 : Int).toNat 0 = 65601 ∧ (65601 : Int) > 0 ∧
    (∀ t ∈ [(⟨{6, 8}, 0, 0⟩ : Tick), ⟨{6, 8}, 210000000, 210000000⟩,
      ⟨{6, 8}, 420000000, 420000000⟩], idxOf wideKeyConfig t = 9) ∧
    leverRun wideKeyConfig 2 (LeverState.init 0)
      [⟨{6, 8}, 0, 0⟩, ⟨{6, 8}, 210000000, 210000000⟩, ⟨{6, 8}, 420000000, 420000000⟩] =
      (LeverState.init 0,
       (List.replicate 3 (directPulse 0x41)).flatten) :=
  ⟨by decide, by decide, by decide, by decide,
   (direct_key_pulses_every_tick wideKeyConfig (LeverState.init 0) 9 65601
     [⟨{6, 8}, 0, 0⟩, ⟨{6, 8}, 210000000, 210000000⟩, ⟨{6, 8}, 420000000, 420000000⟩]
     (by decide) (by decide) (by decide) (by decide)).1⟩

/-- C13: in direct-key mode, a tick whose matched position is a valid index with
a configured key code `≤ 0` performs no action at all in the lever part of the
iteration and leaves the lever variables untouched. -/
theorem direct_key_unmapped_is_silent (cfg : Config) (s : LeverState) (t : Tick)
    (hi : idxOf cfg t ≥ 0 ∧ idxOf cfg t < 15)
    (hvk : cfg.lever_keycodes.getD (idxOf cfg t).toNat 0 ≤ 0) :
    leverTick cfg 2 s t = (s, []) := by
  rw [leverTick_direct cfg s t hi, if_neg (by omega)]

/-- Witness for C13: the default configuration binds no key (all codes 0). -/
theorem direct_key_unmapped_is_silent_witness :
    (idxOf default_config ⟨{7}, 0, 0⟩ ≥ 0 ∧ idxOf default_config ⟨{7}, 0, 0⟩ < 15) ∧
    default_config.lever_keycodes.getD (idxOf default_config ⟨{7}, 0, 0⟩).toNat 0 ≤ 0 ∧
    leverTick default_config 2 (LeverState.init 0) ⟨{7}, 0, 0⟩ = (LeverState.init 0, []) :=
  ⟨by decide, by decide,
   direct_key_unmapped_is_silent default_config (LeverState.init 0) ⟨{7}, 0, 0⟩
     (by decide) (by decide)⟩

/-- C20: in scroll mode a tick either emits nothing (and then a known `last_idx`
does not move), or moves a known `last_idx` one index up towards a higher
matched index with exactly one wheel event of amount `-120`, or moves it one
index down towards a lower matched index with exactly one wheel event of amount
`120`; the wheel event is followed by the scroll pacing sleep. -/
theorem scroll_step_wheel (cfg : Config) (s : LeverState) (t : Tick) :
    ((leverTick cfg 1 s t).2 = [] ∧
      (s.last_idx ≠ -1 → (leverTick cfg 1 s t).1.last_idx = s.last_idx)) ∨
    (s.last_idx ≠ -1 ∧ idxOf cfg t > s.last_idx ∧
      (leverTick cfg 1 s t).1.last_idx = s.last_idx + 1 ∧
      (leverTick cfg 1 s t).2 =
        [Action.wheel (-120), Action.sleep cfg.mouse_scroll_delay_ms]) ∨
    (s.last_idx ≠ -1 ∧ idxOf cfg t < s.last_idx ∧
      (leverTick cfg 1 s t).1.last_idx = s.last_idx - 1 ∧
      (leverTick cfg 1 s t).2 =
        [Action.wheel 120, Action.sleep cfg.mouse_scroll_delay_ms]) := by
  have hm : ¬ ((1 : Int) = 2 ∧ idxOf cfg t ≥ 0 ∧ idxOf cfg t < 15) := by
    intro h; omega
  by_cases hg : idxOf cfg t ≠ -1 ∧ idxOf cfg t ≠ s.last_idx ∧ dwellOk cfg s t
  · by_cases hk : s.last_idx = -1
    · by_cases h9 : idxOf cfg t = 9
      · rw [leverTick_baseline cfg 1 s t hm hg hk h9]
        exact Or.inl ⟨rfl, fun h => absurd hk h⟩
      · rw [leverTick_unknown cfg 1 s t hm hg hk h9]
        exact Or.inl ⟨rfl, fun h => absurd hk h⟩
    · rw [leverTick_step cfg 1 s t hm hg hk]
      have hne := hg.2.1
      by_cases hd : idxOf cfg t - s.last_idx > 0
      · right; left
        refine ⟨hk, by omega, ?_, ?_⟩
        · simp only [hd, if_true]
        · simp [stepActions, sendMouseScroll, hd]
      · right; right
        refine ⟨hk, by omega, ?_, ?_⟩
        · simp only [hd, if_false]; omega
        · simp [stepActions, sendMouseScroll, hd]
  · rw [leverTick_hold cfg 1 s t hm hg]
    exact Or.inl ⟨rfl, fun _ => candidateUpdate_last_idx s _ _⟩

/-! ## Auxiliary control tracker -/

theorem keyEventsOf_append (vk : Int) (xs ys : List Action) :
    keyEventsOf vk (xs ++ ys) = keyEventsOf vk xs ++ keyEventsOf vk ys := by
  unfold keyEventsOf
  exact List.filter_append _ _

theorem hornHold_fst (vk : Int) (now key_down : Bool) :
    (hornHold vk now key_down).1 = now := by
  cases now <;> cases key_down <;> simp [hornHold]

theorem hornHold_snd (vk : Int) (now key_down : Bool) :
    (hornHold vk now key_down).2 = (overrideEdge vk now key_down).2 := by
  cases now <;> cases key_down <;> simp [hornHold, overrideEdge]

theorem keyEventsOf_overrideEdge_same (vk : Int) (now prev : Bool) :
    keyEventsOf vk (overrideEdge vk now prev).2 = (overrideEdge vk now prev).2 := by
  cases now <;> cases prev <;> simp [overrideEdge, keyEventsOf]

theorem keyEventsOf_overrideEdge_other (vk other : Int) (now prev : Bool) (h : other ≠ vk) :
    keyEventsOf vk (overrideEdge other now prev).2 = [] := by
  cases now <;> cases prev <;> simp [overrideEdge, keyEventsOf, h]

theorem auxMapped_of_button (cfg : Config) (f : AuxFn) (hmap : f.button cfg ≥ 0) :
    auxMapped cfg := by
  unfold auxMapped
  cases f
  · exact Or.inl hmap
  · exact Or.inr (Or.inl hmap)
  · exact Or.inr (Or.inr (Or.inr (Or.inl hmap)))
  · exact Or.inr (Or.inr (Or.inr (Or.inr hmap)))

theorem auxTick_events_of (cfg : Config) (f : AuxFn) (hany : auxMapped cfg)
    (s : AuxState) (p : AuxPoll) :
    keyEventsOf f.vk (auxTick cfg s p).2 =
      (overrideEdge f.vk (buttonDown p (f.button cfg)) (f.held s)).2 := by
  unfold auxTick
  rw [if_pos hany]
  simp only [keyEventsOf_append, hornHold_snd]
  cases f
  · rw [show AuxFn.bigHorn.vk = VK_RETURN from rfl,
      keyEventsOf_overrideEdge_same,
      keyEventsOf_overrideEdge_other VK_RETURN VK_SPACE _ _ (by decide),
      keyEventsOf_overrideEdge_other VK_RETURN VK_RSHIFT _ _ (by decide),
      keyEventsOf_overrideEdge_other VK_RETURN VK_LSHIFT _ _ (by decide)]
    simp [AuxFn.button, AuxFn.held]
  · rw [show AuxFn.smallHorn.vk = VK_SPACE from rfl,
      keyEventsOf_overrideEdge_same,
      keyEventsOf_overrideEdge_other VK_SPACE VK_RETURN _ _ (by decide),
      keyEventsOf_overrideEdge_other VK_SPACE VK_RSHIFT _ _ (by decide),
      keyEventsOf_overrideEdge_other VK_SPACE VK_LSHIFT _ _ (by decide)]
    simp [AuxFn.button, AuxFn.held]
  · rw [show AuxFn.testMenu.vk = VK_RSHIFT from rfl,
      keyEventsOf_overrideEdge_same,
      keyEventsOf_overrideEdge_other VK_RSHIFT VK_RETURN _ _ (by decide),
      keyEventsOf_overrideEdge_other VK_RSHIFT VK_SPACE _ _ (by decide),
      keyEventsOf_overrideEdge_other VK_RSHIFT VK_LSHIFT _ _ (by decide)]
    simp [AuxFn.button, AuxFn.held]
  · rw [show AuxFn.debugMission.vk = VK_LSHIFT from rfl,
      keyEventsOf_overrideEdge_same,
      keyEventsOf_overrideEdge_other VK_LSHIFT VK_RETURN _ _ (by decide),
      keyEventsOf_overrideEdge_other VK_LSHIFT VK_SPACE _ _ (by decide),
      keyEventsOf_overrideEdge_other VK_LSHIFT VK_RSHIFT _ _ (by decide)]
    simp [AuxFn.button, AuxFn.held]

theorem auxTick_held_of (cfg : Config) (f : AuxFn) (hany : auxMapped cfg)
    (s : AuxState) (p : AuxPoll) :
    f.held (auxTick cfg s p).1 = buttonDown p (f.button cfg) := by
  unfold auxTick
  rw [if_pos hany]
  cases f <;> simp [AuxFn.held, AuxFn.button, hornHold_fst, overrideEdge]

theorem auxRun_alternates (cfg : Config) (f : AuxFn) (hany : auxMapped cfg) :
    ∀ (ps : List AuxPoll) (s : AuxState),
      alternatesFrom f.vk (f.held s) (keyEventsOf f.vk (auxRun cfg s ps).2) := by
  intro ps
  induction ps with
  | nil => intro s; simp [auxRun, keyEventsOf, alternatesFrom]
  | cons p ps ih =>
    intro s
    have hrest := ih (auxTick cfg s p).1
    rw [auxTick_held_of cfg f hany s p] at hrest
    simp only [auxRun, keyEventsOf_append]
    rw [auxTick_events_of cfg f hany s p]
    generalize keyEventsOf f.vk (auxRun cfg (auxTick cfg s p).1 ps).2 = rest at hrest ⊢
    generalize buttonDown p (f.button cfg) = now at hrest ⊢
    generalize f.held s = held
    cases now <;> cases held <;> simp [overrideEdge, alternatesFrom, hrest]

/-- C14: for each of Big Horn, Small Horn, Test Menu and Debug Mission with a
mapped button, a tick emits exactly the key-down of the binding when the button
is pressed and the binding was Released, exactly its key-up when the button is
not pressed and the binding was Held, and no event of the binding otherwise, and
the binding is Held afterwards exactly when the button is pressed; so from the
initial state the events of the binding alternate down, up, down, ... starting
with a key-down, and a press followed by a release gives exactly one key-down
followed by one key-up. -/
theorem aux_binding_mirrors_button (cfg : Config) (f : AuxFn) (hmap : f.button cfg ≥ 0) :
    (∀ (s : AuxState) (p : AuxPoll),
      keyEventsOf f.vk (auxTick cfg s p).2 =
        (if buttonDown p (f.button cfg) = true ∧ f.held s = false then
          [Action.key f.vk true false]
         else if buttonDown p (f.button cfg) = false ∧ f.held s = true then
          [Action.key f.vk true true]
         else []) ∧
      f.held (auxTick cfg s p).1 = buttonDown p (f.button cfg)) ∧
    (∀ (ps : List AuxPoll),
      alternatesFrom f.vk false (keyEventsOf f.vk (auxRun cfg AuxState.init ps).2)) ∧
    (∀ (p1 p2 : AuxPoll), buttonDown p1 (f.button cfg) = true →
      buttonDown p2 (f.button cfg) = false →
      keyEventsOf f.vk (auxRun cfg AuxState.init [p1, p2]).2 =
        [Action.key f.vk true false, Action.key f.vk true true]) := by
  have hany := auxMapped_of_button cfg f hmap
  refine ⟨fun s p => ⟨?_, auxTick_held_of cfg f hany s p⟩, ?_, ?_⟩
  · rw [auxTick_events_of cfg f hany s p]
    rfl
  · intro ps
    have h := auxRun_alternates cfg f hany ps AuxState.init
    have h0 : f.held AuxState.init = false := by cases f <;> rfl
    rw [h0] at h
    exact h
  · intro p1 p2 h1 h2
    have h0 : f.held AuxState.init = false := by cases f <;> rfl
    simp only [auxRun, keyEventsOf_append, List.append_nil]
    rw [auxTick_events_of cfg f hany, auxTick_events_of cfg f hany,
      auxTick_held_of cfg f hany, h0, h1, h2]
    simp [overrideEdge, keyEventsOf]

/-- Witness for C14 (scenario D): Big Horn on button 0, pressed on one tick and
released on the next. -/
theorem aux_binding_mirrors_button_witness :
    AuxFn.bigHorn.button pedalConfig ≥ 0 ∧
    keyEventsOf AuxFn.bigHorn.vk (auxRun pedalConfig AuxState.init [pollOf [0], pollOf []]).2 =
      [Action.key AuxFn.bigHorn.vk true false, Action.key AuxFn.bigHorn.vk true true] :=
  ⟨by decide,
   (aux_binding_mirrors_button pedalConfig AuxFn.bigHorn (by decide)).2.2
     (pollOf [0]) (pollOf []) (by decide) (by decide)⟩

theorem buttonDown_neg (p : AuxPoll) (button : Int) (h : button < 0) :
    buttonDown p button = false := by
  unfold buttonDown
  rw [List.any_eq_false]
  intro b _
  have hb : ¬ ((b : Int) = button) := by omega
  simp [hb]

theorem auxRun_unmapped (cfg : Config) (f : AuxFn) (h : f.button cfg < 0) :
    ∀ (ps : List AuxPoll) (s : AuxState), f.held s = false →
      keyEventsOf f.vk (auxRun cfg s ps).2 = [] ∧ f.held (auxRun cfg s ps).1 = false := by
  intro ps
  induction ps with
  | nil => intro s hs; exact ⟨rfl, hs⟩
  | cons p ps ih =>
    intro s hs
    by_cases hany : auxMapped cfg
    · have hheld : f.held (auxTick cfg s p).1 = false := by
        rw [auxTick_held_of cfg f hany s p]; exact buttonDown_neg p _ h
      have hev : keyEventsOf f.vk (auxTick cfg s p).2 = [] := by
        rw [auxTick_events_of cfg f hany s p, buttonDown_neg p _ h, hs]
        rfl
      obtain ⟨h1, h2⟩ := ih (auxTick cfg s p).1 hheld
      simp only [auxRun, keyEventsOf_append]
      rw [hev, h1]
      exact ⟨rfl, h2⟩
    · have ht : auxTick cfg s p = (s, []) := by
        unfold auxTick; rw [if_neg hany]
      obtain ⟨h1, h2⟩ := ih s hs
      simp only [auxRun, ht, List.nil_append]
      exact ⟨h1, h2⟩

theorem creditRun_unmapped (cfg : Config) (h : cfg.credit_button < 0) :
    ∀ (is : List LoopInput) (c : CreditState), creditRun cfg c is = (c, []) := by
  intro is
  induction is with
  | nil => intro c; rfl
  | cons i rest ih =>
    intro c
    have ht : ∀ (b : Bool) (now : Int), creditTick cfg c b now = (c, []) := by
      intro b now
      unfold creditTick
      rw [if_neg (by omega)]
    simp only [creditRun, ht, ih, List.nil_append]

/-- C18: for each of the five auxiliary functions, if its button index is unset
(`-1`), then along every run from the initial state the binding stays Released
and no key event of that function is emitted: for the four mirrored bindings no
event with their key appears in the trace of the auxiliary block, and for
Credit the credit logic emits nothing and `credit_prev_pressed` stays `false`. -/
theorem unmapped_binding_never_fires (cfg : Config) :
    (∀ (f : AuxFn), f.button cfg = -1 → ∀ (ps : List AuxPoll),
      keyEventsOf f.vk (auxRun cfg AuxState.init ps).2 = [] ∧
      f.held (auxRun cfg AuxState.init ps).1 = false) ∧
    (cfg.credit_button = -1 → ∀ (start : Int) (is : List LoopInput),
      (creditRun cfg (CreditState.init start) is).2 = [] ∧
      (creditRun cfg (CreditState.init start) is).1.credit_prev_pressed = false) := by
  constructor
  · intro f hf ps
    exact auxRun_unmapped cfg f (by omega) ps AuxState.init (by cases f <;> rfl)
  · intro hc start is
    rw [creditRun_unmapped cfg (by omega) is]
    exact ⟨rfl, rfl⟩

/-- Witness for C18: Small Horn is unset in a configuration that maps Big Horn
and Credit, and its button-index-less binding stays silent while buttons 0, 1
and 2 are pressed. -/
theorem unmapped_binding_never_fires_witness :
    AuxFn.smallHorn.button pedalConfig = -1 ∧
    keyEventsOf AuxFn.smallHorn.vk
      (auxRun pedalConfig AuxState.init [pollOf [0, 1, 2], pollOf []]).2 = [] ∧
    AuxFn.smallHorn.held (auxRun pedalConfig AuxState.init [pollOf [0, 1, 2], pollOf []]).1
      = false :=
  ⟨by decide,
   (unmapped_binding_never_fires pedalConfig).1 AuxFn.smallHorn (by decide)
     [pollOf [0, 1, 2], pollOf []]⟩

/-! ## Credit repeat -/

theorem creditPressed_eq (cfg : Config) (p : AuxPoll) (hmap : cfg.credit_button ≥ 0) :
    creditPressed cfg p = buttonDown p cfg.credit_button := by
  have h : auxMapped cfg := Or.inr (Or.inr (Or.inl hmap))
  unfold creditPressed
  rw [if_pos h]

theorem elapsed_ge_50_iff (now since : Int) :
    elapsedMs now since ≥ 50 ↔ now - since ≥ 50 * ticksPerMs := by
  unfold elapsedMs ticksPerMs
  rcases le_or_lt 0 (now - since) with hx | hx
  · rw [Int.tdiv_eq_ediv hx (by decide)]
    omega
  · have h1 : (now - since).tdiv 1000000 = -((-(now - since)).tdiv 1000000) := by
      rw [Int.neg_tdiv, neg_neg]
    have h2 : 0 ≤ (-(now - since)).tdiv 1000000 :=
      Int.tdiv_nonneg (by omega) (by decide)
    omega

theorem creditTick_rising (cfg : Config) (c : CreditState) (now : Int)
    (hmap : cfg.credit_button ≥ 0) (hrel : c.credit_prev_pressed = false) :
    creditTick cfg c true now =
      ({ last_credit_time := now, credit_prev_pressed := true }, creditPulse) := by
  unfold creditTick
  rw [if_pos hmap, if_pos rfl, if_pos (Or.inl hrel)]

theorem creditTick_held (cfg : Config) (c : CreditState) (now : Int)
    (hmap : cfg.credit_button ≥ 0) (hheld : c.credit_prev_pressed = true) :
    creditTick cfg c true now =
      if now - c.last_credit_time ≥ 50 * ticksPerMs then
        ({ last_credit_time := now, credit_prev_pressed := true }, creditPulse)
      else (c, []) := by
  unfold creditTick
  rw [if_pos hmap, if_pos rfl]
  by_cases h : now - c.last_credit_time ≥ 50 * ticksPerMs
  · rw [if_pos (Or.inr ((elapsed_ge_50_iff _ _).mpr h)), if_pos h]
  · have hn : ¬ (c.credit_prev_pressed = false ∨ elapsedMs now c.last_credit_time ≥ 50) := by
      intro h2
      rcases h2 with h2 | h2
      · rw [hheld] at h2; cases h2
      · exact h ((elapsed_ge_50_iff _ _).mp h2)
    rw [if_neg hn, if_neg h]
    cases c
    simp only at hheld
    rw [hheld]

theorem creditTick_released (cfg : Config) (c : CreditState) (now : Int)
    (hmap : cfg.credit_button ≥ 0) :
    creditTick cfg c false now = ({ c with credit_prev_pressed := false }, []) := by
  unfold creditTick
  rw [if_pos hmap, if_neg (by decide)]

theorem creditTick_prev (cfg : Config) (c : CreditState) (b : Bool) (now : Int)
    (hmap : cfg.credit_button ≥ 0) :
    (creditTick cfg c b now).1.credit_prev_pressed = b := by
  cases b
  · rw [creditTick_released cfg c now hmap]
  · unfold creditTick
    rw [if_pos hmap, if_pos rfl]
    split_ifs <;> rfl

theorem creditRun_prev (cfg : Config) (hmap : cfg.credit_button ≥ 0) :
    ∀ (pre : List LoopInput) (c : CreditState),
      (creditRun cfg c pre).1.credit_prev_pressed =
        (pre.getLast?.map (fun l => creditPressed cfg l.poll)).getD c.credit_prev_pressed := by
  intro pre
  induction pre with
  | nil => intro c; rfl
  | cons i rest ih =>
    intro c
    simp only [creditRun]
    rw [ih]
    cases rest with
    | nil => simp [creditTick_prev cfg c _ _ hmap]
    | cons j r =>
      rw [List.getLast?_cons_cons, List.getLast?_eq_getLast _ (List.cons_ne_nil j r)]
      rfl

/-- C15: along any run of the credit logic from the initial state, on a tick
where the mapped Credit button is pressed and it was not pressed on the previous
tick (or there is no previous tick), exactly one Credit pulse fires on that
tick, whatever the clock readings are. -/
theorem credit_rising_edge_fires (cfg : Config) (start : Int) (pre : List LoopInput)
    (i : LoopInput)
    (hmap : cfg.credit_button ≥ 0)
    (hnow : buttonDown i.poll cfg.credit_button = true)
    (hprev : ∀ l, pre.getLast? = some l → buttonDown l.poll cfg.credit_button = false) :
    (creditTick cfg (creditRun cfg (CreditState.init start) pre).1
      (creditPressed cfg i.poll) i.creditNow).2 = creditPulse ∧
    (creditRun cfg (CreditState.init start) (pre ++ [i])).2 =
      (creditRun cfg (CreditState.init start) pre).2 ++ creditPulse := by
  have hrel : (creditRun cfg (CreditState.init start) pre).1.credit_prev_pressed = false := by
    rw [creditRun_prev cfg hmap]
    cases hl : pre.getLast? with
    | none => rfl
    | some l =>
      simp only [Option.map_some', Option.getD_some]
      rw [creditPressed_eq cfg _ hmap]
      exact hprev l hl
  have htick : (creditTick cfg (creditRun cfg (CreditState.init start) pre).1
      (creditPressed cfg i.poll) i.creditNow).2 = creditPulse := by
    rw [creditPressed_eq cfg _ hmap, hnow, creditTick_rising cfg _ _ hmap hrel]
  refine ⟨htick, ?_⟩
  have happ : ∀ (xs : List LoopInput) (c : CreditState),
      (creditRun cfg c (xs ++ [i])).2 =
        (creditRun cfg c xs).2 ++
          (creditTick cfg (creditRun cfg c xs).1 (creditPressed cfg i.poll) i.creditNow).2 := by
    intro xs
    induction xs with
    | nil => intro c; simp [creditRun]
    | cons x xs ih =>
      intro c
      rw [List.cons_append]
      simp only [creditRun]
      rw [ih, List.append_assoc]
  rw [happ, htick]

/-- Witness for C15: Credit on button 1, released at 0 ms, pressed at 5 ms
(first press), released at 10 ms and pressed again at 20 ms, less than 50 ms
after the first pulse. -/
theorem credit_rising_edge_fires_witness :
    pedalConfig.credit_button ≥ 0 ∧
    (creditRun pedalConfig (CreditState.init 0)
      ([⟨pollOf [], 0, false, ⟨∅, 0, 0⟩⟩, ⟨pollOf [1], 5000000, false, ⟨∅, 0, 0⟩⟩,
        ⟨pollOf [], 10000000, false, ⟨∅, 0, 0⟩⟩] ++
       [⟨pollOf [1], 20000000, false, ⟨∅, 0, 0⟩⟩])).2 =
      (creditRun pedalConfig (CreditState.init 0)
        [⟨pollOf [], 0, false, ⟨∅, 0, 0⟩⟩, ⟨pollOf [1], 5000000, false, ⟨∅, 0, 0⟩⟩,
         ⟨pollOf [], 10000000, false, ⟨∅, 0, 0⟩⟩]).2 ++ creditPulse :=
  ⟨by decide,
   (credit_rising_edge_fires pedalConfig 0
     [⟨pollOf [], 0, false, ⟨∅, 0, 0⟩⟩, ⟨pollOf [1], 5000000, false, ⟨∅, 0, 0⟩⟩,
      ⟨pollOf [], 10000000, false, ⟨∅, 0, 0⟩⟩]
     ⟨pollOf [1], 20000000, false, ⟨∅, 0, 0⟩⟩ (by decide) (by decide) (by decide)).2⟩

theorem creditStep_rising (cfg : Config) (c : CreditState) (i : LoopInput)
    (hmap : cfg.credit_button ≥ 0)
    (hpress : buttonDown i.poll cfg.credit_button = true)
    (hrel : c.credit_prev_pressed = false) :
    creditTick cfg c (creditPressed cfg i.poll) i.creditNow =
      ({ last_credit_time := i.creditNow, credit_prev_pressed := true }, creditPulse) := by
  rw [creditPressed_eq cfg _ hmap, hpress, creditTick_rising cfg c _ hmap hrel]

theorem creditStep_fire (cfg : Config) (c : CreditState) (i : LoopInput)
    (hmap : cfg.credit_button ≥ 0)
    (hpress : buttonDown i.poll cfg.credit_button = true)
    (hheld : c.credit_prev_pressed = true)
    (h : i.creditNow - c.last_credit_time ≥ 50 * ticksPerMs) :
    creditTick cfg c (creditPressed cfg i.poll) i.creditNow =
      ({ last_credit_time := i.creditNow, credit_prev_pressed := true }, creditPulse) := by
  rw [creditPressed_eq cfg _ hmap, hpress, creditTick_held cfg c _ hmap hheld, if_pos h]

theorem creditStep_wait (cfg : Config) (c : CreditState) (i : LoopInput)
    (hmap : cfg.credit_button ≥ 0)
    (hpress : buttonDown i.poll cfg.credit_button = true)
    (hheld : c.credit_prev_pressed = true)
    (h : ¬ i.creditNow - c.last_credit_time ≥ 50 * ticksPerMs) :
    creditTick cfg c (creditPressed cfg i.poll) i.creditNow = (c, []) := by
  rw [creditPressed_eq cfg _ hmap, hpress, creditTick_held cfg c _ hmap hheld, if_neg h]

theorem creditFires_of_pulse (cfg : Config) (c c2 : CreditState) (i : LoopInput)
    (h : creditTick cfg c (creditPressed cfg i.poll) i.creditNow = (c2, creditPulse)) :
    creditFires cfg c i = true := by
  unfold creditFires
  rw [h]
  simp [creditPulse]

theorem creditFires_of_nil (cfg : Config) (c c2 : CreditState) (i : LoopInput)
    (h : creditTick cfg c (creditPressed cfg i.poll) i.creditNow = (c2, [])) :
    creditFires cfg c i = false := by
  unfold creditFires
  rw [h]
  simp

theorem pulseTimes_cons_of_pulse (cfg : Config) (c c2 : CreditState) (i : LoopInput)
    (rest : List LoopInput)
    (h : creditTick cfg c (creditPressed cfg i.poll) i.creditNow = (c2, creditPulse)) :
    pulseTimes cfg c (i :: rest) = i.creditNow :: pulseTimes cfg c2 rest := by
  rw [pulseTimes, creditFires_of_pulse cfg c c2 i h, h]
  rfl

theorem pulseTimes_cons_of_nil (cfg : Config) (c c2 : CreditState) (i : LoopInput)
    (rest : List LoopInput)
    (h : creditTick cfg c (creditPressed cfg i.poll) i.creditNow = (c2, [])) :
    pulseTimes cfg c (i :: rest) = pulseTimes cfg c2 rest := by
  rw [pulseTimes, creditFires_of_nil cfg c c2 i h, h]
  rfl

theorem pulseTimes_held_spaced (cfg : Config) (hmap : cfg.credit_button ≥ 0) :
    ∀ (is : List LoopInput) (c : CreditState), c.credit_prev_pressed = true →
      (∀ i ∈ is, buttonDown i.poll cfg.credit_button = true) →
      (∀ f ∈ pulseTimes cfg c is, f - c.last_credit_time ≥ 50 * ticksPerMs) ∧
      (pulseTimes cfg c is).Pairwise (fun a b => b - a ≥ 50 * ticksPerMs) := by
  intro is
  induction is with
  | nil => intro c _ _; simp [pulseTimes]
  | cons i rest ih =>
    intro c hheld hall
    have hpress := hall i (List.mem_cons_self i rest)
    have hrest : ∀ x ∈ rest, buttonDown x.poll cfg.credit_button = true :=
      fun x hx => hall x (List.mem_cons_of_mem i hx)
    by_cases h : i.creditNow - c.last_credit_time ≥ 50 * ticksPerMs
    · rw [pulseTimes_cons_of_pulse cfg c _ i rest (creditStep_fire cfg c i hmap hpress hheld h)]
      obtain ⟨h1, h2⟩ := ih ⟨i.creditNow, true⟩ rfl hrest
      simp only at h1
      unfold ticksPerMs at h h1 ⊢
      refine ⟨?_, List.Pairwise.cons h1 h2⟩
      intro f hf
      rcases List.mem_cons.mp hf with hf | hf
      · rw [hf]; exact h
      · have := h1 f hf
        omega
    · rw [pulseTimes_cons_of_nil cfg c _ i rest (creditStep_wait cfg c i hmap hpress hheld h)]
      exact ih c hheld hrest

/-- C16: along a run of the credit logic on which the mapped Credit button is
pressed on every tick, from any credit state, every later pulse fires on a tick
whose clock reading is at least 50 ms after the clock reading of every earlier
pulse of the run; in particular two consecutive pulses are at least 50 ms
apart. -/
theorem credit_pulses_spaced (cfg : Config) (c : CreditState) (is : List LoopInput)
    (hmap : cfg.credit_button ≥ 0)
    (hheld : ∀ i ∈ is, buttonDown i.poll cfg.credit_button = true) :
    (pulseTimes cfg c is).Pairwise (fun a b => b - a ≥ 50 * ticksPerMs) := by
  cases is with
  | nil => simp [pulseTimes]
  | cons i rest =>
    have hpress := hheld i (List.mem_cons_self i rest)
    have hrest : ∀ x ∈ rest, buttonDown x.poll cfg.credit_button = true :=
      fun x hx => hheld x (List.mem_cons_of_mem i hx)
    cases hp : c.credit_prev_pressed with
    | true => exact (pulseTimes_held_spaced cfg hmap (i :: rest) c hp hheld).2
    | false =>
      rw [pulseTimes_cons_of_pulse cfg c _ i rest (creditStep_rising cfg c i hmap hpress hp)]
      obtain ⟨h1, h2⟩ := pulseTimes_held_spaced cfg hmap rest ⟨i.creditNow, true⟩ rfl hrest
      exact List.Pairwise.cons h1 h2

/-- Witness for C16: Credit on button 1 held on ticks at 0, 20, 49, 50, 99, 100
and 160 ms; pulses fire at 0, 50, 100 and 160 ms. -/
theorem credit_pulses_spaced_witness :
    pedalConfig.credit_button ≥ 0 ∧
    pulseTimes pedalConfig (CreditState.init 0)
      [⟨pollOf [1], 0, false, ⟨∅, 0, 0⟩⟩, ⟨pollOf [1], 20000000, false, ⟨∅, 0, 0⟩⟩,
       ⟨pollOf [1], 49000000, false, ⟨∅, 0, 0⟩⟩, ⟨pollOf [1], 50000000, false, ⟨∅, 0, 0⟩⟩,
       ⟨pollOf [1], 99000000, false, ⟨∅, 0, 0⟩⟩, ⟨pollOf [1], 100000000, false, ⟨∅, 0, 0⟩⟩,
       ⟨pollOf [1], 160000000, false, ⟨∅, 0, 0⟩⟩] = [0, 50000000, 100000000, 160000000] ∧
    (pulseTimes pedalConfig (CreditState.init 0)
      [⟨pollOf [1], 0, false, ⟨∅, 0, 0⟩⟩, ⟨pollOf [1], 20000000, false, ⟨∅, 0, 0⟩⟩,
       ⟨pollOf [1], 49000000, false, ⟨∅, 0, 0⟩⟩, ⟨pollOf [1], 50000000, false, ⟨∅, 0, 0⟩⟩,
       ⟨pollOf [1], 99000000, false, ⟨∅, 0, 0⟩⟩, ⟨pollOf [1], 100000000, false, ⟨∅, 0, 0⟩⟩,
       ⟨pollOf [1], 160000000, false, ⟨∅, 0, 0⟩⟩]).Pairwise
      (fun a b => b - a ≥ 50 * ticksPerMs) :=
  ⟨by decide, by decide,
   credit_pulses_spaced pedalConfig (CreditState.init 0)
     [⟨pollOf [1], 0, false, ⟨∅, 0, 0⟩⟩, ⟨pollOf [1], 20000000, false, ⟨∅, 0, 0⟩⟩,
      ⟨pollOf [1], 49000000, false, ⟨∅, 0, 0⟩⟩, ⟨pollOf [1], 50000000, false, ⟨∅, 0, 0⟩⟩,
      ⟨pollOf [1], 99000000, false, ⟨∅, 0, 0⟩⟩, ⟨pollOf [1], 100000000, false, ⟨∅, 0, 0⟩⟩,
      ⟨pollOf [1], 160000000, false, ⟨∅, 0, 0⟩⟩] (by decide) (by decide)⟩

theorem pulseTimes_held_upper (cfg : Config) (hmap : cfg.credit_button ≥ 0) (E : Int) :
    ∀ (is : List LoopInput) (c : CreditState), c.credit_prev_pressed = true →
      (∀ i ∈ is, buttonDown i.poll cfg.credit_button = true) →
      (∀ i ∈ is, i.creditNow ≤ E) → c.last_credit_time ≤ E →
      ((pulseTimes cfg c is).length : Int) * 50000000 ≤ E - c.last_credit_time := by
  intro is
  induction is with
  | nil => intro c _ _ _ hle; simp only [pulseTimes, List.length_nil]; omega
  | cons i rest ih =>
    intro c hheld hall hE hle
    have hpress := hall i (List.mem_cons_self i rest)
    have hrest : ∀ x ∈ rest, buttonDown x.poll cfg.credit_button = true :=
      fun x hx => hall x (List.mem_cons_of_mem i hx)
    have hErest : ∀ x ∈ rest, x.creditNow ≤ E := fun x hx => hE x (List.mem_cons_of_mem i hx)
    have hEi := hE i (List.mem_cons_self i rest)
    by_cases h : i.creditNow - c.last_credit_time ≥ 50 * ticksPerMs
    · rw [pulseTimes_cons_of_pulse cfg c _ i rest (creditStep_fire cfg c i hmap hpress hheld h)]
      have hi := ih ⟨i.creditNow, true⟩ rfl hrest hErest hEi
      simp only at hi
      unfold ticksPerMs at h
      rw [List.length_cons]
      push_cast
      omega
    · rw [pulseTimes_cons_of_nil cfg c _ i rest (creditStep_wait cfg c i hmap hpress hheld h)]
      exact ih c hheld hrest hErest hle

theorem pulseTimes_held_lower (cfg : Config) (hmap : cfg.credit_button ≥ 0) :
    ∀ (rest : List LoopInput) (i : LoopInput) (c : CreditState),
      c.credit_prev_pressed = true →
      (∀ x ∈ i :: rest, buttonDown x.poll cfg.credit_button = true) →
      polledEveryMs cfg c (i :: rest) = true →
      i.creditNow < c.last_credit_time + 51000000 →
      (rest.getLastD i).creditNow - c.last_credit_time <
        (((pulseTimes cfg c (i :: rest)).length : Int) + 1) * 51000000 := by
  intro rest
  induction rest with
  | nil =>
    intro i c hheld hall _ hlt
    simp only [List.getLastD_nil]
    have hlen : (0 : Int) ≤ ((pulseTimes cfg c [i]).length : Int) := Int.natCast_nonneg _
    omega
  | cons j r ih =>
    intro i c hheld hall hpoll hlt
    have hpress := hall i (List.mem_cons_self i (j :: r))
    have hrest : ∀ x ∈ j :: r, buttonDown x.poll cfg.credit_button = true :=
      fun x hx => hall x (List.mem_cons_of_mem i hx)
    rw [List.getLastD_cons]
    simp only [polledEveryMs, Bool.and_eq_true, decide_eq_true_eq] at hpoll
    obtain ⟨⟨_, hgap⟩, hnext⟩ := hpoll
    unfold ticksPerMs at hgap
    by_cases h : i.creditNow - c.last_credit_time ≥ 50 * ticksPerMs
    · have hstep := creditStep_fire cfg c i hmap hpress hheld h
      rw [creditFires_of_pulse cfg c _ i hstep] at hgap
      rw [hstep] at hnext
      rw [pulseTimes_cons_of_pulse cfg c _ i (j :: r) hstep]
      have hi := ih j ⟨i.creditNow, true⟩ rfl hrest hnext (by simp only; simp only [if_true] at hgap; omega)
      simp only at hi
      rw [List.length_cons]
      push_cast
      omega
    · have hstep := creditStep_wait cfg c i hmap hpress hheld h
      rw [creditFires_of_nil cfg c _ i hstep] at hgap
      rw [hstep] at hnext
      rw [pulseTimes_cons_of_nil cfg c _ i (j :: r) hstep]
      unfold ticksPerMs at h
      exact ih j c hheld hrest hnext (by simp at hgap; omega)

/-- C17: for a Credit button held on every tick of a run that starts from
Released and whose ticks all lie within `T` clock periods of the first one, the
first pulse fires on the first tick and the number of pulses is at most
`T / 50 ms + 1`; while held, a later tick fires exactly when its clock reading
is at least 50 ms after the previous pulse; when in addition the loop polls at
least once per millisecond outside the 10 ms pulse hold and the last tick is
`T` after the first, the number of pulses is at least `T / 51 ms + 1`, so for
`T` = 500 ms it is 10 or 11. -/
theorem credit_hold_pulse_count (cfg : Config) (c : CreditState) (t0 : LoopInput)
    (rest : List LoopInput) (T : Int)
    (hmap : cfg.credit_button ≥ 0) (hrel : c.credit_prev_pressed = false)
    (hheld : ∀ i ∈ t0 :: rest, buttonDown i.poll cfg.credit_button = true)
    (hT : ∀ i ∈ rest, i.creditNow ≤ t0.creditNow + T) (hT0 : 0 ≤ T) :
    (pulseTimes cfg c (t0 :: rest)).head? = some t0.creditNow ∧
    ((pulseTimes cfg c (t0 :: rest)).length : Int) ≤ T / (50 * ticksPerMs) + 1 ∧
    (∀ (c2 : CreditState) (i : LoopInput), c2.credit_prev_pressed = true →
      buttonDown i.poll cfg.credit_button = true →
      (creditFires cfg c2 i = true ↔
        i.creditNow - c2.last_credit_time ≥ 50 * ticksPerMs)) ∧
    (polledEveryMs cfg c (t0 :: rest) = true →
      (rest.getLastD t0).creditNow = t0.creditNow + T →
      T / (51 * ticksPerMs) + 1 ≤ ((pulseTimes cfg c (t0 :: rest)).length : Int) ∧
      (T = 500 * ticksPerMs →
        10 ≤ (pulseTimes cfg c (t0 :: rest)).length ∧
        (pulseTimes cfg c (t0 :: rest)).length ≤ 11)) := by
  have hpress := hheld t0 (List.mem_cons_self t0 rest)
  have hrest : ∀ x ∈ rest, buttonDown x.poll cfg.credit_button = true :=
    fun x hx => hheld x (List.mem_cons_of_mem t0 hx)
  have hstep := creditStep_rising cfg c t0 hmap hpress hrel
  have hupper := pulseTimes_held_upper cfg hmap (t0.creditNow + T) rest
    ⟨t0.creditNow, true⟩ rfl hrest hT (by simp only; omega)
  simp only at hupper
  have e50 : (50 : Int) * ticksPerMs = 50000000 := by decide
  have e51 : (51 : Int) * ticksPerMs = 51000000 := by decide
  have e500 : (500 : Int) * ticksPerMs = 500000000 := by decide
  rw [pulseTimes_cons_of_pulse cfg c _ t0 rest hstep, List.length_cons, e50, e51, e500]
  push_cast
  refine ⟨rfl, by omega, ?_, ?_⟩
  · intro c2 i h2 hp
    by_cases h : i.creditNow - c2.last_credit_time ≥ 50 * ticksPerMs
    · rw [creditFires_of_pulse cfg c2 _ i (creditStep_fire cfg c2 i hmap hp h2 h)]
      rw [e50] at h
      exact ⟨fun _ => h, fun _ => rfl⟩
    · rw [creditFires_of_nil cfg c2 _ i (creditStep_wait cfg c2 i hmap hp h2 h)]
      rw [e50] at h
      exact ⟨fun hf => Bool.noConfusion hf, fun hge => absurd hge h⟩
  · intro hpoll hlast
    cases rest with
    | nil =>
      simp only [List.getLastD_nil] at hlast
      have hTz : T = 0 := by omega
      subst hTz
      simp [pulseTimes]
    | cons j r =>
      simp only [polledEveryMs, Bool.and_eq_true, decide_eq_true_eq] at hpoll
      obtain ⟨⟨_, hgap⟩, hnext⟩ := hpoll
      rw [creditFires_of_pulse cfg c _ t0 hstep] at hgap
      rw [hstep] at hnext
      simp only [if_true] at hgap
      unfold ticksPerMs at hgap
      have hlow := pulseTimes_held_lower cfg hmap r j ⟨t0.creditNow, true⟩ rfl hrest hnext
        (by simp only; omega)
      simp only at hlow
      rw [List.getLastD_cons] at hlast
      rw [hlast] at hlow
      refine ⟨by omega, ?_⟩
      intro h500
      omega

set_option maxRecDepth 100000 in
/-- Witness for C17 (scenario C): Credit held for 500 ms, polled every
millisecond, fires 10 or 11 pulses. -/
theorem credit_hold_pulse_count_witness :
    pedalConfig.credit_button ≥ 0 ∧
    (CreditState.init 0).credit_prev_pressed = false ∧
    (∀ i ∈ creditHeldAt 0 :: scenarioC, buttonDown i.poll pedalConfig.credit_button = true) ∧
    (∀ i ∈ scenarioC, i.creditNow ≤ (creditHeldAt 0).creditNow + 500 * ticksPerMs) ∧
    polledEveryMs pedalConfig (CreditState.init 0) (creditHeldAt 0 :: scenarioC) = true ∧
    (scenarioC.getLastD (creditHeldAt 0)).creditNow =
      (creditHeldAt 0).creditNow + 500 * ticksPerMs ∧
    10 ≤ (pulseTimes pedalConfig (CreditState.init 0) (creditHeldAt 0 :: scenarioC)).length ∧
    (pulseTimes pedalConfig (CreditState.init 0) (creditHeldAt 0 :: scenarioC)).length ≤ 11 :=
  ⟨by decide, rfl, by decide, by decide, by decide, by decide,
   ((credit_hold_pulse_count pedalConfig (CreditState.init 0) (creditHeldAt 0) scenarioC
      (500 * ticksPerMs) (by decide) rfl (by decide) (by decide) (by decide)).2.2.2
      (by decide) (by decide)).2 rfl⟩

/-! ## Exit -/

/-- Counterexample to C19 as stated: Big Horn on button 0 is pressed on the
first tick (key-down of `VK_RETURN` emitted) and still pressed on the second
tick, on which the exit signal is observed; the loop returns, the complete trace
is the single key-down, and `VK_RETURN` is left down. -/
theorem exit_releases_keys_counterexample :
    (mainLoop pedalConfig 0 (EngineState.init 0)
      [⟨pollOf [0], 0, false, ⟨∅, 0, 0⟩⟩, ⟨pollOf [0], 1000000, true, ⟨∅, 0, 0⟩⟩]).2.2 = true ∧
    (mainLoop pedalConfig 0 (EngineState.init 0)
      [⟨pollOf [0], 0, false, ⟨∅, 0, 0⟩⟩, ⟨pollOf [0], 1000000, true, ⟨∅, 0, 0⟩⟩]).2.1 =
      [Action.key VK_RETURN true false] ∧
    leftDown VK_RETURN (mainLoop pedalConfig 0 (EngineState.init 0)
      [⟨pollOf [0], 0, false, ⟨∅, 0, 0⟩⟩, ⟨pollOf [0], 1000000, true, ⟨∅, 0, 0⟩⟩]).2.1 = true := by
  decide

theorem mem_keyEventsOf (vk : Int) (sc up : Bool) (acts : List Action)
    (h : Action.key vk sc up ∈ acts) : Action.key vk sc up ∈ keyEventsOf vk acts := by
  unfold keyEventsOf
  rw [List.mem_filter]
  exact ⟨h, by simp⟩

theorem creditTick_actions (cfg : Config) (c : CreditState) (b : Bool) (now : Int) :
    (creditTick cfg c b now).2 = [] ∨ (creditTick cfg c b now).2 = creditPulse := by
  unfold creditTick
  split_ifs
  · exact Or.inr rfl
  · exact Or.inl rfl
  · exact Or.inl rfl
  · exact Or.inl rfl

/-- C19 as amended: when the exit signal is observed on a tick, the loop returns
on that tick without running the lever part and without emitting anything for
the exit itself: the trace of the tick is exactly the events of its auxiliary
block and credit logic, later inputs are never processed, and for a mapped
binding whose button is still pressed no key-up is emitted, so a key that is
down stays down. -/
theorem exit_emits_no_release (cfg : Config) (mode : Int) (st : EngineState)
    (i : LoopInput) (rest : List LoopInput) (hesc : i.escape = true) :
    mainLoop cfg mode st (i :: rest) = mainTick cfg mode st i ∧
    (mainTick cfg mode st i).2.2 = true ∧
    (mainTick cfg mode st i).2.1 =
      (auxTick cfg st.aux i.poll).2 ++
        (creditTick cfg st.credit (creditPressed cfg i.poll) i.creditNow).2 ∧
    (mainTick cfg mode st i).1.aux = (auxTick cfg st.aux i.poll).1 ∧
    (∀ (f : AuxFn), f.button cfg ≥ 0 → buttonDown i.poll (f.button cfg) = true →
      Action.key f.vk true true ∉ (mainTick cfg mode st i).2.1) := by
  have ht : mainTick cfg mode st i =
      ({ aux := (auxTick cfg st.aux i.poll).1,
         credit := (creditTick cfg st.credit (creditPressed cfg i.poll) i.creditNow).1,
         lever := st.lever },
       (auxTick cfg st.aux i.poll).2 ++
         (creditTick cfg st.credit (creditPressed cfg i.poll) i.creditNow).2, true) := by
    unfold mainTick
    simp only [hesc, if_true]
  refine ⟨?_, ?_, ?_, ?_, ?_⟩
  · rw [mainLoop, if_pos (by rw [ht])]
  · rw [ht]
  · rw [ht]
  · rw [ht]
  · intro f hmap hdown hmem
    rw [ht] at hmem
    simp only at hmem
    rcases List.mem_append.mp hmem with h | h
    · have h2 := mem_keyEventsOf f.vk true true _ h
      rw [auxTick_events_of cfg f (auxMapped_of_button cfg f hmap), hdown] at h2
      cases hh : f.held st.aux <;> rw [hh] at h2 <;> simp [overrideEdge] at h2
    · rcases creditTick_actions cfg st.credit (creditPressed cfg i.poll) i.creditNow with h0 | h0
      · rw [h0] at h; cases h
      · rw [h0] at h
        cases f <;> simp [creditPulse, AuxFn.vk, VK_OEM_4, VK_RETURN, VK_SPACE, VK_RSHIFT,
          VK_LSHIFT] at h

/-- Witness for the amended C19: the exit signal observed while Big Horn is
held. -/
theorem exit_emits_no_release_witness :
    (⟨pollOf [0], 1000000, true, ⟨∅, 0, 0⟩⟩ : LoopInput).escape = true ∧
    (mainTick pedalConfig 0 ⟨⟨true, false, false, false⟩, CreditState.init 0, LeverState.init 0⟩
      ⟨pollOf [0], 1000000, true, ⟨∅, 0, 0⟩⟩).2.2 = true ∧
    (mainTick pedalConfig 0 ⟨⟨true, false, false, false⟩, CreditState.init 0, LeverState.init 0⟩
      ⟨pollOf [0], 1000000, true, ⟨∅, 0, 0⟩⟩).2.1 =
      (auxTick pedalConfig ⟨true, false, false, false⟩ (pollOf [0])).2 ++
        (creditTick pedalConfig (CreditState.init 0)
          (creditPressed pedalConfig (pollOf [0])) 1000000).2 :=
  ⟨rfl,
   (exit_emits_no_release pedalConfig 0
     ⟨⟨true, false, false, false⟩, CreditState.init 0, LeverState.init 0⟩
     ⟨pollOf [0], 1000000, true, ⟨∅, 0, 0⟩⟩ [] rfl).2.1,
   (exit_emits_no_release pedalConfig 0
     ⟨⟨true, false, false, false⟩, CreditState.init 0, LeverState.init 0⟩
     ⟨pollOf [0], 1000000, true, ⟨∅, 0, 0⟩⟩ [] rfl).2.2.1⟩

/-! ## Frame, start-up and range properties of the lever engine -/

/-- C24: in direct-key mode, a tick whose raw match is a valid index in `[0,14]`
leaves `last_idx`, `stable_idx` and `last_event_time` exactly as they were,
whether or not a key is pulsed. -/
theorem direct_key_preserves_lever_state (cfg : Config) (s : LeverState) (t : Tick)
    (hi : 0 ≤ idxOf cfg t ∧ idxOf cfg t ≤ 14) :
    (leverTick cfg 2 s t).1 = s := by
  rw [leverTick_direct cfg s t ⟨hi.1, by omega⟩]
  split_ifs <;> rfl

/-- Witness for C24: a bound position and an unbound one. -/
theorem direct_key_preserves_lever_state_witness :
    (0 ≤ idxOf directKeyConfig ⟨{6, 8}, 5000000, 6000000⟩ ∧
      idxOf directKeyConfig ⟨{6, 8}, 5000000, 6000000⟩ ≤ 14) ∧
    (leverTick directKeyConfig 2 ⟨3, 4, 1000000⟩ ⟨{6, 8}, 5000000, 6000000⟩).1 =
      ⟨3, 4, 1000000⟩ :=
  ⟨by decide,
   direct_key_preserves_lever_state directKeyConfig ⟨3, 4, 1000000⟩
     ⟨{6, 8}, 5000000, 6000000⟩ (by decide)⟩

theorem leverTick_output_gate (cfg : Config) (mode : Int) (s : LeverState) (t : Tick)
    (hmode : mode ≠ 2) (hout : (leverTick cfg mode s t).2 ≠ []) :
    s.last_idx ≠ -1 ∧ idxOf cfg t ≠ -1 ∧ idxOf cfg t ≠ s.last_idx ∧ dwellOk cfg s t ∧
    (leverTick cfg mode s t).1.last_event_time = t.after := by
  have hm : ¬ (mode = 2 ∧ idxOf cfg t ≥ 0 ∧ idxOf cfg t < 15) := fun h => hmode h.1
  by_cases hg : idxOf cfg t ≠ -1 ∧ idxOf cfg t ≠ s.last_idx ∧ dwellOk cfg s t
  · by_cases hk : s.last_idx = -1
    · by_cases h9 : idxOf cfg t = 9
      · rw [leverTick_baseline cfg mode s t hm hg hk h9] at hout
        exact absurd rfl hout
      · rw [leverTick_unknown cfg mode s t hm hg hk h9] at hout
        exact absurd rfl hout
    · rw [leverTick_step cfg mode s t hm hg hk]
      exact ⟨hk, hg.1, hg.2.1, hg.2.2, rfl⟩
  · rw [leverTick_hold cfg mode s t hm hg] at hout
    exact absurd rfl hout

theorem leverTick_unknown_silent (cfg : Config) (mode : Int) (s : LeverState) (t : Tick)
    (hmode : mode ≠ 2) (hk : s.last_idx = -1)
    (hn : ¬ (idxOf cfg t = 9 ∧ dwellOk cfg s t)) :
    (leverTick cfg mode s t).2 = [] ∧ (leverTick cfg mode s t).1.last_idx = -1 := by
  have hm : ¬ (mode = 2 ∧ idxOf cfg t ≥ 0 ∧ idxOf cfg t < 15) := fun h => hmode h.1
  by_cases hg : idxOf cfg t ≠ -1 ∧ idxOf cfg t ≠ s.last_idx ∧ dwellOk cfg s t
  · have h9 : idxOf cfg t ≠ 9 := fun h => hn ⟨h, hg.2.2⟩
    rw [leverTick_unknown cfg mode s t hm hg hk h9]
    exact ⟨rfl, rfl⟩
  · rw [leverTick_hold cfg mode s t hm hg, candidateUpdate_last_idx]
    exact ⟨rfl, hk⟩

theorem unknown_until_neutral (cfg : Config) (mode : Int) (hmode : mode ≠ 2) :
    ∀ (ts : List Tick) (s : LeverState), s.last_idx = -1 →
      neutralDwelt cfg mode s ts = false →
      (leverRun cfg mode s ts).2 = [] ∧ (leverRun cfg mode s ts).1.last_idx = -1 := by
  intro ts
  induction ts with
  | nil => intro s hk _; exact ⟨rfl, hk⟩
  | cons t ts ih =>
    intro s hk hn
    simp only [neutralDwelt, Bool.or_eq_false_iff, Bool.and_eq_false_iff,
      decide_eq_false_iff_not] at hn
    obtain ⟨hnow, hrest⟩ := hn
    have hn2 : ¬ (idxOf cfg t = 9 ∧ dwellOk cfg s t) := by
      intro h
      rcases hnow with h1 | h1
      · exact h1 h.1
      · exact h1 h.2
    obtain ⟨h1, h2⟩ := leverTick_unknown_silent cfg mode s t hmode hk hn2
    obtain ⟨h3, h4⟩ := ih (leverTick cfg mode s t).1 h2 hrest
    simp only [leverRun]
    rw [h1, h3]
    exact ⟨rfl, h4⟩

/-- C25: from engine start in the stepping modes, along every run on which no
tick has Neutral (index 9) as raw match with the dwell condition satisfied, no
lever action is performed and `last_idx` stays unknown, whichever other
positions dwell. -/
theorem no_output_before_neutral (cfg : Config) (mode : Int) (start : Int) (ts : List Tick)
    (hmode : mode = 0 ∨ mode = 1)
    (hn : neutralDwelt cfg mode (LeverState.init start) ts = false) :
    (leverRun cfg mode (LeverState.init start) ts).2 = [] ∧
    (leverRun cfg mode (LeverState.init start) ts).1.last_idx = -1 :=
  unknown_until_neutral cfg mode (by omega) ts (LeverState.init start) rfl hn

/-- Witness for C25: indices 3 and 14 of the default mapping dwell for 100 ms
each after engine start, Neutral is never read. -/
theorem no_output_before_neutral_witness :
    ((0 : Int) = 0 ∨ (0 : Int) = 1) ∧
    neutralDwelt default_config 0 (LeverState.init 0)
      [⟨{7}, 0, 0⟩, ⟨{7}, 100000000, 100000000⟩, ⟨{6, 7, 8, 9}, 110000000, 110000000⟩,
       ⟨{6, 7, 8, 9}, 210000000, 210000000⟩] = false ∧
    (leverRun default_config 0 (LeverState.init 0)
      [⟨{7}, 0, 0⟩, ⟨{7}, 100000000, 100000000⟩, ⟨{6, 7, 8, 9}, 110000000, 110000000⟩,
       ⟨{6, 7, 8, 9}, 210000000, 210000000⟩]).2 = [] ∧
    (leverRun default_config 0 (LeverState.init 0)
      [⟨{7}, 0, 0⟩, ⟨{7}, 100000000, 100000000⟩, ⟨{6, 7, 8, 9}, 110000000, 110000000⟩,
       ⟨{6, 7, 8, 9}, 210000000, 210000000⟩]).1.last_idx = -1 :=
  ⟨by decide, by decide,
   no_output_before_neutral default_config 0 0
     [⟨{7}, 0, 0⟩, ⟨{7}, 100000000, 100000000⟩, ⟨{6, 7, 8, 9}, 110000000, 110000000⟩,
      ⟨{6, 7, 8, 9}, 210000000, 210000000⟩] (Or.inl rfl) (by decide)⟩

theorem idxOf_range (cfg : Config) (t : Tick) :
    idxOf cfg t = -1 ∨ (0 ≤ idxOf cfg t ∧ idxOf cfg t < (cfg.lever_mappings.length : Int)) := by
  rcases match_combo_bestSoFar t.pressed cfg.lever_mappings with
    ⟨hb, _, _⟩ | ⟨k, c, hb, hk, _, _, _, _⟩
  · exact Or.inl hb
  · right
    have hklt : k < cfg.lever_mappings.length := by
      rcases Nat.lt_or_ge k cfg.lever_mappings.length with hlt | hge
      · exact hlt
      · rw [List.getElem?_eq_none hge] at hk; cases hk
    unfold idxOf
    rw [hb]
    omega

theorem leverTick_range (cfg : Config) (mode : Int) (s : LeverState) (t : Tick)
    (hlen : cfg.lever_mappings.length = 15)
    (hs : s.last_idx = -1 ∨ (0 ≤ s.last_idx ∧ s.last_idx ≤ 14)) :
    ((leverTick cfg mode s t).1.last_idx = -1 ∨
      (0 ≤ (leverTick cfg mode s t).1.last_idx ∧ (leverTick cfg mode s t).1.last_idx ≤ 14)) ∧
    (s.last_idx ≠ -1 → (leverTick cfg mode s t).1.last_idx ≠ s.last_idx →
      0 ≤ (leverTick cfg mode s t).1.last_idx ∧ (leverTick cfg mode s t).1.last_idx ≤ 14) := by
  have hr := idxOf_range cfg t
  rw [hlen] at hr
  by_cases hm : mode = 2 ∧ idxOf cfg t ≥ 0 ∧ idxOf cfg t < 15
  · obtain ⟨h2, hi⟩ := hm
    subst h2
    have hsame : (leverTick cfg 2 s t).1 = s := by
      rw [leverTick_direct cfg s t hi]
      split_ifs <;> rfl
    rw [hsame]
    exact ⟨hs, fun _ h => absurd rfl h⟩
  · by_cases hg : idxOf cfg t ≠ -1 ∧ idxOf cfg t ≠ s.last_idx ∧ dwellOk cfg s t
    · by_cases hk : s.last_idx = -1
      · by_cases h9 : idxOf cfg t = 9
        · rw [leverTick_baseline cfg mode s t hm hg hk h9]
          exact ⟨Or.inr ⟨by simp, by simp⟩, fun h => absurd hk h⟩
        · rw [leverTick_unknown cfg mode s t hm hg hk h9]
          exact ⟨Or.inl rfl, fun h => absurd hk h⟩
      · rw [leverTick_step cfg mode s t hm hg hk]
        have hne := hg.2.1
        have hv := hg.1
        have hin : 0 ≤ s.last_idx + (if idxOf cfg t - s.last_idx > 0 then 1 else -1) ∧
            s.last_idx + (if idxOf cfg t - s.last_idx > 0 then 1 else -1) ≤ 14 := by
          split_ifs <;> omega
        exact ⟨Or.inr hin, fun _ _ => hin⟩
    · rw [leverTick_hold cfg mode s t hm hg, candidateUpdate_last_idx]
      exact ⟨hs, fun _ h => absurd rfl h⟩

theorem leverRun_range (cfg : Config) (mode : Int)
    (hlen : cfg.lever_mappings.length = 15) :
    ∀ (ts : List Tick) (s : LeverState),
      (s.last_idx = -1 ∨ (0 ≤ s.last_idx ∧ s.last_idx ≤ 14)) →
      ((leverRun cfg mode s ts).1.last_idx = -1 ∨
        (0 ≤ (leverRun cfg mode s ts).1.last_idx ∧ (leverRun cfg mode s ts).1.last_idx ≤ 14)) := by
  intro ts
  induction ts with
  | nil => intro s hs; exact hs
  | cons t ts ih =>
    intro s hs
    simp only [leverRun]
    exact ih _ (leverTick_range cfg mode s t hlen hs).1

/-- C26: with a definition list of exactly 15 entries, after any sequence of
ticks from engine start `last_idx` is `-1` or an index in `[0,14]`, and on every
tick that takes the step branch (a known `last_idx` that changes) both the old
and the new `last_idx` are in `[0,14]`, so `names[last_idx]` and
`names[next_idx]` are in bounds. -/
theorem last_idx_in_range (cfg : Config) (mode : Int) (start : Int) (pre : List Tick)
    (t : Tick) (hlen : cfg.lever_mappings.length = 15) :
    ((leverRun cfg mode (LeverState.init start) pre).1.last_idx = -1 ∨
      (0 ≤ (leverRun cfg mode (LeverState.init start) pre).1.last_idx ∧
        (leverRun cfg mode (LeverState.init start) pre).1.last_idx ≤ 14)) ∧
    ((leverRun cfg mode (LeverState.init start) pre).1.last_idx ≠ -1 →
      (leverTick cfg mode (leverRun cfg mode (LeverState.init start) pre).1 t).1.last_idx
        ≠ (leverRun cfg mode (LeverState.init start) pre).1.last_idx →
      (0 ≤ (leverRun cfg mode (LeverState.init start) pre).1.last_idx ∧
        (leverRun cfg mode (LeverState.init start) pre).1.last_idx ≤ 14) ∧
      (0 ≤ (leverTick cfg mode (leverRun cfg mode (LeverState.init start) pre).1 t).1.last_idx ∧
        (leverTick cfg mode (leverRun cfg mode (LeverState.init start) pre).1 t).1.last_idx
          ≤ 14)) := by
  have hinv := leverRun_range cfg mode hlen pre (LeverState.init start) (Or.inl rfl)
  refine ⟨hinv, ?_⟩
  intro hk hch
  refine ⟨?_, (leverTick_range cfg mode _ t hlen hinv).2 hk hch⟩
  rcases hinv with h | h
  · exact absurd h hk
  · exact h

/-- Witness for C26: the default mapping, Neutral settled, then index 0 held. -/
theorem last_idx_in_range_witness :
    default_config.lever_mappings.length = 15 ∧
    ((leverRun default_config 0 (LeverState.init 0)
        [⟨{6, 8}, 0, 0⟩, ⟨{6, 8}, 30000000, 30000000⟩, ⟨{9}, 40000000, 40000000⟩]).1.last_idx = -1 ∨
      (0 ≤ (leverRun default_config 0 (LeverState.init 0)
        [⟨{6, 8}, 0, 0⟩, ⟨{6, 8}, 30000000, 30000000⟩, ⟨{9}, 40000000, 40000000⟩]).1.last_idx ∧
       (leverRun default_config 0 (LeverState.init 0)
        [⟨{6, 8}, 0, 0⟩, ⟨{6, 8}, 30000000, 30000000⟩, ⟨{9}, 40000000, 40000000⟩]).1.last_idx
          ≤ 14)) :=
  ⟨by decide,
   (last_idx_in_range default_config 0 0
     [⟨{6, 8}, 0, 0⟩, ⟨{6, 8}, 30000000, 30000000⟩, ⟨{9}, 40000000, 40000000⟩]
     ⟨{9}, 70000000, 105000000⟩ (by decide)).1⟩

theorem leverRun_time_lower (cfg : Config) (mode : Int) (hmode : mode ≠ 2) (A : Int) :
    ∀ (ts : List Tick) (s : LeverState), A ≤ s.last_event_time →
      (∀ r ∈ clockReadings ts, A ≤ r) →
      A ≤ (leverRun cfg mode s ts).1.last_event_time := by
  intro ts
  induction ts with
  | nil => intro s hs _; exact hs
  | cons t ts ih =>
    intro s hs hr
    have hnow : A ≤ t.now := hr t.now (by simp [clockReadings])
    have hafter : A ≤ t.after := hr t.after (by simp [clockReadings])
    have hrest : ∀ r ∈ clockReadings ts, A ≤ r := by
      intro r hmem
      apply hr
      simp only [clockReadings, List.flatMap_cons, List.mem_append] at hmem ⊢
      exact Or.inr hmem
    simp only [leverRun]
    apply ih _ _ hrest
    rcases (leverTick_facts cfg mode s t hmode).2.1 with h | h
    · rw [h]; unfold dwellStart; split_ifs
      · exact hnow
      · exact hs
    · rw [h]; exact hafter

/-- C23: in the stepping modes, a tick that emits a lever step leaves
`last_event_time` at the clock reading taken when the step is complete, and
with a clock that never goes back every later tick that emits a lever step has
a clock reading at least `debounce_ms` milliseconds after that completion
time; so a multi-index jump emits at most one step per debounce interval. -/
theorem step_restarts_dwell (cfg : Config) (mode : Int) (s : LeverState)
    (t1 : Tick) (mid : List Tick) (t2 : Tick)
    (hmode : mode = 0 ∨ mode = 1)
    (hclock : (clockReadings (t1 :: (mid ++ [t2]))).Pairwise (· ≤ ·))
    (h1 : (leverTick cfg mode s t1).2 ≠ [])
    (h2 : (leverTick cfg mode
      (leverRun cfg mode (leverTick cfg mode s t1).1 mid).1 t2).2 ≠ []) :
    (leverTick cfg mode s t1).1.last_event_time = t1.after ∧
    t2.now - t1.after ≥ cfg.debounce_ms * ticksPerMs := by
  have hm2 : mode ≠ 2 := by omega
  have hA := (leverTick_output_gate cfg mode s t1 hm2 h1).2.2.2.2
  refine ⟨hA, ?_⟩
  have hcr : clockReadings (t1 :: (mid ++ [t2])) =
      [t1.now, t1.after] ++ (clockReadings mid ++ [t2.now, t2.after]) := by
    simp [clockReadings, List.flatMap_append]
  rw [hcr, List.pairwise_append] at hclock
  obtain ⟨_, _, hcross⟩ := hclock
  have hafter : ∀ r ∈ clockReadings mid ++ [t2.now, t2.after], t1.after ≤ r :=
    fun r hr => hcross t1.after (by simp) r hr
  have hlow := leverRun_time_lower cfg mode hm2 t1.after mid (leverTick cfg mode s t1).1
    (by rw [hA]) (fun r hr => hafter r (List.mem_append_left _ hr))
  have hnow2 : t1.after ≤ t2.now := hafter t2.now (by simp)
  have hd := (leverTick_output_gate cfg mode _ t2 hm2 h2).2.2.2.1
  unfold dwellOk at hd
  apply elapsed_bound t2.now _ cfg.debounce_ms (t2.now - t1.after) hd _ (by omega)
  unfold dwellStart
  split_ifs <;> omega

/-- Witness for C23 on scenario B: the step emitted at 130 ms completes at
165 ms and the next step is emitted at 195 ms. -/
theorem step_restarts_dwell_witness :
    ((0 : Int) = 0 ∨ (0 : Int) = 1) ∧
    (leverTick default_config 0 ⟨3, 9, 100000000⟩ ⟨{6, 8}, 130000000, 165000000⟩).1.last_event_time
      = 165000000 ∧
    (195000000 : Int) - 165000000 ≥ default_config.debounce_ms * ticksPerMs :=
  ⟨by decide,
   step_restarts_dwell default_config 0 ⟨3, 9, 100000000⟩
     ⟨{6, 8}, 130000000, 165000000⟩ [⟨{6, 8}, 170000000, 170000000⟩]
     ⟨{6, 8}, 195000000, 230000000⟩ (Or.inl rfl) (by decide) (by decide) (by decide)⟩

/-! ## Scenario A -/

theorem elapsed_ge_iff (now since k : Int) (hk : 0 < k) :
    elapsedMs now since ≥ k ↔ now - since ≥ k * ticksPerMs := by
  unfold elapsedMs ticksPerMs
  rcases le_or_lt 0 (now - since) with hx | hx
  · rw [Int.tdiv_eq_ediv hx (by decide)]
    omega
  · have h1 : (now - since).tdiv 1000000 = -((-(now - since)).tdiv 1000000) := by
      rw [Int.neg_tdiv, neg_neg]
    have h2 : 0 ≤ (-(now - since)).tdiv 1000000 :=
      Int.tdiv_nonneg (by omega) (by decide)
    omega

theorem candidateUpdate_same (s : LeverState) (idx now : Int) (h : idx = s.stable_idx) :
    candidateUpdate s idx now = s := by
  unfold candidateUpdate
  rw [if_neg (not_not.mpr h)]

theorem leverRun_waiting (cfg : Config) (mode : Int) (hmode : mode ≠ 2) (s : LeverState)
    (k : Int) (hk : 0 < k) (hdeb : cfg.debounce_ms = k) :
    ∀ (ts : List Tick), (∀ t ∈ ts, idxOf cfg t = s.stable_idx) →
      (∀ t ∈ ts, t.now - s.last_event_time < k * ticksPerMs) →
      leverRun cfg mode s ts = (s, []) := by
  intro ts
  induction ts with
  | nil => intro _ _; rfl
  | cons t ts ih =>
    intro hidx hearly
    have hi := hidx t (List.mem_cons_self t ts)
    have he := hearly t (List.mem_cons_self t ts)
    have hm : ¬ (mode = 2 ∧ idxOf cfg t ≥ 0 ∧ idxOf cfg t < 15) := fun h => hmode h.1
    have hg : ¬ (idxOf cfg t ≠ -1 ∧ idxOf cfg t ≠ s.last_idx ∧ dwellOk cfg s t) := by
      intro h
      have h3 := h.2.2
      unfold dwellOk dwellStart at h3
      rw [if_neg (not_not.mpr hi), hdeb, elapsed_ge_iff _ _ k hk] at h3
      omega
    have ht : leverTick cfg mode s t = (s, []) := by
      rw [leverTick_hold cfg mode s t hm hg, candidateUpdate_same s _ _ hi]
    simp only [leverRun, ht]
    rw [ih (fun x hx => hidx x (List.mem_cons_of_mem t hx))
      (fun x hx => hearly x (List.mem_cons_of_mem t hx))]
    rfl

theorem leverRun_one_step (cfg : Config) (mode : Int) (hmode : mode ≠ 2) (s : LeverState)
    (hdeb : cfg.debounce_ms = 30) (hbase : s.last_idx = 9) (hst : s.stable_idx = 7) :
    ∀ (ts : List Tick), (∀ t ∈ ts, idxOf cfg t = 7) → (∀ t ∈ ts, t.now ≤ t.after) →
      (∀ t ∈ ts, t.now ≤ s.last_event_time + 40 * ticksPerMs) →
      (∃ t ∈ ts, t.now ≥ s.last_event_time + 30 * ticksPerMs) →
      (leverRun cfg mode s ts).2 = stepActions cfg mode (-1) ∧
      (leverRun cfg mode s ts).1.last_idx = 8 := by
  intro ts
  induction ts with
  | nil => intro _ _ _ hex; obtain ⟨t, ht, _⟩ := hex; cases ht
  | cons t ts ih =>
    intro hidx hclock hwin hex
    have hi := hidx t (List.mem_cons_self t ts)
    have hidx2 : ∀ x ∈ ts, idxOf cfg x = 7 := fun x hx => hidx x (List.mem_cons_of_mem t hx)
    have hwin2 : ∀ x ∈ ts, x.now ≤ s.last_event_time + 40 * ticksPerMs :=
      fun x hx => hwin x (List.mem_cons_of_mem t hx)
    have hm : ¬ (mode = 2 ∧ idxOf cfg t ≥ 0 ∧ idxOf cfg t < 15) := fun h => hmode h.1
    have hds : dwellStart cfg s t = s.last_event_time := by
      unfold dwellStart
      rw [if_neg (not_not.mpr (hi.trans hst.symm))]
    by_cases hlate : t.now ≥ s.last_event_time + 30 * ticksPerMs
    · have hg : idxOf cfg t ≠ -1 ∧ idxOf cfg t ≠ s.last_idx ∧ dwellOk cfg s t := by
        refine ⟨by omega, by omega, ?_⟩
        unfold dwellOk
        rw [hds, hdeb, elapsed_ge_iff _ _ 30 (by decide)]
        omega
      have ht := leverTick_step cfg mode s t hm hg (by omega)
      rw [hi, hbase] at ht
      have hdir : (if (7 : Int) - 9 > 0 then (1 : Int) else -1) = -1 := by decide
      rw [hdir] at ht
      have hta := hclock t (List.mem_cons_self t ts)
      have hrest := leverRun_waiting cfg mode hmode
        ⟨9 + -1, 7, t.after⟩ 30 (by decide) hdeb ts hidx2
        (by
          intro x hx
          have := hwin2 x hx
          simp only
          unfold ticksPerMs at *
          omega)
      simp only [leverRun]
      rw [ht]
      simp only
      rw [hrest]
      exact ⟨by simp, by simp⟩
    · have hg : ¬ (idxOf cfg t ≠ -1 ∧ idxOf cfg t ≠ s.last_idx ∧ dwellOk cfg s t) := by
        intro h
        have h3 := h.2.2
        unfold dwellOk at h3
        rw [hds, hdeb, elapsed_ge_iff _ _ 30 (by decide)] at h3
        omega
      have ht : leverTick cfg mode s t = (s, []) := by
        rw [leverTick_hold cfg mode s t hm hg,
          candidateUpdate_same s _ _ (hi.trans hst.symm)]
      have hex2 : ∃ x ∈ ts, x.now ≥ s.last_event_time + 30 * ticksPerMs := by
        obtain ⟨x, hx, hxl⟩ := hex
        rcases List.mem_cons.mp hx with h | h
        · rw [h] at hxl; exact absurd hxl hlate
        · exact ⟨x, h, hxl⟩
      simp only [leverRun, ht, List.nil_append]
      exact ih hidx2 (fun x hx => hclock x (List.mem_cons_of_mem t hx)) hwin2 hex2

/-- C21 (scenario A): with `debounce_ms = 30`, the Neutral baseline recorded
(`last_idx = 9`) and definitions for which the pressed set `{7}` matches index
7, when `{7}` appears on tick `t0` and is held on every tick of a 40 ms window,
no lever action is performed on the ticks earlier than 30 ms after `t0`, and if
the window has a tick at or after 30 ms the whole window performs exactly one
step (towards the lower index, `last_idx` becomes 8). -/
theorem scenarioA_one_step (cfg : Config) (mode : Int) (s : LeverState)
    (t0 : Tick) (rest : List Tick)
    (hmode : mode = 0 ∨ mode = 1) (hdeb : cfg.debounce_ms = 30)
    (hbase : s.last_idx = 9) (hnew : s.stable_idx ≠ 7)
    (hdef : match_combo {7} cfg.lever_mappings = 7)
    (hpressed : ∀ t ∈ t0 :: rest, t.pressed = {7})
    (hclock : ∀ t ∈ t0 :: rest, t.now ≤ t.after)
    (hwin : ∀ t ∈ rest, t.now ≤ t0.now + 40 * ticksPerMs) :
    (∀ (pre post : List Tick), t0 :: rest = pre ++ post →
      (∀ t ∈ pre, t.now < t0.now + 30 * ticksPerMs) →
      (leverRun cfg mode s pre).2 = []) ∧
    ((∃ t ∈ rest, t.now ≥ t0.now + 30 * ticksPerMs) →
      (leverRun cfg mode s (t0 :: rest)).2 = stepActions cfg mode (-1) ∧
      (leverRun cfg mode s (t0 :: rest)).1.last_idx = 8) := by
  have hm2 : mode ≠ 2 := by omega
  have hidx : ∀ t ∈ t0 :: rest, idxOf cfg t = 7 := by
    intro t ht
    unfold idxOf
    rw [hpressed t ht]
    exact hdef
  have hi0 := hidx t0 (List.mem_cons_self t0 rest)
  have hm : ¬ (mode = 2 ∧ idxOf cfg t0 ≥ 0 ∧ idxOf cfg t0 < 15) := fun h => hm2 h.1
  have hne : idxOf cfg t0 ≠ s.stable_idx := by rw [hi0]; exact fun h => hnew h.symm
  have hg : ¬ (idxOf cfg t0 ≠ -1 ∧ idxOf cfg t0 ≠ s.last_idx ∧ dwellOk cfg s t0) := by
    intro h
    have h3 := h.2.2
    unfold dwellOk dwellStart at h3
    rw [if_pos hne, elapsedMs_self, hdeb] at h3
    omega
  have ht0 : leverTick cfg mode s t0 = (⟨9, 7, t0.now⟩, []) := by
    rw [leverTick_hold cfg mode s t0 hm hg]
    unfold candidateUpdate
    rw [if_pos hne, hi0, hbase]
  constructor
  · intro pre post hsplit hearly
    cases pre with
    | nil => rfl
    | cons p pre2 =>
      rw [List.cons_append] at hsplit
      have hp : t0 = p := (List.cons.inj hsplit).1
      have hr : rest = pre2 ++ post := (List.cons.inj hsplit).2
      subst hp
      simp only [leverRun, ht0, List.nil_append]
      rw [leverRun_waiting cfg mode hm2 ⟨9, 7, t0.now⟩ 30 (by decide) hdeb pre2
        (fun x hx => hidx x (List.mem_cons_of_mem t0 (by rw [hr]; exact List.mem_append_left _ hx)))
        (fun x hx => by
          have := hearly x (List.mem_cons_of_mem t0 hx)
          simp only
          omega)]
  · intro hex
    simp only [leverRun, ht0, List.nil_append]
    exact leverRun_one_step cfg mode hm2 ⟨9, 7, t0.now⟩ hdeb rfl rfl rest
      (fun x hx => hidx x (List.mem_cons_of_mem t0 hx))
      (fun x hx => hclock x (List.mem_cons_of_mem t0 hx)) hwin hex

/-- Witness for C21: scenario A in directional mode; nothing is emitted on the
ticks up to 129 ms and the window emits exactly one `VK_UP` pulse. -/
theorem scenarioA_one_step_witness :
    ((0 : Int) = 0 ∨ (0 : Int) = 1) ∧ scenarioAConfig.debounce_ms = 30 ∧
    match_combo {7} scenarioAConfig.lever_mappings = 7 ∧
    match_combo ∅ scenarioAConfig.lever_mappings = 9 ∧
    (leverRun scenarioAConfig 0 ⟨9, 9, 0⟩ scenarioA).2 =
      [Action.key VK_UP false false, Action.sleep 10, Action.key VK_UP false true,
       Action.sleep 25] ∧
    (leverRun scenarioAConfig 0 ⟨9, 9, 0⟩ scenarioA).1.last_idx = 8 :=
  ⟨by decide, by decide, by decide, by decide,
   (scenarioA_one_step scenarioAConfig 0 ⟨9, 9, 0⟩ ⟨{7}, 100000000, 100000000⟩
     [⟨{7}, 110000000, 110000000⟩, ⟨{7}, 120000000, 120000000⟩,
      ⟨{7}, 129000000, 129000000⟩, ⟨{7}, 130000000, 165000000⟩,
      ⟨{7}, 135000000, 135000000⟩, ⟨{7}, 140000000, 140000000⟩]
     (Or.inl rfl) (by decide) rfl (by decide) (by decide) (by decide) (by decide)
     (by decide)).2 (by decide)⟩

/-! ## The default lever mapping -/

theorem default_match_value (P : Finset Int) :
    match_combo P default_config.lever_mappings =
      8 * (if (6 : Int) ∈ P then 1 else 0) + 4 * (if (7 : Int) ∈ P then 1 else 0) +
        2 * (if (8 : Int) ∈ P then 1 else 0) + (if (9 : Int) ∈ P then 1 else 0) - 1 := by
  have hd : default_config.lever_mappings =
    [{9}, {8}, {8, 9}, {7}, {7, 9}, {7, 8}, {7, 8, 9}, {6}, {6, 9}, {6, 8},
     {6, 8, 9}, {6, 7}, {6, 7, 9}, {6, 7, 8}, {6, 7, 8, 9}] := rfl
  rw [hd]
  by_cases h6 : (6 : Int) ∈ P <;> by_cases h7 : (7 : Int) ∈ P <;>
    by_cases h8 : (8 : Int) ∈ P <;> by_cases h9 : (9 : Int) ∈ P <;>
    simp [match_combo, match_combo_loop, Finset.insert_subset_iff, h6, h7, h8, h9]

/-- C30: with the default lever mappings, `match_combo P` equals
`8*[6 ∈ P] + 4*[7 ∈ P] + 2*[8 ∈ P] + [9 ∈ P] - 1`; hence it is `-1` exactly when
none of the buttons 6, 7, 8, 9 is pressed, two pressed sets get the same result
exactly when they agree on the buttons 6, 7, 8, 9, and each index `k` in
`0..14` is the result for the `k`-th default combination. -/
theorem default_match_formula (P : Finset Int) :
    match_combo P default_config.lever_mappings =
      8 * (if (6 : Int) ∈ P then 1 else 0) + 4 * (if (7 : Int) ∈ P then 1 else 0) +
        2 * (if (8 : Int) ∈ P then 1 else 0) + (if (9 : Int) ∈ P then 1 else 0) - 1 ∧
    (match_combo P default_config.lever_mappings = -1 ↔
      (6 : Int) ∉ P ∧ (7 : Int) ∉ P ∧ (8 : Int) ∉ P ∧ (9 : Int) ∉ P) ∧
    (∀ (Q : Finset Int),
      match_combo P default_config.lever_mappings = match_combo Q default_config.lever_mappings ↔
        (((6 : Int) ∈ P ↔ (6 : Int) ∈ Q) ∧ ((7 : Int) ∈ P ↔ (7 : Int) ∈ Q) ∧
         ((8 : Int) ∈ P ↔ (8 : Int) ∈ Q) ∧ ((9 : Int) ∈ P ↔ (9 : Int) ∈ Q))) ∧
    (∀ (k : Fin 15),
      default_config.lever_mappings.getD k ∅ ⊆ {6, 7, 8, 9} ∧
      default_config.lever_mappings.getD k ∅ ≠ ∅ ∧
      match_combo (default_config.lever_mappings.getD k ∅) default_config.lever_mappings =
        ((k : Nat) : Int)) := by
  refine ⟨default_match_value P, ?_, ?_, by decide⟩
  · rw [default_match_value P]
    by_cases h6 : (6 : Int) ∈ P <;> by_cases h7 : (7 : Int) ∈ P <;>
      by_cases h8 : (8 : Int) ∈ P <;> by_cases h9 : (9 : Int) ∈ P <;>
      simp [h6, h7, h8, h9]
  · intro Q
    rw [default_match_value P, default_match_value Q]
    by_cases h6 : (6 : Int) ∈ P <;> by_cases h7 : (7 : Int) ∈ P <;>
      by_cases h8 : (8 : Int) ∈ P <;> by_cases h9 : (9 : Int) ∈ P <;>
      by_cases q6 : (6 : Int) ∈ Q <;> by_cases q7 : (7 : Int) ∈ Q <;>
      by_cases q8 : (8 : Int) ∈ Q <;> by_cases q9 : (9 : Int) ∈ Q <;>
      simp [h6, h7, h8, h9, q6, q7, q8, q9]

/-! ## Configuration file -/

theorem ite_motive {α : Type} (Q : α → Prop) (c : Prop) [Decidable c] (a b : α)
    (ha : c → Q a) (hb : ¬ c → Q b) : Q (if c then a else b) := by
  by_cases h : c
  · rw [if_pos h]; exact ha h
  · rw [if_neg h]; exact hb h

theorem loadLine_mappings_le (st : LoadState) (line : List Char)
    (h : st.cfg.lever_mappings.length ≤ 15) :
    (loadLine st line).cfg.lever_mappings.length ≤ 15 := by
  unfold loadLine
  refine ite_motive (fun (x : LoadState) => x.cfg.lever_mappings.length ≤ 15) _ _ _ (fun _ => h) (fun _ => ?_)
  iterate 13
    refine ite_motive (fun (x : LoadState) => x.cfg.lever_mappings.length ≤ 15) _ _ _ (fun _ => h) (fun _ => ?_)
  refine ite_motive (fun (x : LoadState) => x.cfg.lever_mappings.length ≤ 15) _ _ _ (fun hc => ?_) (fun _ => ?_)
  · show (st.cfg.lever_mappings ++ [parseMapping line]).length ≤ 15
    rw [List.length_append, List.length_singleton]
    omega
  · exact ite_motive (fun (x : LoadState) => x.cfg.lever_mappings.length ≤ 15) _ _ _ (fun _ => h) (fun _ => h)

theorem foldl_loadLine_mappings_le (lines : List (List Char)) :
    ∀ (st : LoadState), st.cfg.lever_mappings.length ≤ 15 →
      (lines.foldl loadLine st).cfg.lever_mappings.length ≤ 15 := by
  induction lines with
  | nil => intro st h; exact h
  | cons l ls ih =>
    intro st h
    rw [List.foldl_cons]
    exact ih _ (loadLine_mappings_le st l h)

theorem loadLoop_mappings_le (cfg : Config) (content : List Char) :
    (loadLoop cfg content).cfg.lever_mappings.length ≤ 15 := by
  unfold loadLoop
  apply foldl_loadLine_mappings_le
  simp

theorem loadLine_skipped (st : LoadState) (line : List Char) (hs : isSkipped line) :
    loadLine st line = st := by
  have hs2 : line.isEmpty = true ∨ line.head? = some chHash := hs
  unfold loadLine
  rw [if_pos hs2]

theorem loadLine_setting (st : LoadState) (line : List Char) (hs : ¬ isSkipped line)
    (hset : isSettingLine line) :
    (loadLine st line).loaded = st.loaded + 1 ∧
    (loadLine st line).cfg.lever_mappings = st.cfg.lever_mappings := by
  have hs2 : ¬ (line.isEmpty = true ∨ line.head? = some chHash) := hs
  unfold loadLine
  rw [if_neg hs2]
  by_cases h1 : startsWith "debounce_ms=".toList line = true
  · rw [if_pos h1]; exact ⟨rfl, rfl⟩
  rw [if_neg h1]
  by_cases h2 : startsWith "up_down_delay_ms=".toList line = true
  · rw [if_pos h2]; exact ⟨rfl, rfl⟩
  rw [if_neg h2]
  by_cases h3 : startsWith "mouse_scroll_delay_ms=".toList line = true
  · rw [if_pos h3]; exact ⟨rfl, rfl⟩
  rw [if_neg h3]
  by_cases h4 : startsWith "key_hold_time_ms=".toList line = true
  · rw [if_pos h4]; exact ⟨rfl, rfl⟩
  rw [if_neg h4]
  by_cases h5 : startsWith "last_mode=".toList line = true
  · rw [if_pos h5]; exact ⟨rfl, rfl⟩
  rw [if_neg h5]
  by_cases h6 : startsWith "last_joystick=".toList line = true
  · rw [if_pos h6]; exact ⟨rfl, rfl⟩
  rw [if_neg h6]
  by_cases h7 : startsWith "language=".toList line = true
  · rw [if_pos h7]; exact ⟨rfl, rfl⟩
  rw [if_neg h7]
  by_cases h8 : startsWith "big_horn_button=".toList line = true
  · rw [if_pos h8]; exact ⟨rfl, rfl⟩
  rw [if_neg h8]
  by_cases h9 : startsWith "small_horn_button=".toList line = true
  · rw [if_pos h9]; exact ⟨rfl, rfl⟩
  rw [if_neg h9]
  by_cases h10 : startsWith "credit_button=".toList line = true
  · rw [if_pos h10]; exact ⟨rfl, rfl⟩
  rw [if_neg h10]
  by_cases h11 : startsWith "test_menu_button=".toList line = true
  · rw [if_pos h11]; exact ⟨rfl, rfl⟩
  rw [if_neg h11]
  by_cases h12 : startsWith "debug_mission_button=".toList line = true
  · rw [if_pos h12]; exact ⟨rfl, rfl⟩
  rw [if_neg h12]
  by_cases h13 : startsWith "profile=".toList line = true
  · rw [if_pos h13]; exact ⟨rfl, rfl⟩
  rw [if_neg h13]
  exfalso
  rcases hset with h | h | h | h | h | h | h | h | h | h | h | h | h
  · exact absurd h h1
  · exact absurd h h2
  · exact absurd h h3
  · exact absurd h h4
  · exact absurd h h5
  · exact absurd h h6
  · exact absurd h h7
  · exact absurd h h8
  · exact absurd h h9
  · exact absurd h h10
  · exact absurd h h11
  · exact absurd h h12
  · exact absurd h h13

theorem loadLine_other (st : LoadState) (line : List Char) (hs : ¬ isSkipped line)
    (hns : ¬ isSettingLine line) :
    (loadLine st line).loaded = st.loaded ∧
    (loadLine st line).cfg.lever_mappings =
      if st.loaded ≥ 11 ∧ st.cfg.lever_mappings.length < 15 then
        st.cfg.lever_mappings ++ [parseMapping line]
      else st.cfg.lever_mappings := by
  have hs2 : ¬ (line.isEmpty = true ∨ line.head? = some chHash) := hs
  unfold loadLine
  rw [if_neg hs2]
  have h1 : ¬ startsWith "debounce_ms=".toList line = true := fun h => hns (Or.inl h)
  rw [if_neg h1]
  have h2 : ¬ startsWith "up_down_delay_ms=".toList line = true := fun h => hns (Or.inr (Or.inl h))
  rw [if_neg h2]
  have h3 : ¬ startsWith "mouse_scroll_delay_ms=".toList line = true := fun h => hns (Or.inr (Or.inr (Or.inl h)))
  rw [if_neg h3]
  have h4 : ¬ startsWith "key_hold_time_ms=".toList line = true := fun h => hns (Or.inr (Or.inr (Or.inr (Or.inl h))))
  rw [if_neg h4]
  have h5 : ¬ startsWith "last_mode=".toList line = true := fun h => hns (Or.inr (Or.inr (Or.inr (Or.inr (Or.inl h)))))
  rw [if_neg h5]
  have h6 : ¬ startsWith "last_joystick=".toList line = true := fun h => hns (Or.inr (Or.inr (Or.inr (Or.inr (Or.inr (Or.inl h))))))
  rw [if_neg h6]
  have h7 : ¬ startsWith "language=".toList line = true := fun h => hns (Or.inr (Or.inr (Or.inr (Or.inr (Or.inr (Or.inr (Or.inl h)))))))
  rw [if_neg h7]
  have h8 : ¬ startsWith "big_horn_button=".toList line = true := fun h => hns (Or.inr (Or.inr (Or.inr (Or.inr (Or.inr (Or.inr (Or.inr (Or.inl h))))))))
  rw [if_neg h8]
  have h9 : ¬ startsWith "small_horn_button=".toList line = true := fun h => hns (Or.inr (Or.inr (Or.inr (Or.inr (Or.inr (Or.inr (Or.inr (Or.inr (Or.inl h)))))))))
  rw [if_neg h9]
  have h10 : ¬ startsWith "credit_button=".toList line = true := fun h => hns (Or.inr (Or.inr (Or.inr (Or.inr (Or.inr (Or.inr (Or.inr (Or.inr (Or.inr (Or.inl h))))))))))
  rw [if_neg h10]
  have h11 : ¬ startsWith "test_menu_button=".toList line = true := fun h => hns (Or.inr (Or.inr (Or.inr (Or.inr (Or.inr (Or.inr (Or.inr (Or.inr (Or.inr (Or.inr (Or.inl h)))))))))))
  rw [if_neg h11]
  have h12 : ¬ startsWith "debug_mission_button=".toList line = true := fun h => hns (Or.inr (Or.inr (Or.inr (Or.inr (Or.inr (Or.inr (Or.inr (Or.inr (Or.inr (Or.inr (Or.inr (Or.inl h))))))))))))
  rw [if_neg h12]
  have h13 : ¬ startsWith "profile=".toList line = true := fun h => hns (Or.inr (Or.inr (Or.inr (Or.inr (Or.inr (Or.inr (Or.inr (Or.inr (Or.inr (Or.inr (Or.inr (Or.inr (h)))))))))))))
  rw [if_neg h13]
  by_cases hm : st.loaded ≥ 11 ∧ st.cfg.lever_mappings.length < 15
  · rw [if_pos hm, if_pos hm]; exact ⟨rfl, rfl⟩
  · rw [if_neg hm, if_neg hm]
    by_cases hk : st.loaded ≥ 26 ∧ st.lever_keycode_count < 15
    · rw [if_pos hk]; exact ⟨rfl, rfl⟩
    · rw [if_neg hk]; exact ⟨rfl, rfl⟩

theorem foldl_loadLine_spec (lines : List (List Char)) :
    ∀ (st : LoadState), st.cfg.lever_mappings.length ≤ 15 →
      (lines.foldl loadLine st).loaded = st.loaded + settingsRead lines ∧
      (lines.foldl loadLine st).cfg.lever_mappings =
        st.cfg.lever_mappings ++
          ((definitionLinesFrom st.loaded lines).take
            (15 - st.cfg.lever_mappings.length)).map parseMapping := by
  induction lines with
  | nil => intro st _; simp [settingsRead, definitionLinesFrom]
  | cons line rest ih =>
    intro st hle
    rw [List.foldl_cons]
    by_cases hs : isSkipped line
    · rw [loadLine_skipped st line hs]
      obtain ⟨h1, h2⟩ := ih st hle
      have hnot : ¬ (¬ isSkipped line ∧ isSettingLine line) := fun h => h.1 hs
      rw [h1, h2, settingsRead, if_neg hnot, definitionLinesFrom, if_pos hs]
      exact ⟨by omega, rfl⟩
    · by_cases hset : isSettingLine line
      · obtain ⟨hl, hm⟩ := loadLine_setting st line hs hset
        obtain ⟨h1, h2⟩ := ih (loadLine st line) (by rw [hm]; exact hle)
        rw [h1, h2, hl, hm, settingsRead, if_pos ⟨hs, hset⟩, definitionLinesFrom,
          if_neg hs, if_pos hset]
        exact ⟨by omega, rfl⟩
      · obtain ⟨hl, hm⟩ := loadLine_other st line hs hset
        have hnot : ¬ (¬ isSkipped line ∧ isSettingLine line) := fun h => hset h.2
        have hle2 : (loadLine st line).cfg.lever_mappings.length ≤ 15 := by
          rw [hm]
          split_ifs with hc
          · rw [List.length_append, List.length_singleton]; omega
          · exact hle
        obtain ⟨h1, h2⟩ := ih (loadLine st line) hle2
        rw [h1, h2, hl, hm, settingsRead, if_neg hnot, definitionLinesFrom,
          if_neg hs, if_neg hset]
        refine ⟨by omega, ?_⟩
        by_cases h11 : st.loaded ≥ 11
        · rw [if_pos h11]
          by_cases h15 : st.cfg.lever_mappings.length < 15
          · rw [if_pos ⟨h11, h15⟩, List.length_append, List.length_singleton]
            have hk : 15 - st.cfg.lever_mappings.length =
                (15 - (st.cfg.lever_mappings.length + 1)) + 1 := by omega
            rw [hk, List.take_succ_cons, List.map_cons, List.append_assoc]
            rfl
          · have h0 : 15 - st.cfg.lever_mappings.length = 0 := by omega
            rw [if_neg (fun h => h15 h.2), h0]
            simp
        · rw [if_neg h11, if_neg (fun h => h11 h.1)]

theorem loadLoop_spec (cfg : Config) (content : List Char) :
    (loadLoop cfg content).loaded = settingsRead (getlines content []) ∧
    (loadLoop cfg content).cfg.lever_mappings = suppliedDefinitions content := by
  unfold loadLoop suppliedDefinitions
  obtain ⟨h1, h2⟩ := foldl_loadLine_spec (getlines content [])
    { cfg := { cfg with lever_mappings := [], lever_keycodes := List.replicate 15 0 },
      loaded := 0, lever_keycode_count := 0 } (by simp)
  rw [h1, h2]
  simp

set_option maxRecDepth 100000 in
/-- Counterexample to C22 as stated: a file with all thirteen settings and only
two position definitions is not rejected; `load_config` returns `true`, and the
thirteen missing definitions are taken from the default mapping. -/
theorem load_rejects_short_file_counterexample :
    settingsRead (getlines truncatedFile []) = 13 ∧
    suppliedDefinitions truncatedFile = [{20}, {21}] ∧
    (loadLoop default_config truncatedFile).cfg.lever_mappings = [{20}, {21}] ∧
    (load_config default_config (some truncatedFile)).2 = true ∧
    (load_config default_config (some truncatedFile)).1.lever_mappings =
      [{20}, {21}, {8, 9}, {7}, {7, 9}, {7, 8}, {7, 8, 9}, {6}, {6, 9}, {6, 8},
       {6, 8, 9}, {6, 7}, {6, 7, 9}, {6, 7, 8}, {6, 7, 8, 9}] := by
  decide

/-- C22 as amended: `load_config` does not reject a file that supplies fewer
than 15 position definitions. For every file that can be opened, the loaded
definition list is the definitions the file supplies (the sets on its first
fifteen definition lines) followed by the default mapping from that index on,
so it has exactly 15 entries, and the result is `true` exactly when the file
has at least 5 settings lines; a file that cannot be opened gives `false` and
leaves the configuration as it was. -/
theorem load_config_fills_defaults (cfg : Config) (content : List Char) :
    (suppliedDefinitions content).length ≤ 15 ∧
    (load_config cfg (some content)).1.lever_mappings =
      suppliedDefinitions content ++
        default_config.lever_mappings.drop (suppliedDefinitions content).length ∧
    (load_config cfg (some content)).1.lever_mappings.length = 15 ∧
    ((load_config cfg (some content)).2 = true ↔ settingsRead (getlines content []) ≥ 5) ∧
    load_config cfg none = (cfg, false) := by
  obtain ⟨hloaded, hmaps⟩ := loadLoop_spec cfg content
  have hle : (suppliedDefinitions content).length ≤ 15 := by
    rw [← hmaps]; exact loadLoop_mappings_le cfg content
  have hdef : default_config.lever_mappings.length = 15 := by decide
  have hres : (load_config cfg (some content)).1.lever_mappings =
      suppliedDefinitions content ++
        default_config.lever_mappings.drop (suppliedDefinitions content).length := by
    rw [← hmaps]; rfl
  refine ⟨hle, hres, ?_, ?_, rfl⟩
  · rw [hres, List.length_append, List.length_drop, hdef]
    omega
  · rw [← hloaded]
    simp [load_config]

set_option maxRecDepth 100000 in
/-- C27, the code at the failing input: a configuration with
`key_hold_time_ms = 20` is written by `save_config` and read back by
`load_config` into a fresh configuration; the load succeeds and the other ten
numeric settings come back, but `key_hold_time_ms` is 10, the default, because
its branch takes the value from position 16 of the line (the `=` sign
included) and `std::stoi` fails on it. -/
theorem key_hold_time_lost_on_reload :
    tunedConfig.key_hold_time_ms = 20 ∧
    get_value ("key_hold_time_ms=".toList ++ showInt 20) 16 = "=20".toList ∧
    stoi "=20".toList = none ∧
    (load_config default_config (some (save_config tunedConfig))).2 = true ∧
    (load_config default_config (some (save_config tunedConfig))).1.key_hold_time_ms = 10 ∧
    (load_config default_config (some (save_config tunedConfig))).1.debounce_ms = 45 ∧
    (load_config default_config (some (save_config tunedConfig))).1.up_down_delay_ms = 33 ∧
    (load_config default_config (some (save_config tunedConfig))).1.mouse_scroll_delay_ms = 21 ∧
    (load_config default_config (some (save_config tunedConfig))).1.last_mode = 1 ∧
    (load_config default_config (some (save_config tunedConfig))).1.last_joystick = 2 ∧
    (load_config default_config (some (save_config tunedConfig))).1.big_horn_button = 3 ∧
    (load_config default_config (some (save_config tunedConfig))).1.small_horn_button = 4 ∧
    (load_config default_config (some (save_config tunedConfig))).1.credit_button = 5 ∧
    (load_config default_config (some (save_config tunedConfig))).1.test_menu_button = -1 ∧
    (load_config default_config (some (save_config tunedConfig))).1.debug_mission_button = 11 := by
  decide

set_option maxRecDepth 100000 in
/-- C28, the code at the failing input: a configuration with every lever key
code `0x41` is written by `save_config` and read back by `load_config`; the
reading loop ends with `loaded = 13`, so the key code branch (`loaded >= 26`)
is never taken and all 15 loaded key codes are 0. -/
theorem lever_keycodes_lost_on_reload :
    tunedConfig.lever_keycodes = List.replicate 15 0x41 ∧
    (loadLoop default_config (save_config tunedConfig)).loaded = 13 ∧
    (loadLoop default_config (save_config tunedConfig)).lever_keycode_count = 0 ∧
    (load_config default_config (some (save_config tunedConfig))).2 = true ∧
    (load_config default_config (some (save_config tunedConfig))).1.lever_keycodes =
      List.replicate 15 0 := by
  decide

set_option maxRecDepth 100000 in
/-- C29, the code at the failing input: a configuration whose position 9 is the
empty set is written by `save_config` (an empty line for that position) and
read back by `load_config`; the empty line is skipped, the later mappings move
up by one position, and the first key code line is read as the fifteenth
mapping. -/
theorem empty_mapping_lost_on_reload :
    scenarioAConfig.lever_mappings.length = 15 ∧
    scenarioAConfig.lever_mappings[9]? = some ∅ ∧
    (load_config default_config (some (save_config scenarioAConfig))).2 = true ∧
    (load_config default_config (some (save_config scenarioAConfig))).1.lever_mappings =
      [{20}, {21}, {22}, {23}, {24}, {25}, {26}, {7}, {28},
       {30}, {31}, {32}, {33}, {34}, {0}] ∧
    (load_config default_config (some (save_config scenarioAConfig))).1.lever_mappings
      ≠ scenarioAConfig.lever_mappings := by
  decide

end Mascon
